import Mathlib

/-!
# deadbeef MP4 parser: shallow embedding and checked properties

Embedding of `plugins/mp4parser/mp4parser.c` (atom loader, sample table
queries, atom serializer, genre table, metadata item builders) and of
`shared/mp4tagutil.c` (tag map, writing and reading of tags).

Conventions of the embedding

* A byte is a `Nat`; a well-formed byte source holds values below 256.
* `uint32_t` / `uint64_t` arithmetic is written on `Nat` with an explicit
  `% 2^32` / `% 2^64` wherever the C expression can wrap.
* The file callbacks are the stdio backend over a finite byte string:
  `fread` delivers the bytes that are left (a short read at end of file),
  `fseek` accepts every non-negative position, `ftell` reports the cursor.
* A C array with its element count (`number_of_entries`, `entries`) is a
  `List`; the count is its length (the parser allocates exactly
  `number_of_entries` zeroed elements before it fills them).
* A `mp4p_atom_t *` that is walked through `->next` is the `List Atom` of the
  atom and the siblings after it; `NULL` is `[]`.
* Functions that can dereference `NULL` or index outside an array return
  `Option`: `none` is that invalid access.
* Loops whose termination depends on the input take a `fuel` argument;
  `none` from a loader means the fuel ran out.
* `malloc`/`calloc` are assumed to succeed; `printf` output is not modelled.
* A C string that the code allocates with its terminator (`strdup`,
  `calloc (n + 1, 1)`) is the list of its bytes before the NUL. The name of a
  parsed custom item is a block without terminator: the list holds all its
  bytes, and `mp4_load_tags` reading past them is an invalid access.
* A pointer into the atom tree that the code keeps and writes through is the
  list of child indices that leads to the atom.
* The track object of the host is what its functions return to the code; the
  effect of the code on it is the sequence of host calls made.
* `mp4p_update_metadata` is called by `mp4_write_metadata` but is not among
  the sources; its placement decision is modelled from the specification
  (`mp4p_update_metadata_placement`).
-/

namespace Mp4

/-! ## Byte source -/

/-- The byte values of an ASCII C string literal. -/
def chars (s : String) : List Nat := s.toList.map Char.toNat

/-- `COPYRIGHT_SYM`, the byte `\xa9`. -/
def COPYRIGHT_SYM : List Nat := [0xa9]

/-- `mp4p_file_callbacks_t` over a finite file: its bytes and the cursor. -/
structure File where
  bytes : List Nat
  pos : Nat
deriving DecidableEq, Repr

namespace File

/-- `fp->ftell (fp->data)`. -/
def ftell (fp : File) : Nat := fp.pos

/-- `fp->fseek (fp->data, offset, SEEK_SET)`. -/
def fseek_set (fp : File) (offset : Nat) : File := { fp with pos := offset }

/-- `fp->fseek (fp->data, offset, SEEK_CUR)`; a seek before the start of the
file fails and leaves the cursor where it was. -/
def fseek_cur (fp : File) (offset : Int) : File :=
  if 0 ≤ (fp.pos : Int) + offset then { fp with pos := ((fp.pos : Int) + offset).toNat } else fp

/-- `fp->fread (ptr, 1, n, fp->data)`: the bytes obtained (their number is the
return value of `fread`) and the file with the cursor moved past them. -/
def fread (fp : File) (n : Nat) : List Nat × File :=
  let got := (fp.bytes.drop fp.pos).take n
  (got, { fp with pos := fp.pos + got.length })

end File

/-- `_read_uint16`: `none` is the `-1` of a short read. -/
def _read_uint16 (fp : File) : Option Nat × File :=
  match fp.fread 2 with
  | ([c0, c1], fp1) => (some ((c1 ||| (c0 <<< 8)) % 2 ^ 16), fp1)
  | (_, fp1) => (none, fp1)

/-- `_read_uint32`: `none` is the `-1` of a short read. -/
def _read_uint32 (fp : File) : Option Nat × File :=
  match fp.fread 4 with
  | ([c0, c1, c2, c3], fp1) =>
    (some ((c3 ||| (c2 <<< 8) ||| (c1 <<< 16) ||| (c0 <<< 24)) % 2 ^ 32), fp1)
  | (_, fp1) => (none, fp1)

/-- `_read_uint64`: `none` is the `-1` of a short read. -/
def _read_uint64 (fp : File) : Option Nat × File :=
  match fp.fread 8 with
  | ([c0, c1, c2, c3, c4, c5, c6, c7], fp1) =>
    (some ((c7 ||| (c6 <<< 8) ||| (c5 <<< 16) ||| (c4 <<< 24) ||| (c3 <<< 32) ||| (c2 <<< 40)
      ||| (c1 <<< 48) ||| (c0 <<< 56)) % 2 ^ 64), fp1)
  | (_, fp1) => (none, fp1)

/-! ## Payloads (`atom->data`)

The struct declarations live in `mp4parser.h`, which is not among the
sources. Each field is given the width of the reader that fills it
(`READ_UINT8`, `READ_UINT16`, `READ_UINT32`, `READ_UINT64`), and keeps the
name used in `mp4parser.c`. -/

structure mp4p_mtyp_t where
  major_brand : List Nat := [0, 0, 0, 0]
  version : List Nat := [0, 0, 0, 0]
  compat_brand_1 : List Nat := [0, 0, 0, 0]
  compat_brand_2 : List Nat := [0, 0, 0, 0]
deriving DecidableEq, Repr

structure mp4p_mvhd_t where
  creation_time : Nat := 0
  modification_time : Nat := 0
  time_scale : Nat := 0
  duration : Nat := 0
  preferred_rate : Nat := 0
  preferred_volume : Nat := 0
  reserved : List Nat := []
  matrix_structure : List Nat := []
  preview_time : Nat := 0
  preview_duration : Nat := 0
  poster_time : Nat := 0
  selection_time : Nat := 0
  selection_duration : Nat := 0
  current_time : Nat := 0
  next_track_id : Nat := 0
deriving DecidableEq, Repr

structure mp4p_tkhd_t where
  creation_time : Nat := 0
  modification_time : Nat := 0
  track_id : Nat := 0
  reserved : List Nat := []
  duration : Nat := 0
  reserved2 : List Nat := []
  layer : Nat := 0
  alternate_group : Nat := 0
  volume : Nat := 0
  reserved3 : List Nat := []
  matrix_structure : List Nat := []
  track_width : Nat := 0
  track_height : Nat := 0
deriving DecidableEq, Repr

structure mp4p_mdhd_t where
  creation_time : Nat := 0
  modification_time : Nat := 0
  time_scale : Nat := 0
  duration : Nat := 0
  language : Nat := 0
  quality : Nat := 0
deriving DecidableEq, Repr

structure mp4p_hdlr_t where
  component_type : List Nat := [0, 0, 0, 0]
  component_subtype : List Nat := [0, 0, 0, 0]
  component_manufacturer : List Nat := [0, 0, 0, 0]
  component_flags : Nat := 0
  component_flags_mask : Nat := 0
  buf_len : Nat := 0
  buf : Option (List Nat) := none
deriving DecidableEq, Repr

structure mp4p_smhd_t where
  balance : Nat := 0
deriving DecidableEq, Repr

structure mp4p_stsd_t where
  number_of_entries : Nat := 0
deriving DecidableEq, Repr

structure mp4p_stts_entry_t where
  sample_count : Nat := 0
  sample_duration : Nat := 0
deriving DecidableEq, Repr

/-- `mp4p_stts_t`; `number_of_entries` is `entries.length`. -/
structure mp4p_stts_t where
  entries : List mp4p_stts_entry_t := []
deriving DecidableEq, Repr

structure mp4p_stsc_entry_t where
  first_chunk : Nat := 0
  samples_per_chunk : Nat := 0
  sample_description_id : Nat := 0
deriving DecidableEq, Repr

/-- `mp4p_stsc_t`; `number_of_entries` is `entries.length`. -/
structure mp4p_stsc_t where
  entries : List mp4p_stsc_entry_t := []
deriving DecidableEq, Repr

structure mp4p_stsz_entry_t where
  sample_size : Nat := 0
deriving DecidableEq, Repr

/-- `mp4p_stsz_t`; `number_of_entries` is `entries.length`. -/
structure mp4p_stsz_t where
  sample_size : Nat := 0
  entries : List mp4p_stsz_entry_t := []
deriving DecidableEq, Repr

structure mp4p_stco_entry_t where
  offset : Nat := 0
deriving DecidableEq, Repr

/-- `mp4p_stco_t` (shared by `stco` and `co64`); `number_of_entries` is
`entries.length`. -/
structure mp4p_stco_t where
  entries : List mp4p_stco_entry_t := []
deriving DecidableEq, Repr

structure mp4p_dref_t where
  number_of_entries : Nat := 0
deriving DecidableEq, Repr

structure mp4p_alac_t where
  reserved : List Nat := []
  data_reference_index : Nat := 0
  reserved2 : List Nat := []
  channel_count : Nat := 0
  bps : Nat := 0
  packet_size : Nat := 0
  sample_rate : Nat := 0
  asc_size : Nat := 0
  asc : Option (List Nat) := none
deriving DecidableEq, Repr

structure mp4p_mp4a_t where
  reserved : List Nat := []
  data_reference_index : Nat := 0
  reserved2 : List Nat := []
  channel_count : Nat := 0
  bps : Nat := 0
  packet_size : Nat := 0
  sample_rate : Nat := 0
  reserved3 : List Nat := []
deriving DecidableEq, Repr

structure mp4p_esds_t where
  dc_audiotype : Nat := 0
  dc_audiostream : Nat := 0
  dc_buffersize_db : List Nat := []
  dc_max_bitrate : Nat := 0
  dc_avg_bitrate : Nat := 0
  asc_size : Nat := 0
  asc : Option (List Nat) := none
deriving DecidableEq, Repr

/-- `mp4p_meta_t`: a metadata item. `name`, `values`, `text` are the three
nullable pointers; a text is held without its terminating NUL. -/
structure mp4p_meta_t where
  name : Option (List Nat) := none
  values : Option (List Nat) := none
  text : Option (List Nat) := none
  data_size : Nat := 0
  data_offset : Nat := 0
  version_flags : Nat := 0
deriving DecidableEq, Repr

/-- What `atom->data` points to; `none` is the `NULL` left by `calloc`. -/
inductive Payload where
  | none
  | mtyp (d : mp4p_mtyp_t)
  | mvhd (d : mp4p_mvhd_t)
  | tkhd (d : mp4p_tkhd_t)
  | mdhd (d : mp4p_mdhd_t)
  | hdlr (d : mp4p_hdlr_t)
  | smhd (d : mp4p_smhd_t)
  | stsd (d : mp4p_stsd_t)
  | stts (d : mp4p_stts_t)
  | stsc (d : mp4p_stsc_t)
  | stsz (d : mp4p_stsz_t)
  | stco (d : mp4p_stco_t)
  | dref (d : mp4p_dref_t)
  | alac (d : mp4p_alac_t)
  | mp4a (d : mp4p_mp4a_t)
  | esds (d : mp4p_esds_t)
  | meta (d : mp4p_meta_t)
deriving DecidableEq, Repr

/-- The function `atom->to_buffer` points to. -/
inductive Writer where
  | _meta_write
  | _hdlr_write
deriving DecidableEq, Repr

/-- `mp4p_atom_t`: position, declared size, four-byte type, payload, writer
and the list of children (`subatoms`, linked through `next`). -/
inductive Atom where
  | mk (pos : Nat) (size : Nat) (type : List Nat) (data : Payload)
      (to_buffer : Option Writer) (subatoms : List Atom)
deriving Repr

namespace Atom

def pos : Atom → Nat
  | mk p _ _ _ _ _ => p

def size : Atom → Nat
  | mk _ s _ _ _ _ => s

def type : Atom → List Nat
  | mk _ _ t _ _ _ => t

def data : Atom → Payload
  | mk _ _ _ d _ _ => d

def to_buffer : Atom → Option Writer
  | mk _ _ _ _ w _ => w

def subatoms : Atom → List Atom
  | mk _ _ _ _ _ c => c

def setData : Atom → Payload → Atom
  | mk p s t _ w c, d => mk p s t d w c

def setWriter : Atom → Option Writer → Atom
  | mk p s t d _ c, w => mk p s t d w c

def setSubatoms : Atom → List Atom → Atom
  | mk p s t d w _, c => mk p s t d w c

end Atom

/-! ## Payload decoders

A decoder runs over the payload it fills (`σ`) and the file. Its result is
`none` for the C `return -1`; the payload and the cursor reached so far are
kept in that case, as they are in C. Memory obtained from `calloc`/`malloc`
is taken to be zero-filled. -/

/-- A payload decoder over the payload state `σ`. -/
def Rd (σ α : Type) : Type := σ → File → Option α × σ × File

namespace Rd

def pure {σ α : Type} (a : α) : Rd σ α := fun s fp => (some a, s, fp)

def bind {σ α β : Type} (m : Rd σ α) (f : α → Rd σ β) : Rd σ β := fun s fp =>
  match m s fp with
  | (none, s1, fp1) => (none, s1, fp1)
  | (some a, s1, fp1) => f a s1 fp1

instance {σ : Type} : Monad (Rd σ) where
  pure := Rd.pure
  bind := Rd.bind

/-- The C statement `return -1;`. -/
def fail {σ α : Type} : Rd σ α := fun s fp => (none, s, fp)

/-- An assignment to the payload. -/
def set {σ : Type} (f : σ → σ) : Rd σ Unit := fun s fp => (some (), f s, fp)

/-- The payload as it is now. -/
def get {σ : Type} : Rd σ σ := fun s fp => (some s, s, fp)

/-- The statement `fp->ftell (fp->data)`. -/
def ftell {σ : Type} : Rd σ Nat := fun s fp => (some fp.ftell, s, fp)

/-- The statement `fp->fseek (fp->data, offset, SEEK_CUR)`. -/
def fseek_cur {σ : Type} (offset : Int) : Rd σ Unit := fun s fp =>
  (some (), s, fp.fseek_cur offset)

/-- Run a decoder: the C return value (0 or -1), the payload, the file. -/
def run {σ : Type} (m : Rd σ Unit) (s : σ) (fp : File) : Int × σ × File :=
  match m s fp with
  | (some _, s1, fp1) => (0, s1, fp1)
  | (none, s1, fp1) => (-1, s1, fp1)

end Rd

/-- `READ_UINT8(fp)`. -/
def READ_UINT8 {σ : Type} : Rd σ Nat := fun s fp =>
  match fp.fread 1 with
  | ([c], fp1) => (some (c % 2 ^ 8), s, fp1)
  | (_, fp1) => (none, s, fp1)

/-- `READ_UINT16(fp)`. -/
def READ_UINT16 {σ : Type} : Rd σ Nat := fun s fp =>
  ((_read_uint16 fp).1, s, (_read_uint16 fp).2)

/-- `READ_UINT32(fp)`. -/
def READ_UINT32 {σ : Type} : Rd σ Nat := fun s fp =>
  ((_read_uint32 fp).1, s, (_read_uint32 fp).2)

/-- `READ_UINT64(fp)`. -/
def READ_UINT64 {σ : Type} : Rd σ Nat := fun s fp =>
  ((_read_uint64 fp).1, s, (_read_uint64 fp).2)

/-- `READ_BUF(fp,buf,size)`: `store` writes the destination `buf`, which
receives the bytes that were read also when the read falls short. -/
def READ_BUF {σ : Type} (size : Nat) (store : List Nat → σ → σ) : Rd σ (List Nat) := fun s fp =>
  let got := (fp.fread size).1
  let buf := got ++ List.replicate (size - got.length) 0
  if got.length = size then (some buf, store buf s, (fp.fread size).2)
  else (none, store buf s, (fp.fread size).2)

/-- `READ_BUF` into a local array. -/
def READ_BUF_local {σ : Type} (size : Nat) : Rd σ (List Nat) := READ_BUF size (fun _ s => s)

/-- `READ_COMMON_HEADER()`: read/skip uint8 version and uint24 flags. -/
def READ_COMMON_HEADER {σ : Type} : Rd σ Unit := do
  let _ ← (READ_UINT32 : Rd σ Nat)
  Rd.pure ()

/-- `entries[i].field = v` on a list of entries. -/
def update_entry {α : Type} (f : α → α) : List α → Nat → List α
  | [], _ => []
  | e :: es, 0 => f e :: es
  | e :: es, i + 1 => e :: update_entry f es i

/-- `container_atoms`. -/
def container_atoms : List (List Nat) :=
  [chars "moov", chars "trak", chars "mdia", chars "minf", chars "dinf", chars "stbl",
   chars "udta"]

/-- `_load_custom_metadata_atom`; the payload is `atom->data` together with
`atom->to_buffer`. A `mean` text shorter than the 16 bytes that `memcmp`
compares counts as different from `com.apple.iTunes`. The name is the block
`malloc (name_size-12)` with the bytes read into it: no terminator is added
to it. -/
def _load_custom_metadata_atom : Rd (mp4p_meta_t × Option Writer) Unit := do
  let mean_size ← READ_UINT32
  let mean_type ← READ_BUF_local 4
  if mean_type != chars "mean" then Rd.fail
  else do
    READ_COMMON_HEADER
    let mean_data ← READ_BUF_local ((mean_size + 2 ^ 32 - 12) % 2 ^ 32)
    if mean_data.take 16 != chars "com.apple.iTunes" then Rd.fail
    else do
      let name_size ← READ_UINT32
      let name_type ← READ_BUF_local 4
      if name_type != chars "name" then Rd.fail
      else do
        READ_COMMON_HEADER
        let _ ← READ_BUF ((name_size + 2 ^ 32 - 12) % 2 ^ 32)
          (fun b s => ({ s.1 with name := some b }, s.2))
        let data_size ← READ_UINT32
        let data_type ← READ_BUF_local 4
        if data_type != chars "data" then Rd.fail
        else do
          READ_COMMON_HEADER
          let _ ← READ_UINT32
          Rd.set (fun s => ({ s.1 with data_size := (data_size + 2 ^ 32 - 12) % 2 ^ 32 }, s.2))
          let _ ← READ_BUF ((data_size + 2 ^ 32 - 12) % 2 ^ 32)
            (fun b s => ({ s.1 with text := some b }, s.2))
          Rd.pure ()

/-- The loop `meta->values[i] = READ_UINT16(fp)` of `_load_metadata_atom`, for
`k` more values from index `i`. -/
def load_metadata_values : Nat → Nat → Rd (mp4p_meta_t × Option Writer) Unit
  | 0, _ => Rd.pure ()
  | k + 1, i => do
    let v ← READ_UINT16
    Rd.set (fun s => ({ s.1 with values := s.1.values.map (fun l => update_entry (fun _ => v) l i) }, s.2))
    load_metadata_values k (i + 1)

/-- The size in bytes of the block `calloc (meta->data_size+1, 1)` that
`_load_metadata_atom` allocates for the text and its terminator; the sum is
a `uint32_t` one, so the block has no byte at all for `data_size` 2^32 - 1. -/
def meta_text_block (data_size : Nat) : Nat := (data_size + 1) % 2 ^ 32

/-- The size in bytes of the block `calloc (meta->data_size / 2, 1)` that
`_load_metadata_atom` allocates for `data_size / 2` values of two bytes
each. -/
def meta_values_block (data_size : Nat) : Nat := data_size / 2

/-- `_load_metadata_atom`; `type` is `atom->type`, the payload is `atom->data`
together with `atom->to_buffer`. The payload holds what the code stores
through `meta->text` and `meta->values`; the blocks these point to have the
sizes `meta_text_block` and `meta_values_block`, which the decoder does not
check, and a store past the end of a block is not told apart here from one
inside it. -/
def _load_metadata_atom (type : List Nat) : Rd (mp4p_meta_t × Option Writer) Unit :=
  if type.take 4 == chars "----" then _load_custom_metadata_atom
  else do
    let size ← READ_UINT32
    let data ← READ_BUF_local 4
    if data != chars "data" then Rd.fail
    else do
      Rd.set (fun s => (s.1, some Writer._meta_write))
      let version_flags ← READ_UINT32
      Rd.set (fun s => ({ s.1 with version_flags := version_flags }, s.2))
      let _ ← READ_UINT32
      let data_size := (size + 2 ^ 32 - 12) % 2 ^ 32
      Rd.set (fun s => ({ s.1 with data_size := data_size }, s.2))
      let data_offset ← Rd.ftell
      Rd.set (fun s => ({ s.1 with data_offset := data_offset }, s.2))
      let flag := version_flags &&& 0xff
      if flag = 0 then do
        Rd.set (fun s => ({ s.1 with values := some (List.replicate (data_size / 2) 0) }, s.2))
        load_metadata_values (data_size / 2) 0
      else if flag = 1 then
        if data_size > 255 ∧ type.take 4 ≠ COPYRIGHT_SYM ++ chars "lyr" then Rd.fail
        else do
          let _ ← READ_BUF data_size (fun b s => ({ s.1 with text := some b }, s.2))
          Rd.pure ()
      else Rd.fail

/-- `_read_esds_tag_size`: up to `k` more bytes of seven bits each. -/
def _read_esds_tag_size_loop {σ : Type} : Nat → Nat → Rd σ Nat
  | 0, num => Rd.pure num
  | k + 1, num => do
    let val ← READ_UINT8
    let num1 := ((num <<< 7) % 2 ^ 32) ||| (val &&& 0x7f)
    if val &&& 0x80 = 0 then Rd.pure num1 else _read_esds_tag_size_loop k num1

/-- `_read_esds_tag_size`. -/
def _read_esds_tag_size {σ : Type} : Rd σ Nat := _read_esds_tag_size_loop 4 0

/-- The `ftyp` branch of `mp4p_atom_init`. -/
def load_ftyp : Rd mp4p_mtyp_t Unit := do
  let _ ← READ_BUF 4 (fun b s => { s with major_brand := b })
  let _ ← READ_BUF 4 (fun b s => { s with version := b })
  let _ ← READ_BUF 4 (fun b s => { s with compat_brand_1 := b })
  let _ ← READ_BUF 4 (fun b s => { s with compat_brand_2 := b })
  Rd.pure ()

/-- The `mvhd` branch of `mp4p_atom_init`. -/
def load_mvhd : Rd mp4p_mvhd_t Unit := do
  READ_COMMON_HEADER
  let v ← READ_UINT32; Rd.set (fun s => { s with creation_time := v })
  let v ← READ_UINT32; Rd.set (fun s => { s with modification_time := v })
  let v ← READ_UINT32; Rd.set (fun s => { s with time_scale := v })
  let v ← READ_UINT32; Rd.set (fun s => { s with duration := v })
  let v ← READ_UINT32; Rd.set (fun s => { s with preferred_rate := v })
  let v ← READ_UINT16; Rd.set (fun s => { s with preferred_volume := v })
  let _ ← READ_BUF 10 (fun b s => { s with reserved := b })
  let _ ← READ_BUF 36 (fun b s => { s with matrix_structure := b })
  let v ← READ_UINT32; Rd.set (fun s => { s with preview_time := v })
  let v ← READ_UINT32; Rd.set (fun s => { s with preview_duration := v })
  let v ← READ_UINT32; Rd.set (fun s => { s with poster_time := v })
  let v ← READ_UINT32; Rd.set (fun s => { s with selection_time := v })
  let v ← READ_UINT32; Rd.set (fun s => { s with selection_duration := v })
  let v ← READ_UINT32; Rd.set (fun s => { s with current_time := v })
  let v ← READ_UINT32; Rd.set (fun s => { s with next_track_id := v })

/-- The `tkhd` branch of `mp4p_atom_init`. -/
def load_tkhd : Rd mp4p_tkhd_t Unit := do
  READ_COMMON_HEADER
  let v ← READ_UINT32; Rd.set (fun s => { s with creation_time := v })
  let v ← READ_UINT32; Rd.set (fun s => { s with modification_time := v })
  let v ← READ_UINT32; Rd.set (fun s => { s with track_id := v })
  let _ ← READ_BUF 4 (fun b s => { s with reserved := b })
  let v ← READ_UINT32; Rd.set (fun s => { s with duration := v })
  let _ ← READ_BUF 8 (fun b s => { s with reserved2 := b })
  let v ← READ_UINT16; Rd.set (fun s => { s with layer := v })
  let v ← READ_UINT16; Rd.set (fun s => { s with alternate_group := v })
  let v ← READ_UINT16; Rd.set (fun s => { s with volume := v })
  let _ ← READ_BUF 2 (fun b s => { s with reserved3 := b })
  let _ ← READ_BUF 36 (fun b s => { s with matrix_structure := b })
  let v ← READ_UINT32; Rd.set (fun s => { s with track_width := v })
  let v ← READ_UINT32; Rd.set (fun s => { s with track_height := v })

/-- The `mdhd` branch of `mp4p_atom_init`. -/
def load_mdhd : Rd mp4p_mdhd_t Unit := do
  READ_COMMON_HEADER
  let v ← READ_UINT32; Rd.set (fun s => { s with creation_time := v })
  let v ← READ_UINT32; Rd.set (fun s => { s with modification_time := v })
  let v ← READ_UINT32; Rd.set (fun s => { s with time_scale := v })
  let v ← READ_UINT32; Rd.set (fun s => { s with duration := v })
  let v ← READ_UINT16; Rd.set (fun s => { s with language := v })
  let v ← READ_UINT16; Rd.set (fun s => { s with quality := v })

/-- The `hdlr` branch of `mp4p_atom_init`. -/
def load_hdlr : Rd mp4p_hdlr_t Unit := do
  READ_COMMON_HEADER
  let _ ← READ_BUF 4 (fun b s => { s with component_type := b })
  let _ ← READ_BUF 4 (fun b s => { s with component_subtype := b })
  let _ ← READ_BUF 4 (fun b s => { s with component_manufacturer := b })
  let v ← READ_UINT32; Rd.set (fun s => { s with component_flags := v })
  let v ← READ_UINT32; Rd.set (fun s => { s with component_flags_mask := v })
  let buf_len ← READ_UINT8; Rd.set (fun s => { s with buf_len := buf_len })
  if buf_len ≠ 0 then do
    let _ ← READ_BUF buf_len (fun b s => { s with buf := some b })
    Rd.pure ()
  else Rd.pure ()

/-- The `smhd` branch of `mp4p_atom_init`. -/
def load_smhd : Rd mp4p_smhd_t Unit := do
  READ_COMMON_HEADER
  let v ← READ_UINT16; Rd.set (fun s => { s with balance := v })

/-- The reads of the `stsd` branch of `mp4p_atom_init`, before its children. -/
def load_stsd : Rd mp4p_stsd_t Unit := do
  READ_COMMON_HEADER
  let v ← READ_UINT32; Rd.set (fun s => { s with number_of_entries := v })

/-- The entry loop of the `stts` branch, for `k` more entries from index `i`. -/
def load_stts_entries : Nat → Nat → Rd mp4p_stts_t Unit
  | 0, _ => Rd.pure ()
  | k + 1, i => do
    let v ← READ_UINT32
    Rd.set (fun s => { s with entries := update_entry (fun e => { e with sample_count := v }) s.entries i })
    let v ← READ_UINT32
    Rd.set (fun s => { s with entries := update_entry (fun e => { e with sample_duration := v }) s.entries i })
    load_stts_entries k (i + 1)

/-- The `stts` branch of `mp4p_atom_init`. -/
def load_stts : Rd mp4p_stts_t Unit := do
  READ_COMMON_HEADER
  let number_of_entries ← READ_UINT32
  Rd.set (fun s => { s with entries := List.replicate number_of_entries {} })
  load_stts_entries number_of_entries 0

/-- The entry loop of the `stsc` branch, for `k` more entries from index `i`. -/
def load_stsc_entries : Nat → Nat → Rd mp4p_stsc_t Unit
  | 0, _ => Rd.pure ()
  | k + 1, i => do
    let v ← READ_UINT32
    Rd.set (fun s => { s with entries := update_entry (fun e => { e with first_chunk := v }) s.entries i })
    let v ← READ_UINT32
    Rd.set (fun s => { s with entries := update_entry (fun e => { e with samples_per_chunk := v }) s.entries i })
    let v ← READ_UINT32
    Rd.set (fun s => { s with entries := update_entry (fun e => { e with sample_description_id := v }) s.entries i })
    load_stsc_entries k (i + 1)

/-- The `stsc` branch of `mp4p_atom_init`. -/
def load_stsc : Rd mp4p_stsc_t Unit := do
  READ_COMMON_HEADER
  let number_of_entries ← READ_UINT32
  Rd.set (fun s => { s with entries := List.replicate number_of_entries {} })
  load_stsc_entries number_of_entries 0

/-- The entry loop of the `stsz` branch, for `k` more entries from index `i`. -/
def load_stsz_entries : Nat → Nat → Rd mp4p_stsz_t Unit
  | 0, _ => Rd.pure ()
  | k + 1, i => do
    let v ← READ_UINT32
    Rd.set (fun s => { s with entries := update_entry (fun e => { e with sample_size := v }) s.entries i })
    load_stsz_entries k (i + 1)

/-- The `stsz` branch of `mp4p_atom_init`. -/
def load_stsz : Rd mp4p_stsz_t Unit := do
  READ_COMMON_HEADER
  let v ← READ_UINT32; Rd.set (fun s => { s with sample_size := v })
  let number_of_entries ← READ_UINT32
  Rd.set (fun s => { s with entries := List.replicate number_of_entries {} })
  load_stsz_entries number_of_entries 0

/-- The entry loop of the `stco` branch (`wide = false`, `READ_UINT32`) and of
the `co64` branch (`wide = true`, `READ_UINT64`). -/
def load_stco_entries (wide : Bool) : Nat → Nat → Rd mp4p_stco_t Unit
  | 0, _ => Rd.pure ()
  | k + 1, i => do
    let v ← if wide then READ_UINT64 else READ_UINT32
    Rd.set (fun s => { s with entries := update_entry (fun e => { e with offset := v }) s.entries i })
    load_stco_entries wide k (i + 1)

/-- The `stco` and `co64` branches of `mp4p_atom_init`. -/
def load_stco (wide : Bool) : Rd mp4p_stco_t Unit := do
  READ_COMMON_HEADER
  let number_of_entries ← READ_UINT32
  Rd.set (fun s => { s with entries := List.replicate number_of_entries {} })
  load_stco_entries wide number_of_entries 0

/-- The reads of the `dref` branch of `mp4p_atom_init`, before its children. -/
def load_dref : Rd mp4p_dref_t Unit := do
  READ_COMMON_HEADER
  let v ← READ_UINT32; Rd.set (fun s => { s with number_of_entries := v })

/-- The `alac` branch of `mp4p_atom_init`; `size` is `atom->size`. -/
def load_alac (size : Nat) : Rd mp4p_alac_t Unit := do
  let _ ← READ_BUF 6 (fun b s => { s with reserved := b })
  let v ← READ_UINT16; Rd.set (fun s => { s with data_reference_index := v })
  let _ ← READ_BUF 8 (fun b s => { s with reserved2 := b })
  let v ← READ_UINT16; Rd.set (fun s => { s with channel_count := v })
  let v ← READ_UINT16; Rd.set (fun s => { s with bps := v })
  let v ← READ_UINT16; Rd.set (fun s => { s with packet_size := v })
  let v ← READ_UINT32; Rd.set (fun s => { s with sample_rate := v })
  let asc_size := if (size + 2 ^ 32 - 24) % 2 ^ 32 > 64 then 64 else (size + 2 ^ 32 - 24) % 2 ^ 32
  Rd.set (fun s => { s with asc_size := asc_size })
  Rd.fseek_cur (-10)
  let _ ← READ_BUF asc_size (fun b s => { s with asc := some b })
  Rd.pure ()

/-- The reads of the `mp4a` branch of `mp4p_atom_init`, before its children. -/
def load_mp4a : Rd mp4p_mp4a_t Unit := do
  let _ ← READ_BUF 6 (fun b s => { s with reserved := b })
  let v ← READ_UINT16; Rd.set (fun s => { s with data_reference_index := v })
  let _ ← READ_BUF 8 (fun b s => { s with reserved2 := b })
  let v ← READ_UINT16; Rd.set (fun s => { s with channel_count := v })
  let v ← READ_UINT16; Rd.set (fun s => { s with bps := v })
  let v ← READ_UINT16; Rd.set (fun s => { s with packet_size := v })
  let v ← READ_UINT32; Rd.set (fun s => { s with sample_rate := v })
  let _ ← READ_BUF 2 (fun b s => { s with reserved3 := b })
  Rd.pure ()

/-- The part of the `esds` branch of `mp4p_atom_init` that follows the ES
descriptor. -/
def load_esds_dc : Rd mp4p_esds_t Unit := do
  let _ ← READ_UINT8
  let _ ← READ_UINT8
  let dc_tag ← READ_UINT8
  if dc_tag ≠ 4 then Rd.fail
  else do
    let dc_tag_size ← _read_esds_tag_size
    if dc_tag_size < 13 then Rd.fail
    else do
      let v ← READ_UINT8; Rd.set (fun s => { s with dc_audiotype := v })
      let v ← READ_UINT8; Rd.set (fun s => { s with dc_audiostream := v })
      let _ ← READ_BUF 3 (fun b s => { s with dc_buffersize_db := b })
      let v ← READ_UINT32; Rd.set (fun s => { s with dc_max_bitrate := v })
      let v ← READ_UINT32; Rd.set (fun s => { s with dc_avg_bitrate := v })
      let ds_tag ← READ_UINT8
      if ds_tag ≠ 5 then Rd.fail
      else do
        let asc_size ← _read_esds_tag_size
        Rd.set (fun s => { s with asc_size := asc_size })
        if asc_size = 0 then Rd.pure ()
        else do
          let _ ← READ_BUF asc_size (fun b s => { s with asc := some b })
          Rd.pure ()

/-- The `esds` branch of `mp4p_atom_init`. -/
def load_esds : Rd mp4p_esds_t Unit := do
  READ_COMMON_HEADER
  let es_tag ← READ_UINT8
  if es_tag = 3 then do
    let es_tag_size ← _read_esds_tag_size
    if es_tag_size < 20 then Rd.fail
    else do
      let _ ← READ_UINT8
      load_esds_dc
  else load_esds_dc

/-! ## Atom lookup -/

/-- `mp4p_fourcc_compare`: `memcmp (value1, value2, 4)`; `true` stands for a
nonzero result (the four bytes differ). -/
def mp4p_fourcc_compare (value1 value2 : List Nat) : Bool :=
  value1.take 4 != value2.take 4

/-- `mp4p_atom_type_compare`. -/
def mp4p_atom_type_compare (atom : Atom) (type : List Nat) : Bool :=
  mp4p_fourcc_compare atom.type type

/-- Body of `mp4p_atom_find`; `path` is the C string without its NUL, and
the result is the found atom followed by its later siblings (`[]` is `NULL`).
Each recursive call drops five bytes of `path`, `fuel` counts the calls. -/
def mp4p_atom_find_aux : Nat → List Atom → List Nat → List Atom
  | 0, _, _ => []
  | fuel + 1, root, path =>
    if path.length < 4 then []
    else
      match root.dropWhile (fun a => mp4p_fourcc_compare a.type path) with
      | [] => []
      | a :: next =>
        match path.drop 4 with
        | [] => a :: next
        | c :: rest => if c = 47 then mp4p_atom_find_aux fuel a.subatoms rest else []

/-- `mp4p_atom_find (root, path)`. -/
def mp4p_atom_find (root : List Atom) (path : List Nat) : List Atom :=
  mp4p_atom_find_aux (path.length + 1) root path

/-! ## Atom loader -/

/-- The `while` loop of `_load_subatoms`: `load` is `_atom_load (atom, fp)`,
`limit` is `atom->pos + atom->size`, `acc` the children linked so far. The
result is the list of children and the file; `none` when the fuel is used
up before the loop ends. -/
def _load_subatoms_loop (load : File → Option (Option Atom × File)) (limit : Nat) :
    Nat → List Atom → File → Option (List Atom × File)
  | 0, acc, fp => if fp.ftell < limit then none else some (acc, fp)
  | fuel + 1, acc, fp =>
    if fp.ftell < limit then
      match load fp with
      | none => none
      | some (none, fp1) => some (acc, fp1)
      | some (some c, fp1) => _load_subatoms_loop load limit fuel (acc ++ [c]) fp1
    else some (acc, fp)

/-- `_load_subatoms (atom, fp)`; `load` is `_atom_load`. Returns the C return
value (always 0), the atom with its children and the file. -/
def _load_subatoms (load : Option Atom → File → Option (Option Atom × File)) (fuel : Nat)
    (atom : Atom) (fp : File) : Option (Int × Atom × File) :=
  match _load_subatoms_loop (load (some atom)) (atom.pos + atom.size) fuel atom.subatoms fp with
  | none => none
  | some (subatoms, fp1) => some (0, atom.setSubatoms subatoms, fp1)

/-- A branch of `mp4p_atom_init` that only decodes a payload: `atom->data` is
set to the payload (`wrap`) filled by `m`. -/
def init_leaf {σ : Type} (atom : Atom) (fp : File) (m : Rd σ Unit) (zero : σ)
    (wrap : σ → Payload) : Option (Int × Atom × File) :=
  some ((m.run zero fp).1, atom.setData (wrap (m.run zero fp).2.1), (m.run zero fp).2.2)

/-- A branch of `mp4p_atom_init` that decodes a payload and, when no read
failed, loads the children (`stsd`, `dref`, `mp4a`); `_load_subatoms` returns
0, which is also the value of the final `return 0`. -/
def init_node {σ : Type} (load : Option Atom → File → Option (Option Atom × File))
    (fuel : Nat) (atom : Atom) (fp : File) (m : Rd σ Unit) (zero : σ)
    (wrap : σ → Payload) : Option (Int × Atom × File) :=
  match m.run zero fp with
  | (0, d, fp1) => _load_subatoms load fuel (atom.setData (wrap d)) fp1
  | (r, d, fp1) => some (r, atom.setData (wrap d), fp1)

/-- The atom types whose branch of `mp4p_atom_init` calls `_load_subatoms`. -/
def subatom_types : List (List Nat) :=
  container_atoms
    ++ [chars "stsd", chars "dref", chars "tref", chars "mp4a", chars "meta", chars "ilst"]

/-- The test `parent_atom && !mp4p_atom_type_compare (parent_atom, "ilst")` of
`mp4p_atom_init`. -/
def parent_is_ilst : Option Atom → Bool
  | some p => !mp4p_atom_type_compare p (chars "ilst")
  | none => false

/-- `mp4p_atom_init (parent_atom, atom, fp)`; `load` is `_atom_load`. Returns
the C return value, the atom as filled in, and the file. -/
def mp4p_atom_init (load : Option Atom → File → Option (Option Atom × File)) (fuel : Nat)
    (parent_atom : Option Atom) (atom : Atom) (fp : File) : Option (Int × Atom × File) :=
  if container_atoms.any (fun t => !mp4p_atom_type_compare atom t) then
    _load_subatoms load fuel atom fp
  else if !mp4p_atom_type_compare atom (chars "ftyp") then
    init_leaf atom fp load_ftyp {} Payload.mtyp
  else if !mp4p_atom_type_compare atom (chars "mvhd") then
    init_leaf atom fp load_mvhd {} Payload.mvhd
  else if !mp4p_atom_type_compare atom (chars "tkhd") then
    init_leaf atom fp load_tkhd {} Payload.tkhd
  else if !mp4p_atom_type_compare atom (chars "mdhd") then
    init_leaf atom fp load_mdhd {} Payload.mdhd
  else if !mp4p_atom_type_compare atom (chars "hdlr") then
    init_leaf atom fp load_hdlr {} Payload.hdlr
  else if !mp4p_atom_type_compare atom (chars "smhd") then
    init_leaf atom fp load_smhd {} Payload.smhd
  else if !mp4p_atom_type_compare atom (chars "stsd") then
    init_node load fuel atom fp load_stsd {} Payload.stsd
  else if !mp4p_atom_type_compare atom (chars "stts") then
    init_leaf atom fp load_stts {} Payload.stts
  else if !mp4p_atom_type_compare atom (chars "stsc") then
    init_leaf atom fp load_stsc {} Payload.stsc
  else if !mp4p_atom_type_compare atom (chars "stsz") then
    init_leaf atom fp load_stsz {} Payload.stsz
  else if !mp4p_atom_type_compare atom (chars "stco") then
    init_leaf atom fp (load_stco false) {} Payload.stco
  else if !mp4p_atom_type_compare atom (chars "co64") then
    init_leaf atom fp (load_stco true) {} Payload.stco
  else if !mp4p_atom_type_compare atom (chars "dref") then
    init_node load fuel atom fp load_dref {} Payload.dref
  else if !mp4p_atom_type_compare atom (chars "tref") then
    _load_subatoms load fuel atom fp
  else if !mp4p_atom_type_compare atom (chars "alac") then
    init_leaf atom fp (load_alac atom.size) {} Payload.alac
  else if !mp4p_atom_type_compare atom (chars "mp4a") then
    init_node load fuel atom fp load_mp4a {} Payload.mp4a
  else if !mp4p_atom_type_compare atom (chars "esds") then
    init_leaf atom fp load_esds {} Payload.esds
  else if !mp4p_atom_type_compare atom (chars "meta") then
    match (READ_COMMON_HEADER : Rd Unit Unit).run () fp with
    | (0, _, fp1) => _load_subatoms load fuel atom fp1
    | (r, _, fp1) => some (r, atom, fp1)
  else if !mp4p_atom_type_compare atom (chars "ilst") then
    _load_subatoms load fuel atom fp
  else if parent_is_ilst parent_atom then
    some (((_load_metadata_atom atom.type).run ({}, none) fp).1,
      (atom.setData (.meta ((_load_metadata_atom atom.type).run ({}, none) fp).2.1.1)).setWriter
        ((_load_metadata_atom atom.type).run ({}, none) fp).2.1.2,
      ((_load_metadata_atom atom.type).run ({}, none) fp).2.2)
  else some (0, atom, fp)

/-- `_atom_load (parent_atom, fp)`. `none`: the fuel (nesting depth and number
of loop rounds) ran out; `some (none, fp)`: the C `NULL` of the error exit;
`some (some atom, fp)`: the loaded atom. -/
def _atom_load : Nat → Option Atom → File → Option (Option Atom × File)
  | 0, _, _ => none
  | fuel + 1, parent_atom, fp =>
    let fpos := fp.ftell
    match _read_uint32 fp with
    | (none, fp1) => some (none, fp1)
    | (some size, fp1) =>
      if (fp1.fread 4).1.length ≠ 4 then some (none, (fp1.fread 4).2)
      else
        match mp4p_atom_init (_atom_load fuel) fuel parent_atom
            (Atom.mk fpos size (fp1.fread 4).1 .none none []) (fp1.fread 4).2 with
        | none => none
        | some (_, atom, fp3) => some (some atom, fp3.fseek_set (fpos + size))

/-- The `for (;;)` loop of `mp4p_open`: `acc` is the list from `head` to
`tail`. -/
def mp4p_open_loop (depth : Nat) : Nat → List Atom → File → Option (List Atom × File)
  | 0, _, _ => none
  | fuel + 1, acc, fp =>
    match _atom_load depth none fp with
    | none => none
    | some (none, fp1) => some (acc, fp1)
    | some (some atom, fp1) => mp4p_open_loop depth fuel (acc ++ [atom]) fp1

/-- `mp4p_open` on the callbacks `fp`: the list of top-level atoms (`head`;
`[]` is `NULL`) and the file. `none`: the fuel ran out. -/
def mp4p_open (fuel : Nat) (fp : File) : Option (List Atom × File) :=
  mp4p_open_loop fuel fuel [] fp

/-! ## Predicates used to state the loader properties -/

/-- A decoder that does not change the bytes of the file. -/
structure Rd.Keeps {σ α : Type} (m : Rd σ α) : Prop where
  bytes_eq : ∀ s fp, (m s fp).2.2.bytes = fp.bytes

/-- The atom `a` and file `fp1` that a step hands back for the atom `atom` and
file `fp`: position, declared size and type are those of `atom`, the bytes of
the file are unchanged. -/
def SameHeader (atom : Atom) (fp : File) (a : Atom) (fp1 : File) : Prop :=
  a.pos = atom.pos ∧ a.size = atom.size ∧ a.type = atom.type ∧ fp1.bytes = fp.bytes

/-! ## Serializer

The output buffer is the list `mem` of the bytes of the caller's array; the
C pointer `buffer` is an offset into it. A `WRITE_*` macro that finds
`buffer_size` too small makes the enclosing function `return 0`; what was
written before stays written. `none` is a failed `assert`. -/

/-- `memcpy (buffer, bytes, n)` at offset `off` of `mem`. -/
def poke (mem : List Nat) (off : Nat) (bytes : List Nat) : List Nat :=
  mem.take off ++ (bytes ++ mem.drop (off + bytes.length))

/-- The four bytes `WRITE_UINT32(x)` stores. -/
def uint32_bytes (x : Nat) : List Nat :=
  [(x >>> 24) % 256, ((x >>> 16) &&& 0xff) % 256, ((x >>> 8) &&& 0xff) % 256, (x &&& 0xff) % 256]

/-- The two bytes `WRITE_UINT16(x)` stores. -/
def uint16_bytes (x : Nat) : List Nat :=
  [(x >>> 8) % 256, (x &&& 0xff) % 256]

/-- The locals `buffer` (as an offset into `mem`) and `buffer_size` of a
writing function, with the memory. -/
structure WState where
  mem : List Nat
  buffer : Nat
  buffer_size : Nat
deriving DecidableEq, Repr

/-- A run of `WRITE_*` macros, one per element of the list: `false` when one
of them found the buffer too small (`return 0`). -/
def write_chunks : List (List Nat) → WState → Bool × WState
  | [], st => (true, st)
  | c :: cs, st =>
    if st.buffer_size < c.length then (false, st)
    else write_chunks cs
      { mem := poke st.mem st.buffer c, buffer := st.buffer + c.length,
        buffer_size := st.buffer_size - c.length }

/-- `strlen` of a byte string held with or without its NUL. -/
def strlen (str : List Nat) : Nat := (str.takeWhile (· != 0)).length

/-- The writes of `_hdlr_write`, in order. -/
def _hdlr_write_chunks (hdlr : mp4p_hdlr_t) : List (List Nat) :=
  [uint32_bytes 0, hdlr.component_type.take 4, hdlr.component_subtype.take 4,
   hdlr.component_manufacturer.take 4, uint32_bytes hdlr.component_flags,
   uint32_bytes hdlr.component_flags_mask, [hdlr.buf_len % 256]]
  ++ (if hdlr.buf_len ≠ 0 then [((hdlr.buf.getD []) ++ List.replicate hdlr.buf_len 0).take hdlr.buf_len]
      else [])

/-- The writes of `_meta_write`, in order. -/
def _meta_write_chunks (meta : mp4p_meta_t) : List (List Nat) :=
  (match meta.name with
   | some name =>
     [uint32_bytes 28, chars "mean", uint32_bytes 0, chars "com.apple.iTunes",
      uint32_bytes ((12 + strlen name) % 2 ^ 32), chars "name", uint32_bytes 0,
      name.take (strlen name)]
   | none => [])
  ++ (if meta.text.isSome ∨ meta.values.isSome then
        [uint32_bytes ((meta.data_size + 16) % 2 ^ 32), chars "data",
         uint32_bytes meta.version_flags, uint32_bytes 0]
      else [])
  ++ (match meta.text, meta.values with
      | some text, _ => [(text ++ List.replicate meta.data_size 0).take meta.data_size]
      | none, some values =>
        (List.range (meta.data_size / 2)).map (fun i => uint16_bytes (values.getD i 0))
      | none, none => [])

/-- A writer function (`_hdlr_write`, `_meta_write`): the value returned,
`init_size - buffer_size` or 0, and the memory. -/
def run_writer (chunks : List (List Nat)) (mem : List Nat) (buffer buffer_size : Nat) :
    Nat × List Nat :=
  match write_chunks chunks ⟨mem, buffer, buffer_size⟩ with
  | (true, st) => (buffer_size - st.buffer_size, st.mem)
  | (false, st) => (0, st.mem)

/-- The call `atom->to_buffer (atom, buffer, buffer_size)`; `none` when the
writer does not belong to the payload. -/
def call_to_buffer (w : Writer) (data : Payload) (mem : List Nat) (buffer buffer_size : Nat) :
    Option (Nat × List Nat) :=
  match w, data with
  | ._hdlr_write, .hdlr hdlr => some (run_writer (_hdlr_write_chunks hdlr) mem buffer buffer_size)
  | ._meta_write, .meta meta => some (run_writer (_meta_write_chunks meta) mem buffer buffer_size)
  | _, _ => none

mutual
/-- `mp4p_atom_to_buffer (atom, NULL, 0)`: the size-only pass. -/
def atom_to_buffer_size : Atom → Nat
  | .mk _ size _ _ _ [] => size
  | .mk _ _ _ _ _ (c :: cs) => subatoms_size (c :: cs) 8
/-- The loop `size += mp4p_atom_to_buffer (c, NULL, 0)` on a `uint32_t`. -/
def subatoms_size : List Atom → Nat → Nat
  | [], size => size
  | c :: cs, size => subatoms_size cs ((size + atom_to_buffer_size c) % 2 ^ 32)
end

mutual
/-- `mp4p_atom_to_buffer (atom, buffer, buffer_size)` with `buffer != NULL`:
the value returned and the memory; `none` is a failed `assert`. -/
def atom_to_buffer_write : Atom → List Nat → Nat → Nat → Option (Nat × List Nat)
  | .mk _ size type data to_buffer [], mem, buffer, buffer_size =>
    if size = 0 then some (0, mem)
    else
      match write_chunks [uint32_bytes size, type.take 4] ⟨mem, buffer, buffer_size⟩ with
      | (false, st) => some (0, st.mem)
      | (true, st) =>
        match to_buffer with
        | none => some (size, st.mem)
        | some w =>
          match call_to_buffer w data st.mem st.buffer st.buffer_size with
          | none => none
          | some (r, mem1) =>
            let buffer_size1 := (st.buffer_size + 2 ^ 32 - r) % 2 ^ 32
            if (buffer_size + 2 ^ 32 - buffer_size1) % 2 ^ 32 = size then
              some ((buffer_size + 2 ^ 32 - buffer_size1) % 2 ^ 32, mem1)
            else none
  | .mk _ _ type _ _ (c :: cs), mem, buffer, buffer_size =>
    match write_chunks [uint32_bytes (subatoms_size (c :: cs) 8), type.take 4]
        ⟨mem, buffer, buffer_size⟩ with
    | (false, st) => some (0, st.mem)
    | (true, st) =>
      match subatoms_write (c :: cs) st.mem st.buffer st.buffer_size with
      | none => none
      | some (buffer_size1, mem1) =>
        if (buffer_size + 2 ^ 32 - buffer_size1) % 2 ^ 32 = subatoms_size (c :: cs) 8 then
          some ((buffer_size + 2 ^ 32 - buffer_size1) % 2 ^ 32, mem1)
        else none
/-- The loop `buffer_size -= mp4p_atom_to_buffer (c, buffer, buffer_size)`:
`buffer` stays where it is from one child to the next. Returns the final
`buffer_size` and the memory. -/
def subatoms_write : List Atom → List Nat → Nat → Nat → Option (Nat × List Nat)
  | [], mem, _, buffer_size => some (buffer_size, mem)
  | c :: cs, mem, buffer, buffer_size =>
    match atom_to_buffer_write c mem buffer buffer_size with
    | none => none
    | some (r, mem1) => subatoms_write cs mem1 buffer ((buffer_size + 2 ^ 32 - r) % 2 ^ 32)
end

/-- `mp4p_atom_to_buffer (atom, buffer, buffer_size)`: `buffer` is `none` for
`NULL`, else the offset in `mem` the pointer stands at. Returns the C return
value and the memory; `none` is a failed `assert`. -/
def mp4p_atom_to_buffer (atom : Atom) (mem : List Nat) (buffer : Option Nat)
    (buffer_size : Nat) : Option (Nat × List Nat) :=
  match buffer with
  | none => some (atom_to_buffer_size atom, mem)
  | some b => atom_to_buffer_write atom mem b buffer_size

/-! ## Atom construction -/

/-- `mp4p_atom_new (type)`: a zeroed atom that carries the type. -/
def mp4p_atom_new (type : List Nat) : Atom :=
  Atom.mk 0 0 (type.take 4) .none none []

/-- `mp4p_hdlr_init (hdlr_atom, type, subtype, manufacturer)`: the atom after
the call. -/
def mp4p_hdlr_init (hdlr_atom : Atom) (type subtype manufacturer : List Nat) : Atom :=
  Atom.mk hdlr_atom.pos 33 hdlr_atom.type
    (.hdlr { component_type := type.take 4, component_subtype := subtype.take 4,
             component_manufacturer := manufacturer.take 4 })
    (some Writer._hdlr_write) hdlr_atom.subatoms

/-! ## Sample table queries -/

/-- Loop of `mp4p_stts_total_num_samples`: `total += entries[i].sample_count`
on a `uint64_t`. -/
def stts_total_num_samples_loop : List mp4p_stts_entry_t → Nat → Nat
  | [], total => total
  | e :: es, total => stts_total_num_samples_loop es ((total + e.sample_count) % 2 ^ 64)

/-- `mp4p_stts_total_num_samples`. -/
def mp4p_stts_total_num_samples (stts_atom : Atom) : Option Nat :=
  match stts_atom.data with
  | .none => some 0
  | .stts stts => some (stts_total_num_samples_loop stts.entries 0)
  | _ => none

/-- Loop of `mp4p_stts_sample_duration`: `n += entries[i].sample_count` on a
`uint32_t`, leaving at the first `n >= sample`. -/
def stts_sample_duration_loop : List mp4p_stts_entry_t → Nat → Nat → Nat
  | [], _, _ => 0
  | e :: es, n, sample =>
    let n1 := (n + e.sample_count) % 2 ^ 32
    if n1 ≥ sample then e.sample_duration else stts_sample_duration_loop es n1 sample

/-- `mp4p_stts_sample_duration`. -/
def mp4p_stts_sample_duration (stts_atom : Atom) (sample : Nat) : Option Nat :=
  match stts_atom.data with
  | .none => some 0
  | .stts stts => some (stts_sample_duration_loop stts.entries 0 sample)
  | _ => none

/-- Loop of `mp4p_stts_total_sample_duration`: the product of the two
`uint32_t` fields is a `uint32_t`, added to a `uint64_t`. -/
def stts_total_sample_duration_loop : List mp4p_stts_entry_t → Nat → Nat
  | [], total => total
  | e :: es, total =>
    stts_total_sample_duration_loop es
      ((total + (e.sample_duration * e.sample_count) % 2 ^ 32) % 2 ^ 64)

/-- `mp4p_stts_total_sample_duration`. -/
def mp4p_stts_total_sample_duration (stts_atom : Atom) : Option Nat :=
  match stts_atom.data with
  | .none => some 0
  | .stts stts => some (stts_total_sample_duration_loop stts.entries 0)
  | _ => none

/-- Cumulative sample count of the first `k` runs of an stts table (the
wording of the specification, used to state which run a sample falls into). -/
def stts_cumulative (entries : List mp4p_stts_entry_t) (k : Nat) : Nat :=
  ((entries.take k).map (·.sample_count)).sum

/-- `mp4p_sample_size`; `stbl_atom` is the stbl atom with the siblings that
follow it. `none`: `stsz_atom` or `stsz` is `NULL`. -/
def mp4p_sample_size (stbl_atom : List Atom) (sample : Nat) : Option Nat :=
  match mp4p_atom_find stbl_atom (chars "stbl/stsz") with
  | [] => none
  | stsz_atom :: _ =>
    match stsz_atom.data with
    | .stsz stsz =>
      if stsz.sample_size ≠ 0 then some stsz.sample_size
      else if sample < stsz.entries.length then (stsz.entries[sample]?).map (·.sample_size)
      else some 0
    | _ => none

/-- The chunk walk of `mp4p_sample_offset` (`for (;;)`), on the entries from
index `chunk` on: the final `(chunk, nsample)`. -/
def sample_offset_walk : List mp4p_stsc_entry_t → Nat → Nat → Nat → Nat × Nat
  | [], chunk, nsample, _ => (chunk, nsample)
  | [_], chunk, nsample, _ => (chunk, nsample)
  | e :: e1 :: rest, chunk, nsample, sample =>
    let repeat_chunks := (e1.first_chunk + 2 ^ 32 - e.first_chunk) % 2 ^ 32
    let n1 := (nsample + (repeat_chunks * e.samples_per_chunk) % 2 ^ 32) % 2 ^ 32
    if n1 ≥ sample then (chunk, nsample)
    else sample_offset_walk (e1 :: rest) (chunk + 1) n1 sample

/-- The `while (nsample < sample)` loop of `mp4p_sample_offset`, run `k`
times from `nsample`; `none` is a read outside `stsz->entries`. -/
def sample_offset_skip (entries : List mp4p_stsz_entry_t) : Nat → Nat → Nat → Option Nat
  | 0, _, offs => some offs
  | k + 1, nsample, offs =>
    match entries[nsample]? with
    | none => none
    | some e => sample_offset_skip entries k (nsample + 1) ((offs + e.sample_size) % 2 ^ 64)

/-- `mp4p_sample_offset`; `stbl_atom` is the stbl atom with the siblings that
follow it. `none`: a `NULL` atom or payload is dereferenced, or an entry
outside `stco->entries` / `stsz->entries` is read. -/
def mp4p_sample_offset (stbl_atom : List Atom) (sample : Nat) : Option Nat :=
  match mp4p_atom_find stbl_atom (chars "stbl/stsc") with
  | [] => none
  | stsc_atom :: _ =>
    match stsc_atom.data with
    | .stsc stsc =>
      if stsc.entries.length = 0 then some 0
      else
        let stco_atom :=
          match mp4p_atom_find stbl_atom (chars "stbl/co64") with
          | [] => mp4p_atom_find stbl_atom (chars "stbl/stco")
          | l => l
        match stco_atom with
        | [] => none
        | stco_atom :: _ =>
          let (chunk, nsample) := sample_offset_walk stsc.entries 0 0 sample
          match mp4p_atom_find stbl_atom (chars "stbl/stsz") with
          | [] => none
          | stsz_atom :: _ =>
            match stco_atom.data, stsz_atom.data with
            | .stco stco, .stsz stsz =>
              match stco.entries[chunk]? with
              | none => none
              | some c =>
                let offs := c.offset
                if stsz.sample_size ≠ 0 then
                  some ((offs + (stsz.sample_size * ((sample + 2 ^ 32 - nsample) % 2 ^ 32)) % 2 ^ 32)
                    % 2 ^ 64)
                else sample_offset_skip stsz.entries (sample - nsample) nsample offs
            | _, _ => none
    | _ => none

/-! ### The sample offset as the specification words it

A second definition, following the specification and not the C code: chunks
are numbered from 1, the run of stsc that governs chunk `c` is the last one
whose `first_chunk` is at most `c`, and sample indices count from 0. -/

/-- Samples held by chunk number `c`: `samples_per_chunk` of the last stsc run
with `first_chunk <= c`. -/
def spec_samples_per_chunk (stsc : List mp4p_stsc_entry_t) (c : Nat) : Nat :=
  match (stsc.filter (fun e => e.first_chunk ≤ c)).getLast? with
  | some e => e.samples_per_chunk
  | none => 0

/-- Find the chunk that contains sample `n`, scanning `k` chunks from chunk
number `c`, whose first sample is `first`: the chunk number and the index of
its first sample. -/
def spec_chunk_of_sample (stsc : List mp4p_stsc_entry_t) :
    Nat → Nat → Nat → Nat → Option (Nat × Nat)
  | 0, _, _, _ => none
  | k + 1, c, first, n =>
    if n < first + spec_samples_per_chunk stsc c then some (c, first)
    else spec_chunk_of_sample stsc k (c + 1) (first + spec_samples_per_chunk stsc c) n

/-- Size of sample `i` according to stsz. -/
def spec_sample_size (stsz : mp4p_stsz_t) (i : Nat) : Nat :=
  if stsz.sample_size ≠ 0 then stsz.sample_size
  else match stsz.entries[i]? with
    | some e => e.sample_size
    | none => 0

/-- Byte offset of sample `n`: the offset of the chunk that contains it plus
the sizes of the samples of that chunk that precede it. -/
def spec_sample_offset (stsc : mp4p_stsc_t) (stco : mp4p_stco_t) (stsz : mp4p_stsz_t)
    (n : Nat) : Option Nat :=
  match spec_chunk_of_sample stsc.entries stco.entries.length 1 0 n with
  | none => none
  | some (c, first) =>
    match stco.entries[c - 1]? with
    | none => none
    | some o =>
      some (o.offset + (((List.range (n - first)).map
        (fun i => spec_sample_size stsz (first + i))).sum))

/-- Lines 920 to 955 of `mp4p_sample_offset`, once the three payloads `stsc`,
`stco` (from the stco or the co64 atom) and `stsz` are at hand and stsc is
not empty: the chunk walk, the base offset `stco->entries[chunk].offset` and
the bytes of the samples skipped. -/
def sample_offset_from_tables (stsc : mp4p_stsc_t) (stco : mp4p_stco_t) (stsz : mp4p_stsz_t)
    (sample : Nat) : Option Nat :=
  match stco.entries[(sample_offset_walk stsc.entries 0 0 sample).1]? with
  | none => none
  | some c =>
    if stsz.sample_size ≠ 0 then
      some ((c.offset + (stsz.sample_size
          * ((sample + 2 ^ 32 - (sample_offset_walk stsc.entries 0 0 sample).2) % 2 ^ 32)) % 2 ^ 32)
        % 2 ^ 64)
    else
      sample_offset_skip stsz.entries
        (sample - (sample_offset_walk stsc.entries 0 0 sample).2)
        (sample_offset_walk stsc.entries 0 0 sample).2 c.offset

/-- The first immediate child of `parent` whose type is `type`, with the
children after it (`[]` when there is none). -/
def first_child (parent : Atom) (type : List Nat) : List Atom :=
  parent.subatoms.dropWhile (fun a => mp4p_fourcc_compare a.type type)

/-! ### Paths and chains, as the specification words the lookup -/

/-- The path string made of the four-character codes `comps` separated by
`/`. -/
def path_of : List (List Nat) → List Nat
  | [] => []
  | [c] => c
  | c :: c1 :: cs => c ++ 47 :: path_of (c1 :: cs)

/-- The atom `a` is reached from the sibling list `root` by a chain matching
`comps`: an atom of `root` has the first code as type, each next atom is an
immediate child of the one before and has the next code as type, and `a` is
the last atom of the chain. -/
def Chain : List Atom → List (List Nat) → Atom → Prop
  | _, [], _ => False
  | root, [c], a => a ∈ root ∧ a.type.take 4 = c
  | root, c :: c1 :: cs, a => ∃ p, p ∈ root ∧ p.type.take 4 = c ∧ Chain p.subatoms (c1 :: cs) a

/-- The lookup that takes, at each level, the first atom whose type is the
code and goes on in its children only: the atom reached, with its later
siblings. -/
def first_match_find : List Atom → List (List Nat) → List Atom
  | _, [] => []
  | root, [c] => root.dropWhile (fun a => mp4p_fourcc_compare a.type c)
  | root, c :: c1 :: cs =>
    match root.dropWhile (fun a => mp4p_fourcc_compare a.type c) with
    | [] => []
    | p :: _ => first_match_find p.subatoms (c1 :: cs)

/-! ## Genre table -/

/-- `_genretbl`, without the terminating `NULL`. -/
def _genretbl : List String :=
  ["Blues", "Classic Rock", "Country", "Dance", "Disco", "Funk", "Grunge", "Hip-Hop",
   "Jazz", "Metal", "New Age", "Oldies", "Other", "Pop", "R&B", "Rap", "Reggae", "Rock",
   "Techno", "Industrial", "Alternative", "Ska", "Death Metal", "Pranks", "Soundtrack",
   "Euro-Techno", "Ambient", "Trip-Hop", "Vocal", "Jazz+Funk", "Fusion", "Trance",
   "Classical", "Instrumental", "Acid", "House", "Game", "Sound Clip", "Gospel", "Noise",
   "AlternRock", "Bass", "Soul", "Punk", "Space", "Meditative", "Instrumental Pop",
   "Instrumental Rock", "Ethnic", "Gothic", "Darkwave", "Techno-Industrial", "Electronic",
   "Pop-Folk", "Eurodance", "Dream", "Southern Rock", "Comedy", "Cult", "Gangsta",
   "Top 40", "Christian Rap", "Pop/Funk", "Jungle", "Native American", "Cabaret",
   "New Wave", "Psychedelic", "Rave", "Showtunes", "Trailer", "Lo-Fi", "Tribal",
   "Acid Punk", "Acid Jazz", "Polka", "Retro", "Musical", "Rock & Roll", "Hard Rock",
   "Folk", "Folk-Rock", "National Folk", "Swing", "Fast Fusion", "Bebob", "Latin",
   "Revival", "Celtic", "Bluegrass", "Avantgarde", "Gothic Rock", "Progressive Rock",
   "Psychedelic Rock", "Symphonic Rock", "Slow Rock", "Big Band", "Chorus",
   "Easy Listening", "Acoustic", "Humour", "Speech", "Chanson", "Opera", "Chamber Music",
   "Sonata", "Symphony", "Booty Bass", "Primus", "Porn Groove", "Satire", "Slow Jam",
   "Club", "Tango", "Samba", "Folklore", "Ballad", "Power Ballad", "Rhythmic Soul",
   "Freestyle", "Duet", "Punk Rock", "Drum Solo", "Acapella", "Euro-House", "Dance Hall",
   "Goa", "Drum & Bass", "Club-House", "Hardcore", "Terror", "Indie", "BritPop",
   "Negerpunk", "Polsk Punk", "Beat", "Christian Gangsta", "Heavy Metal", "Black Metal",
   "Crossover", "Contemporary C", "Christian Rock", "Merengue", "Salsa", "Thrash Metal",
   "Anime", "JPop", "SynthPop", "Abstract", "Art Rock", "Baroque", "Bhangra", "Big Beat",
   "Breakbeat", "Chillout", "Downtempo", "Dub", "EBM", "Eclectic", "Electro",
   "Electroclash", "Emo", "Experimental", "Garage", "Global", "IDM", "Illbient",
   "Industro-Goth", "Jam Band", "Krautrock", "Leftfield", "Lounge", "Math Rock",
   "New Romantic", "Nu-Breakz", "Post-Punk", "Post-Rock", "Psytrance", "Shoegaze",
   "Space Rock", "Trop Rock", "World Music", "Neoclassical", "Audiobook", "Audio Theatre",
   "Neue Deutsche Welle", "Podcast", "Indie Rock", "G-Funk", "Dubstep", "Garage Rock",
   "Psybient"]

/-- `_GENRE_COUNT`: `sizeof(_genretbl) / sizeof (char *) - 1`. -/
def _GENRE_COUNT : Nat := (_genretbl.length + 1) - 1

/-- `mp4p_genre_name_for_index (genreid)`: the bytes of the name, `none` for
`NULL`. `genreid-1` is an `int`, converted to `size_t` for the comparison
with `_GENRE_COUNT`. -/
def mp4p_genre_name_for_index (genreid : Nat) : Option (List Nat) :=
  if (genreid + 2 ^ 64 - 1) % 2 ^ 64 < _GENRE_COUNT then
    (_genretbl[genreid - 1]?).map chars
  else none

/-! ## Metadata items: construction -/

/-- `tolower` on a byte, in the C locale. -/
def tolower (c : Nat) : Nat := if 65 ≤ c ∧ c ≤ 90 then c + 32 else c

/-- `strdup (str)`: the bytes of a C string up to its NUL. -/
def strdup (str : List Nat) : List Nat := str.takeWhile (· != 0)

/-- `strcasecmp (s1, s2)`; `true` stands for a nonzero result (the strings
differ when letter case is ignored). -/
def strcasecmp (s1 s2 : List Nat) : Bool :=
  (strdup s1).map tolower != (strdup s2).map tolower

/-- The loop of `mp4p_genre_index_for_name` over the table entries from
index `i` (a `uint16_t`) on. -/
def genre_index_loop : List String → Nat → List Nat → Nat
  | [], _, _ => 0
  | g :: gs, i, name =>
    if !strcasecmp name (chars g) then (i + 1) % 2 ^ 16
    else genre_index_loop gs ((i + 1) % 2 ^ 16) name

/-- `mp4p_genre_index_for_name (name)`. -/
def mp4p_genre_index_for_name (name : List Nat) : Nat :=
  genre_index_loop _genretbl 0 name

/-- `mp4p_atom_append (parent, atom)`: the parent after the call, with `atom`
linked behind its last child. -/
def mp4p_atom_append (parent : Atom) (atom : Atom) : Atom :=
  parent.setSubatoms (parent.subatoms ++ [atom])

/-- The atom that `mp4p_ilst_append_custom` builds before it appends it. -/
def ilst_custom_item (name text : List Nat) : Atom :=
  Atom.mk 0 ((8 + 28 + (12 + strlen name) + (16 + strlen text)) % 2 ^ 32) (chars "----")
    (.meta { name := some (strdup name), text := some (strdup text),
             data_size := strlen text % 2 ^ 32 })
    (some Writer._meta_write) []

/-- `mp4p_ilst_append_custom (ilst_atom, name, text)`: the parent after the
call. -/
def mp4p_ilst_append_custom (ilst_atom : Atom) (name text : List Nat) : Atom :=
  mp4p_atom_append ilst_atom (ilst_custom_item name text)

/-- The atom that `mp4p_ilst_append_genre` builds before it appends it. -/
def ilst_genre_item (text : List Nat) : Atom :=
  if mp4p_genre_index_for_name text ≠ 0 then
    Atom.mk 0 (24 + 2) (chars "gnre")
      (.meta { version_flags := 0, values := some [mp4p_genre_index_for_name text],
               data_size := 2 })
      (some Writer._meta_write) []
  else
    Atom.mk 0 ((24 + strlen text) % 2 ^ 32) (COPYRIGHT_SYM ++ chars "gen")
      (.meta { version_flags := 1, text := some (strdup text),
               data_size := strlen text % 2 ^ 32 })
      (some Writer._meta_write) []

/-- `mp4p_ilst_append_genre (ilst_atom, text)`: the parent after the call. -/
def mp4p_ilst_append_genre (ilst_atom : Atom) (text : List Nat) : Atom :=
  mp4p_atom_append ilst_atom (ilst_genre_item text)

/-- The atom that `mp4p_ilst_append_track_disc` builds before it appends
it. -/
def ilst_track_disc_item (type : List Nat) (index total : Nat) : Atom :=
  Atom.mk 0 (24 + 6) (type.take 4)
    (.meta { version_flags := 0, values := some [0, index % 2 ^ 16, total % 2 ^ 16],
             data_size := 6 })
    (some Writer._meta_write) []

/-- `mp4p_ilst_append_track_disc (ilst_atom, type, index, total)`: the parent
after the call. -/
def mp4p_ilst_append_track_disc (ilst_atom : Atom) (type : List Nat) (index total : Nat) :
    Atom :=
  mp4p_atom_append ilst_atom (ilst_track_disc_item type index total)

/-- The atom that `mp4p_ilst_append_text` builds before it appends it. -/
def ilst_text_item (type text : List Nat) : Atom :=
  Atom.mk 0 ((24 + strlen text % 2 ^ 32) % 2 ^ 32) (type.take 4)
    (.meta { data_size := strlen text % 2 ^ 32, version_flags := 1,
             text := some (strdup text) })
    (some Writer._meta_write) []

/-- `mp4p_ilst_append_text (ilst_atom, type, text)`: the parent after the
call. -/
def mp4p_ilst_append_text (ilst_atom : Atom) (type text : List Nat) : Atom :=
  mp4p_atom_append ilst_atom (ilst_text_item type text)

/-! ## Predicates used to state the metadata properties -/

/-- Exactly one of the three shapes of a metadata item is populated: values
alone, text alone, or a custom name with its text. -/
def OnePopulated (m : mp4p_meta_t) : Prop :=
  (m.values.isSome ∧ m.text = none ∧ m.name = none)
    ∨ (m.text.isSome ∧ m.values = none ∧ m.name = none)
    ∨ (m.name.isSome ∧ m.text.isSome ∧ m.values = none)

/-- Every successful run of the decoder `m` from the payload `s0` ends in a
payload and result related by `R`. -/
def Rd.From {σ α : Type} (m : Rd σ α) (s0 : σ) (R : α → σ → Prop) : Prop :=
  ∀ fp a, (m s0 fp).1 = some a → R a (m s0 fp).2.1

/-- The atom types that have a branch of their own in `mp4p_atom_init`. -/
def init_types : List (List Nat) :=
  container_atoms
    ++ [chars "ftyp", chars "mvhd", chars "tkhd", chars "mdhd", chars "hdlr", chars "smhd",
        chars "stsd", chars "stts", chars "stsc", chars "stsz", chars "stco", chars "co64",
        chars "dref", chars "tref", chars "alac", chars "mp4a", chars "esds", chars "meta",
        chars "ilst"]

/-! ## Tag mapping (`shared/mp4tagutil.c`) -/

/-- `_mp4_atom_map`, without its two terminating `NULL`s: the entries 0 to
44 of the array, whose entries 45 and 46 are `NULL`. The adjacent literals
`"track" "disk"` of the source are the one string `trackdisk`. -/
def _mp4_atom_map : List (List Nat) :=
  [COPYRIGHT_SYM ++ chars "alb", chars "album",
   COPYRIGHT_SYM ++ chars "art", chars "artist",
   chars "aART", chars "band",
   COPYRIGHT_SYM ++ chars "cmt", chars "comment",
   COPYRIGHT_SYM ++ chars "day", chars "year",
   COPYRIGHT_SYM ++ chars "nam", chars "title",
   COPYRIGHT_SYM ++ chars "gen", chars "genre",
   chars "gnre", chars "genre",
   chars "trkn", chars "track" ++ chars "disk", chars "disc",
   COPYRIGHT_SYM ++ chars "wrt", chars "composer",
   COPYRIGHT_SYM ++ chars "too", chars "encoder",
   chars "tmpo", chars "bpm",
   chars "cprt", chars "copyright",
   COPYRIGHT_SYM ++ chars "grp", chars "grouping",
   chars "cpil", chars "compilation",
   chars "pcst", chars "podcast",
   chars "catg", chars "category",
   chars "keyw", chars "keyword",
   chars "desc", chars "description",
   COPYRIGHT_SYM ++ chars "lyr", chars "lyrics",
   chars "purd", chars "purchase date",
   chars "MusicBrainz Track Id", chars "musicbrainz_trackid"]

/-- The loop `for (i = 0; _mp4_atom_map[i]; i += 2)` of `mp4_load_tags` with
its test `!strcasecmp (name, _mp4_atom_map[i])`, over the entries from index
`i` on: the index at which it breaks, `none` when it runs to the `NULL`. -/
def load_tags_lookup (name : List Nat) : List (List Nat) → Nat → Option Nat
  | [], _ => none
  | [code], i => if !strcasecmp name code then some i else none
  | code :: _ :: rest, i =>
    if !strcasecmp name code then some i
    else load_tags_lookup name rest (i + 2)

/-- The loop `for (i = 0; _mp4_atom_map[i]; i += 2)` of
`mp4tagutil_modify_meta` with its test
`!strcasecmp (_mp4_atom_map[i+1], m->key)`, over the entries from index `i`
on: the value of `i` after the loop. The result is `none` when
`_mp4_atom_map[i]` is a string and `_mp4_atom_map[i+1]` is `NULL`, which
`strcasecmp` dereferences. -/
def modify_meta_lookup (key : List Nat) : List (List Nat) → Nat → Option Nat
  | [], i => some i
  | [_], _ => none
  | _ :: name :: rest, i =>
    if !strcasecmp name key then some i
    else modify_meta_lookup key rest (i + 2)

/-- `mp4p_atom_remove_subatom (atom, subatom)` for the child `subatom` that
stands at index `i`: the parent after the call. -/
def mp4p_atom_remove_subatom (atom : Atom) (i : Nat) : Atom :=
  atom.setSubatoms (atom.subatoms.eraseIdx i)

/-- The `for` loop of `_remove_known_fields` over the entries of the map
(`i++`): whether the item is removed. `type` is `meta_atom->type`. -/
def remove_known_test (meta : mp4p_meta_t) (type : List Nat) : List (List Nat) → Bool
  | [] => false
  | e :: es =>
    if meta.name.isSome || !strcasecmp (type.take 4) e then true
    else remove_known_test meta type es

/-- The `while` loop of `_remove_known_fields`: `ilst` is the container as it
is now, the list holds `meta_atom` and the siblings after it, `i` is the
index of `meta_atom` among the children of `ilst`. The result is `none` when
`meta_atom->data` is not a metadata item (`meta->name` is read from it). -/
def _remove_known_fields_loop (ilst : Atom) : List Atom → Nat → Option Atom
  | [], _ => some ilst
  | meta_atom :: next, i =>
    match meta_atom.data with
    | .meta meta =>
      if remove_known_test meta meta_atom.type _mp4_atom_map then
        _remove_known_fields_loop (mp4p_atom_remove_subatom ilst i) next i
      else _remove_known_fields_loop ilst next (i + 1)
    | _ => none

/-- `_remove_known_fields (ilst)`: the container after the call. -/
def _remove_known_fields (ilst : Atom) : Option Atom :=
  _remove_known_fields_loop ilst ilst.subatoms 0

/-! ## Pointers into the atom tree

`mp4tagutil_modify_meta` holds pointers to atoms of the tree (`mp4file`,
`udta`, `meta`, `ilst`) and changes the tree through them. A pointer is the
list of indices that leads to the atom: the first index among the top-level
atoms, each next index among the children of the atom reached before.
`mp4file` is `[0]`. -/

/-- The atom a pointer stands for. -/
def atom_at : List Atom → List Nat → Option Atom
  | _, [] => none
  | l, [i] => l[i]?
  | l, i :: j :: p =>
    match l[i]? with
    | some a => atom_at a.subatoms (j :: p)
    | none => none

/-- The atom a pointer stands for, followed by its later siblings: what a
walk through `->next` from the pointer visits. -/
def siblings_at : List Atom → List Nat → List Atom
  | _, [] => []
  | l, [i] => l.drop i
  | l, i :: j :: p =>
    match l[i]? with
    | some a => siblings_at a.subatoms (j :: p)
    | none => []

/-- The tree after the atom a pointer stands for has been changed by `f`. -/
def modify_at (f : Atom → Atom) : List Atom → List Nat → List Atom
  | l, [] => l
  | l, [i] => update_entry f l i
  | l, i :: j :: p =>
    update_entry (fun a => a.setSubatoms (modify_at f a.subatoms (j :: p))) l i

/-- Body of `mp4p_atom_find` as `mp4p_atom_find_aux`, giving the place of the
returned atom instead of the atom: its indices, the first counted from the
head of `root`. `none` is `NULL`. -/
def mp4p_atom_find_ptr_aux : Nat → List Atom → List Nat → Option (List Nat)
  | 0, _, _ => none
  | fuel + 1, root, path =>
    if path.length < 4 then none
    else
      match root.dropWhile (fun a => mp4p_fourcc_compare a.type path) with
      | [] => none
      | a :: _ =>
        match path.drop 4 with
        | [] => some [(root.takeWhile (fun a => mp4p_fourcc_compare a.type path)).length]
        | c :: rest =>
          if c = 47 then
            (mp4p_atom_find_ptr_aux fuel a.subatoms rest).map
              ((root.takeWhile (fun a => mp4p_fourcc_compare a.type path)).length :: ·)
          else none

/-- `mp4p_atom_find (root, path)` for `root` the head of the list `root`: the
pointer to the atom found. -/
def mp4p_atom_find_ptr (root : List Atom) (path : List Nat) : Option (List Nat) :=
  mp4p_atom_find_ptr_aux (path.length + 1) root path

/-- `mp4p_atom_find (start, path)` for a pointer `start` into `tree`: the
pointer to the atom found. -/
def mp4p_atom_find_from (tree : List Atom) (start : List Nat) (path : List Nat) :
    Option (List Nat) :=
  match mp4p_atom_find_ptr (siblings_at tree start) path with
  | some (r :: rs) => some (start.dropLast ++ (start.getLastD 0 + r) :: rs)
  | _ => none

/-- `mp4p_atom_append (parent, atom)` through the pointer `parent`: the tree
after the call and the pointer returned (to `atom`, now the last child);
`none` when `parent` is `NULL`. -/
def append_at (tree : List Atom) (parent : List Nat) (atom : Atom) :
    Option (List Atom × List Nat) :=
  match atom_at tree parent with
  | none => none
  | some p =>
    some (modify_at (fun a => mp4p_atom_append a atom) tree parent,
      parent ++ [p.subatoms.length])

/-! ## Writing tags: `mp4tagutil_modify_meta`

The host functions the code calls on the track (`pl_get_metadata_head`,
`pl_find_meta`, `pl_get_item_replaygain`) are not part of these sources; what
they return is held in the record below. -/

/-- `DB_metaInfo_t`: a field of the tag record. `key` is held without its
NUL; `value` holds the `valuesize` bytes of the values, each value followed
by its NUL. -/
structure DB_metaInfo_t where
  key : List Nat
  value : List Nat
deriving DecidableEq, Repr

/-- `DB_playItem_t` as the code sees it: the fields that
`pl_get_metadata_head` and `->next` walk, what `pl_find_meta (it, key)`
returns (`none` for `NULL`), and the text that `snprintf (s, ..., "%f", ...)`
makes of `pl_get_item_replaygain (it, n)`. -/
structure DB_playItem_t where
  meta : List DB_metaInfo_t
  pl_find_meta : List Nat → Option (List Nat)
  replaygain_text : Nat → List Nat

/-- `isspace` in the C locale. -/
def isspace (c : Nat) : Bool := c = 32 || (9 ≤ c && c ≤ 13)

/-- The digits loop of `atoi`. -/
def atoi_digits : List Nat → Nat → Nat
  | [], acc => acc
  | c :: cs, acc => if 48 ≤ c ∧ c ≤ 57 then atoi_digits cs (acc * 10 + (c - 48)) else acc

/-- `atoi` of the C library: white space, an optional sign, decimal digits.
The value is the mathematical one (a number outside the range of `int` is
undefined in C). -/
def atoi (str : List Nat) : Int :=
  match str.dropWhile isspace with
  | 45 :: cs => - (atoi_digits cs 0 : Int)
  | 43 :: cs => (atoi_digits cs 0 : Int)
  | cs => (atoi_digits cs 0 : Int)

/-- The conversion of an `int` to `uint16_t`. -/
def to_uint16 (x : Int) : Nat := (x % 65536).toNat

/-- Lines 116 to 136 of `mp4tagutil_modify_meta`, third part: `ilst` is found
and cleared of known fields, or made under `meta`. Returns the tree and the
pointer `ilst`. -/
def modify_meta_ilst (tree : List Atom) (meta : List Nat) (ilst : Option (List Nat)) :
    Option (List Atom × List Nat) :=
  match ilst with
  | some ilst =>
    match atom_at tree ilst with
    | none => none
    | some a =>
      match _remove_known_fields a with
      | none => none
      | some a1 => some (modify_at (fun _ => a1) tree ilst, ilst)
  | none => append_at tree meta (mp4p_atom_new (chars "ilst"))

/-- Lines 116 to 136 of `mp4tagutil_modify_meta`, second part: `meta` is
found, or made under `udta`. -/
def modify_meta_meta (tree : List Atom) (udta : List Nat) (meta : Option (List Nat)) :
    Option (List Atom × List Nat) :=
  match meta with
  | some meta => modify_meta_ilst tree meta (mp4p_atom_find_from tree meta (chars "meta/ilst"))
  | none =>
    match append_at tree udta (mp4p_atom_new (chars "meta")) with
    | none => none
    | some (tree1, meta) => modify_meta_ilst tree1 meta none

/-- Lines 116 to 136 of `mp4tagutil_modify_meta`: the tree after them and the
pointer `ilst`; `none` is an invalid access. A new `udta` is appended to
`mp4file`, the first top-level atom. -/
def modify_meta_locate (mp4file : List Atom) : Option (List Atom × List Nat) :=
  match mp4p_atom_find_ptr mp4file (chars "moov/udta") with
  | some udta =>
    modify_meta_meta mp4file udta (mp4p_atom_find_from mp4file udta (chars "udta/meta"))
  | none =>
    match append_at mp4file [0] (mp4p_atom_new (chars "udta")) with
    | none => none
    | some (tree1, udta) => modify_meta_meta tree1 udta none

/-- The loop `while (value < end)` over the values of one field; `i` is the
index the lookup in `_mp4_atom_map` ended at, `value` the bytes from the
pointer `value` to `end`, `fuel` bounds the number of values. -/
def modify_meta_values (key : List Nat) (i : Nat) (ilst : List Nat) :
    Nat → List Nat → List Atom → List Atom
  | 0, _, tree => tree
  | fuel + 1, value, tree =>
    if value = [] then tree
    else
      modify_meta_values key i ilst fuel (value.drop (strlen value + 1))
        (match _mp4_atom_map[i]? with
          | none => modify_at (fun a => mp4p_ilst_append_custom a key value) tree [0]
          | some code =>
            if strlen code ≠ 4 then
              modify_at (fun a => mp4p_ilst_append_custom a code value) tree [0]
            else modify_at (fun a => mp4p_ilst_append_text a code value) tree ilst)

/-- The loop `while (m)` over the fields of the tag record (lines 140 to
174); `none` is an invalid access. -/
def modify_meta_fields (ilst : List Nat) : List DB_metaInfo_t → List Atom → Option (List Atom)
  | [], tree => some tree
  | m :: next, tree =>
    if m.key.headD 0 ∈ [58, 33, 95, 0] then some tree
    else if !strcasecmp m.key (chars "track") || !strcasecmp m.key (chars "numtracks")
        || !strcasecmp m.key (chars "disc") || !strcasecmp m.key (chars "numdiscs")
        || !strcasecmp m.key (chars "genre") then
      modify_meta_fields ilst next tree
    else
      match modify_meta_lookup m.key _mp4_atom_map 0 with
      | none => none
      | some i =>
        modify_meta_fields ilst next
          (modify_meta_values m.key i ilst m.value.length m.value tree)

/-- The lines 176 to 179 of `mp4tagutil_modify_meta`: the genre item. -/
def modify_meta_genre (it : DB_playItem_t) (ilst : List Nat) (tree : List Atom) : List Atom :=
  match it.pl_find_meta (chars "genre") with
  | some genre => modify_at (fun a => mp4p_ilst_append_genre a genre) tree ilst
  | none => tree

/-- The lines 180 to 203 of `mp4tagutil_modify_meta`: the track and disc
items. Both are appended to `mp4file`, the first with the type `trck`, the
second with `itrack` and `inumtracks`. -/
def modify_meta_track_disc (it : DB_playItem_t) (tree : List Atom) : List Atom :=
  let itrack := match it.pl_find_meta (chars "track") with
    | some track => to_uint16 (atoi track)
    | none => 0
  let inumtracks := match it.pl_find_meta (chars "numtracks") with
    | some numtracks => to_uint16 (atoi numtracks)
    | none => 0
  let idisc := match it.pl_find_meta (chars "disc") with
    | some disc => to_uint16 (atoi disc)
    | none => 0
  let inumdiscs := match it.pl_find_meta (chars "numdiscs") with
    | some numdiscs => to_uint16 (atoi numdiscs)
    | none => 0
  let tree1 :=
    if itrack ≠ 0 ∨ inumtracks ≠ 0 then
      modify_at (fun a => mp4p_ilst_append_track_disc a (chars "trck") itrack inumtracks)
        tree [0]
    else tree
  if idisc ≠ 0 ∨ inumdiscs ≠ 0 then
    modify_at (fun a => mp4p_ilst_append_track_disc a (chars "disk") itrack inumtracks)
      tree1 [0]
  else tree1

/-- `tag_rg_names`. -/
def tag_rg_names : List (List Nat) :=
  [chars "replaygain_album_gain", chars "replaygain_album_peak",
   chars "replaygain_track_gain", chars "replaygain_track_peak"]

/-- `ddb_internal_rg_keys`. -/
def ddb_internal_rg_keys : List (List Nat) :=
  [chars ":REPLAYGAIN_ALBUMGAIN", chars ":REPLAYGAIN_ALBUMPEAK",
   chars ":REPLAYGAIN_TRACKGAIN", chars ":REPLAYGAIN_TRACKPEAK"]

/-- The loop `for (int n = 0; ddb_internal_rg_keys[n]; n++)` (lines 223 to
230) over the keys from index `n` on, each with its name of
`tag_rg_names`. -/
def modify_meta_replaygain (it : DB_playItem_t) :
    List (List Nat × List Nat) → Nat → List Atom → List Atom
  | [], _, tree => tree
  | (key, name) :: rest, n, tree =>
    modify_meta_replaygain it rest (n + 1)
      (if (it.pl_find_meta key).isSome then
        modify_at (fun a => mp4p_ilst_append_custom a name (it.replaygain_text n)) tree [0]
      else tree)

/-- `mp4tagutil_modify_meta (mp4file, it)`: the tree after the call, `none`
for an invalid access. `mp4file` is the list of the top-level atoms. -/
def mp4tagutil_modify_meta (mp4file : List Atom) (it : DB_playItem_t) : Option (List Atom) :=
  match modify_meta_locate mp4file with
  | none => none
  | some (tree, ilst) =>
    match modify_meta_fields ilst it.meta tree with
    | none => none
    | some tree1 =>
      some (modify_meta_replaygain it (ddb_internal_rg_keys.zip tag_rg_names) 0
        (modify_meta_track_disc it (modify_meta_genre it ilst tree1)))

/-- Modelled from the spec: the track as the host keeps it, which is not part
of these sources. The generic tag record is an ordered sequence of (key,
value) pairs; `pl_find_meta` answers with the first value of the first field
that has the key, letter case ignored, and the replay-gain texts are
empty. -/
def tag_record (fields : List DB_metaInfo_t) : DB_playItem_t :=
  { meta := fields,
    pl_find_meta := fun key =>
      (fields.find? (fun m => !strcasecmp key m.key)).map (fun m => strdup m.value),
    replaygain_text := fun _ => [] }

/-! ## Reading tags: `mp4_load_tags`

The effect of `mp4_load_tags` on the track is the sequence of host calls it
makes. -/

/-- The constants `DDB_REPLAYGAIN_*` of the host. -/
inductive ddb_replaygain where
  | ALBUMGAIN
  | ALBUMPEAK
  | TRACKGAIN
  | TRACKPEAK
deriving DecidableEq, Repr

/-- A call of a host function on the track `it`. A text is the C string
passed, its bytes up to the NUL; the number given to
`pl_set_item_replaygain` is `atof` of the text held here; a key is `none`
when the pointer passed is `NULL`; the last call stands for the lines 361 to
363, which set `DDB_TAG_ITUNES` in the flags. -/
inductive HostCall where
  | pl_set_item_replaygain (idx : ddb_replaygain) (text : List Nat)
  | pl_append_meta (key : Option (List Nat)) (value : List Nat)
  | pl_replace_meta (key : Option (List Nat)) (value : List Nat)
  | pl_set_item_flags_itunes
deriving DecidableEq, Repr

/-- How a run ends: with a result, with an invalid access (a `NULL` pointer
or an array index out of range is used), or with the fuel used up. -/
inductive Run (α : Type) where
  | ret (a : α)
  | fault
  | out_of_fuel
deriving DecidableEq, Repr

/-- What one pass through the body of the `while (meta_atom)` loop of
`mp4_load_tags` does: it makes host calls and goes on to `meta_atom->next`,
or makes host calls and comes back to the same `meta_atom` (`continue`), or
makes an invalid access. -/
inductive Step where
  | next (calls : List HostCall)
  | again (calls : List HostCall)
  | fault
deriving DecidableEq, Repr

/-- The text `snprintf (s, sizeof (s), "%d", (int)x)` makes of a 16-bit
value. -/
def decimal (x : Nat) : List Nat := (Nat.toDigits 10 x).map Char.toNat

/-- The branches for `trkn` and `disk` (lines 312 to 324 and 327 to 339):
`key1` and `key2` are the two keys replaced. -/
def load_tags_pair (meta : mp4p_meta_t) (values : List Nat) (key1 key2 : List Nat) : Step :=
  if meta.data_size ≥ 6 then
    match values[1]?, values[2]? with
    | some track, some total =>
      .next ((if track ≠ 0 then [.pl_replace_meta (some key1) (decimal track)] else [])
        ++ (if total ≠ 0 then [.pl_replace_meta (some key2) (decimal total)] else []))
    | _, _ => .fault
  else .next []

/-- The body of the `for` loop of `mp4_load_tags` at the index `i` where the
test `!strcasecmp (name, _mp4_atom_map[i])` holds (lines 307 to 355). -/
def load_tags_matched (meta_atom : Atom) (meta : mp4p_meta_t) (i : Nat) : Step :=
  match meta.text, meta.values with
  | some text, _ => .next [.pl_append_meta (_mp4_atom_map[i + 1]?) (strdup text)]
  | none, some values =>
    if meta_atom.type.take 4 = chars "trkn" then
      load_tags_pair meta values (chars "track") (chars "numtracks")
    else if meta_atom.type.take 4 = chars "disk" then
      load_tags_pair meta values (chars "disc") (chars "numdiscs")
    else
      match _mp4_atom_map[i + 1]? with
      | none => .fault
      | some key =>
        match values[0]? with
        | none => .fault
        | some v =>
          if key = chars "genre" then
            if v ≠ 0 then
              match mp4p_genre_name_for_index v with
              | some genre => .next [.pl_replace_meta (some key) genre]
              | none => .next []
            else .next []
          else .next [.pl_replace_meta (some key) (decimal v)]
  | none, none => .next []

/-- The call `pl_set_item_replaygain (it, idx, atof (meta->text))` followed
by `continue`. -/
def load_tags_replaygain (meta : mp4p_meta_t) (idx : ddb_replaygain) : Step :=
  match meta.text with
  | some text => .again [.pl_set_item_replaygain idx (strdup text)]
  | none => .fault

/-- Whether `strcasecmp (block, s2)` reads past the end of `block`, a block
of memory that holds exactly the bytes of the list, with no terminator after
them; `s2` is a C string. The comparison goes from byte to byte as long as
the two bytes are equal ignoring case and are not NUL. -/
def strcasecmp_reads_past : List Nat → List Nat → Bool
  | [], _ => true
  | _ :: _, [] => false
  | c :: cs, d :: ds =>
    if c = 0 ∨ tolower c ≠ tolower d then false else strcasecmp_reads_past cs ds

/-- The entries `_mp4_atom_map[i]` that the loop
`for (i = 0; _mp4_atom_map[i]; i += 2)` looks at. -/
def load_tags_codes : List (List Nat) → List (List Nat)
  | [] => []
  | [code] => [code]
  | code :: _ :: rest => code :: load_tags_codes rest

/-- The strings that one pass through the body of the loop of
`mp4_load_tags` compares `name` with, in order, when none of them is equal to
it (lines 288 to 306). -/
def load_tags_compared : List (List Nat) :=
  [chars "replaygain_track_gain", chars "replaygain_album_gain",
   chars "replaygain_track_peak", chars "replaygain_album_peak"]
  ++ load_tags_codes _mp4_atom_map

/-- Whether a comparison of the pass reads past the block of `meta->name`.
The trees given to `mp4_load_tags` come from `mp4p_open`, and the name of a
custom item is the block `malloc (name_size-12)` that
`_load_custom_metadata_atom` fills with the bytes of the `name` box: no
terminator is added. A comparison that reaches the end of the block without
a difference or a NUL reads past it. (A comparison that finds the strings
equal has met a NUL inside the block, and then none reads past it.) Without
a custom name, `name` is the local array `type`, which is terminated. -/
def load_tags_name_reads_past (meta : mp4p_meta_t) : Bool :=
  match meta.name with
  | some name => load_tags_compared.any (strcasecmp_reads_past name)
  | none => false

/-- The body of the `while (meta_atom)` loop of `mp4_load_tags` (lines 279 to
358); a read past the block of `meta->name` is an invalid access. -/
def load_tags_item (meta_atom : Atom) : Step :=
  match meta_atom.data with
  | .meta meta =>
    if load_tags_name_reads_past meta then .fault
    else if !strcasecmp (meta.name.getD (meta_atom.type.take 4))
        (chars "replaygain_track_gain") then
      load_tags_replaygain meta .TRACKGAIN
    else if !strcasecmp (meta.name.getD (meta_atom.type.take 4))
        (chars "replaygain_album_gain") then
      load_tags_replaygain meta .ALBUMGAIN
    else if !strcasecmp (meta.name.getD (meta_atom.type.take 4))
        (chars "replaygain_track_peak") then
      load_tags_replaygain meta .TRACKPEAK
    else if !strcasecmp (meta.name.getD (meta_atom.type.take 4))
        (chars "replaygain_album_peak") then
      load_tags_replaygain meta .ALBUMPEAK
    else
      match load_tags_lookup (meta.name.getD (meta_atom.type.take 4)) _mp4_atom_map 0 with
      | none => .next []
      | some i => load_tags_matched meta_atom meta i
  | _ => .fault

/-- The `while (meta_atom)` loop of `mp4_load_tags`: the list holds
`meta_atom` and the siblings after it, `calls` the host calls made so far,
`fuel` bounds the number of passes. -/
def load_tags_loop : Nat → List Atom → List HostCall → Run (List HostCall)
  | 0, _, _ => .out_of_fuel
  | _ + 1, [], calls => .ret calls
  | fuel + 1, meta_atom :: next, calls =>
    match load_tags_item meta_atom with
    | .next cs => load_tags_loop fuel next (calls ++ cs)
    | .again cs => load_tags_loop fuel (meta_atom :: next) (calls ++ cs)
    | .fault => .fault

/-- `mp4_load_tags (mp4file, it)`: the host calls made on `it`, in order. -/
def mp4_load_tags (fuel : Nat) (mp4file : List Atom) : Run (List HostCall) :=
  match mp4p_atom_find mp4file (chars "moov/udta/meta/ilst") with
  | [] => .fault
  | ilst_atom :: _ =>
    match load_tags_loop fuel ilst_atom.subatoms [] with
    | .ret calls =>
      .ret (if ilst_atom.subatoms.isEmpty then calls else calls ++ [.pl_set_item_flags_itunes])
    | .fault => .fault
    | .out_of_fuel => .out_of_fuel

/-! ## Trees made by the builders -/

/-- The number of bytes the writer of the atom emits when the buffer is
large enough for all of them: the total length of its `WRITE_*` chunks. -/
def writer_length (atom : Atom) : Nat :=
  match atom.to_buffer, atom.data with
  | some Writer._hdlr_write, .hdlr hdlr => ((_hdlr_write_chunks hdlr).map List.length).sum
  | some Writer._meta_write, .meta m => ((_meta_write_chunks m).map List.length).sum
  | _, _ => 0

/-- The trees that the builders make: a container from `mp4p_atom_new` with
built children appended by `mp4p_atom_append`, an `hdlr` set up by
`mp4p_hdlr_init`, and the items that `mp4p_ilst_append_text`, `_custom`,
`_genre` and `_track_disc` append. A type is an array of at least four
bytes, and the sizes fit the 32-bit size field. -/
inductive Built : Atom → Prop
  | container (type : List Nat) (cs : List Atom) (htype : 4 ≤ type.length)
      (hcs : ∀ c ∈ cs, Built c)
      (hsize : 8 + (cs.map atom_to_buffer_size).sum < 2 ^ 32) :
      Built (cs.foldl mp4p_atom_append (mp4p_atom_new type))
  | hdlr (atype type subtype manufacturer : List Nat) (hatype : 4 ≤ atype.length)
      (htype : 4 ≤ type.length) (hsubtype : 4 ≤ subtype.length)
      (hmanufacturer : 4 ≤ manufacturer.length) :
      Built (mp4p_hdlr_init (mp4p_atom_new atype) type subtype manufacturer)
  | text (type text : List Nat) (htype : 4 ≤ type.length)
      (hsize : 24 + strlen text < 2 ^ 32) :
      Built (ilst_text_item type text)
  | custom (name text : List Nat)
      (hsize : 8 + 28 + (12 + strlen name) + (16 + strlen text) < 2 ^ 32) :
      Built (ilst_custom_item name text)
  | genre (text : List Nat) (hsize : 24 + strlen text < 2 ^ 32) :
      Built (ilst_genre_item text)
  | track_disc (type : List Nat) (index total : Nat) (htype : 4 ≤ type.length) :
      Built (ilst_track_disc_item type index total)

/-- What the serializer does on an atom whose size-only result fits the
buffer: it returns that result. -/
def WritesItsSize (atom : Atom) : Prop :=
  atom_to_buffer_size atom < 2 ^ 32
    ∧ ∀ (mem : List Nat) (buffer buffer_size : Nat),
        atom_to_buffer_size atom ≤ buffer_size → buffer_size < 2 ^ 32 →
        ∃ mem1, atom_to_buffer_write atom mem buffer buffer_size
          = some (atom_to_buffer_size atom, mem1)

/-! ## Placement of the rewritten metadata -/

/-- Modelled from the spec: `mp4p_update_metadata`, which `mp4_write_metadata`
calls and whose body is not among the sources, as far as its placement
decision goes. `file` holds the bytes on disk, `moov_pos` is the offset of the
movie atom, `old_pos` and `old_size` are the on-disk extent of the old
metadata block, `end_pos` is the offset after the last top-level atom,
`new_block` is the newly serialized metadata block and `new_moov` the fully
serialized new movie atom. If the new block is no larger than the old extent
minus 8 bytes it is written over the old block, with a trailing `free` atom
header that absorbs the slack; otherwise the type of the movie atom on disk
becomes `free` and the new movie atom is appended after the last top-level
atom. -/
def mp4p_update_metadata_placement (file : List Nat) (moov_pos old_pos old_size end_pos : Nat)
    (new_block new_moov : List Nat) : List Nat :=
  if new_block.length + 8 ≤ old_size then
    poke file old_pos
      (new_block ++ (uint32_bytes (old_size - new_block.length) ++ chars "free"))
  else
    (poke file (moov_pos + 4) (chars "free")).take end_pos ++ new_moov

end Mp4

/-! # Theorems -/

namespace Mp4

/-! ## Sample table queries: `stts` -/

theorem stts_total_num_samples_loop_eq (es : List mp4p_stts_entry_t) :
    ∀ total : Nat, total + (es.map (·.sample_count)).sum < 2 ^ 64 →
      stts_total_num_samples_loop es total = total + (es.map (·.sample_count)).sum := by
  induction es with
  | nil => intro total _; simp [stts_total_num_samples_loop]
  | cons e es ih =>
    intro total h
    simp only [List.map_cons, List.sum_cons] at h ⊢
    have h1 : (total + e.sample_count) % 2 ^ 64 = total + e.sample_count :=
      Nat.mod_eq_of_lt (by omega)
    rw [stts_total_num_samples_loop, h1, ih _ (by omega)]
    omega

theorem sum_sample_count_le (es : List mp4p_stts_entry_t)
    (hw : ∀ e ∈ es, e.sample_count < 2 ^ 32) :
    (es.map (·.sample_count)).sum ≤ es.length * (2 ^ 32 - 1) := by
  induction es with
  | nil => simp
  | cons e es ih =>
    have he := hw e (List.mem_cons_self _ _)
    have := ih (fun x hx => hw x (List.mem_cons_of_mem _ hx))
    simp only [List.map_cons, List.sum_cons, List.length_cons]
    rw [Nat.add_mul]
    omega

/-- C6: for an stts table of `uint32_t` sample counts (fewer than 2^32 runs),
`mp4p_stts_total_num_samples` is the exact sum of the `sample_count` fields,
and it is 0 for a table without runs. -/
theorem C6_stts_total_num_samples (stts_atom : Atom) (stts : mp4p_stts_t)
    (hd : stts_atom.data = .stts stts)
    (hlen : stts.entries.length < 2 ^ 32)
    (hw : ∀ e ∈ stts.entries, e.sample_count < 2 ^ 32) :
    mp4p_stts_total_num_samples stts_atom = some ((stts.entries.map (·.sample_count)).sum)
      ∧ (stts.entries = [] → mp4p_stts_total_num_samples stts_atom = some 0) := by
  have hb := sum_sample_count_le stts.entries hw
  have hlt : (stts.entries.map (·.sample_count)).sum < 2 ^ 64 := by
    have h1 : stts.entries.length * (2 ^ 32 - 1) ≤ (2 ^ 32 - 1) * (2 ^ 32 - 1) :=
      Nat.mul_le_mul_right _ (by omega)
    have h2 : (2 ^ 32 - 1) * (2 ^ 32 - 1) < 2 ^ 64 := by norm_num
    omega
  have heq : mp4p_stts_total_num_samples stts_atom
      = some ((stts.entries.map (·.sample_count)).sum) := by
    unfold mp4p_stts_total_num_samples
    rw [hd]
    simp only
    rw [stts_total_num_samples_loop_eq _ 0 (by omega)]
    simp
  refine ⟨heq, fun hnil => ?_⟩
  rw [heq, hnil]
  rfl

theorem C6_stts_total_num_samples_witness :
    mp4p_stts_total_num_samples
        (Atom.mk 0 32 (chars "stts") (.stts ⟨[⟨3, 1024⟩, ⟨2, 512⟩]⟩) none []) = some 5 :=
  (C6_stts_total_num_samples
    (Atom.mk 0 32 (chars "stts") (.stts ⟨[⟨3, 1024⟩, ⟨2, 512⟩]⟩) none [])
    ⟨[⟨3, 1024⟩, ⟨2, 512⟩]⟩ rfl (by decide) (by decide)).1

theorem stts_cumulative_zero (es : List mp4p_stts_entry_t) : stts_cumulative es 0 = 0 := by
  simp [stts_cumulative]

theorem stts_cumulative_cons_succ (e : mp4p_stts_entry_t) (es : List mp4p_stts_entry_t)
    (k : Nat) : stts_cumulative (e :: es) (k + 1) = e.sample_count + stts_cumulative es k := by
  simp [stts_cumulative]

theorem stts_sample_duration_loop_spec (es : List mp4p_stts_entry_t) (sample : Nat) :
    ∀ n : Nat, n < sample → n + (es.map (·.sample_count)).sum < 2 ^ 32 →
      sample ≤ n + (es.map (·.sample_count)).sum →
      ∃ i, ∃ hi : i < es.length,
        sample ≤ n + stts_cumulative es (i + 1)
        ∧ (∀ j, j ≤ i → n + stts_cumulative es j < sample)
        ∧ stts_sample_duration_loop es n sample = (es.get ⟨i, hi⟩).sample_duration := by
  induction es with
  | nil => intro n h1 _ h3; simp at h3; omega
  | cons e es ih =>
    intro n h1 h2 h3
    simp only [List.map_cons, List.sum_cons] at h2 h3
    have hmod : (n + e.sample_count) % 2 ^ 32 = n + e.sample_count :=
      Nat.mod_eq_of_lt (by omega)
    by_cases hge : sample ≤ n + e.sample_count
    · refine ⟨0, by simp, ?_, ?_, ?_⟩
      · rw [stts_cumulative_cons_succ, stts_cumulative_zero]; omega
      · intro j hj
        have : j = 0 := by omega
        subst this
        rw [stts_cumulative_zero]; omega
      · simp only [stts_sample_duration_loop, hmod]
        rw [if_pos hge]
        rfl
    · obtain ⟨i, hi, ha, hb, hc⟩ := ih (n + e.sample_count) (by omega) (by omega) (by omega)
      refine ⟨i + 1, by simp; omega, ?_, ?_, ?_⟩
      · rw [stts_cumulative_cons_succ]; omega
      · intro j hj
        cases j with
        | zero => rw [stts_cumulative_zero]; omega
        | succ j =>
          rw [stts_cumulative_cons_succ]
          have := hb j (by omega)
          omega
      · simp only [stts_sample_duration_loop, hmod]
        rw [if_neg (by omega), hc]
        rfl

/-- C7: for an stts table whose total sample count is below 2^32 and every
`sample` with `1 <= sample <= total`, `mp4p_stts_sample_duration` returns the
`sample_duration` of run `i`, the first run whose cumulative sample count
reaches `sample`: the cumulative count through run `i` is at least `sample`
and the cumulative count of every shorter prefix of runs is below it. -/
theorem C7_stts_sample_duration (stts_atom : Atom) (stts : mp4p_stts_t) (sample : Nat)
    (hd : stts_atom.data = .stts stts)
    (htotal : (stts.entries.map (·.sample_count)).sum < 2 ^ 32)
    (h1 : 1 ≤ sample) (h2 : sample ≤ (stts.entries.map (·.sample_count)).sum) :
    ∃ i, ∃ hi : i < stts.entries.length,
      sample ≤ stts_cumulative stts.entries (i + 1)
      ∧ (∀ j, j ≤ i → stts_cumulative stts.entries j < sample)
      ∧ mp4p_stts_sample_duration stts_atom sample
          = some (stts.entries.get ⟨i, hi⟩).sample_duration := by
  obtain ⟨i, hi, ha, hb, hc⟩ :=
    stts_sample_duration_loop_spec stts.entries sample 0 (by omega) (by omega) (by omega)
  refine ⟨i, hi, by omega, fun j hj => by have := hb j hj; omega, ?_⟩
  unfold mp4p_stts_sample_duration
  rw [hd]
  simp only
  rw [hc]

theorem C7_stts_sample_duration_witness :
    ∃ i, ∃ hi : i < 2,
      4 ≤ stts_cumulative [⟨3, 1024⟩, ⟨2, 512⟩] (i + 1)
      ∧ (∀ j, j ≤ i → stts_cumulative [⟨3, 1024⟩, ⟨2, 512⟩] j < 4)
      ∧ mp4p_stts_sample_duration
          (Atom.mk 0 32 (chars "stts") (.stts ⟨[⟨3, 1024⟩, ⟨2, 512⟩]⟩) none []) 4
          = some (([⟨3, 1024⟩, ⟨2, 512⟩] : List mp4p_stts_entry_t).get ⟨i, hi⟩).sample_duration :=
  C7_stts_sample_duration
    (Atom.mk 0 32 (chars "stts") (.stts ⟨[⟨3, 1024⟩, ⟨2, 512⟩]⟩) none [])
    ⟨[⟨3, 1024⟩, ⟨2, 512⟩]⟩ 4 rfl (by decide) (by decide) (by decide)

/-- C8 (evaluation at the failing input): one run of 5000000 samples of
duration 1024. The product is formed in 32 bits, so the function returns
825032704 where the exact sum of `sample_duration * sample_count` is
5120000000. -/
theorem C8_stts_total_sample_duration_wraps :
    mp4p_stts_total_sample_duration
        (Atom.mk 0 24 (chars "stts") (.stts ⟨[⟨5000000, 1024⟩]⟩) none []) = some 825032704
      ∧ (([⟨5000000, 1024⟩] : List mp4p_stts_entry_t).map
          (fun e => e.sample_duration * e.sample_count)).sum = 5120000000 := by
  decide

/-! ## Atom lookup -/

theorem fourcc_compare_prefix (t p4 rest : List Nat) (h : p4.length = 4) :
    mp4p_fourcc_compare t (p4 ++ rest) = mp4p_fourcc_compare t p4 := by
  unfold mp4p_fourcc_compare
  rw [List.take_append_of_le_length (by omega)]

theorem dropWhile_first {α : Type} (p : α → Bool) (pre : List α) (x : α) (post : List α)
    (hpre : ∀ a ∈ pre, p a = true) (hx : p x = false) :
    (pre ++ x :: post).dropWhile p = x :: post := by
  induction pre with
  | nil => simp [List.dropWhile, hx]
  | cons a pre ih =>
    have ha := hpre a (List.mem_cons_self _ _)
    simp only [List.cons_append, List.dropWhile, ha]
    exact ih (fun b hb => hpre b (List.mem_cons_of_mem _ hb))

/-- A two-level path `pppp/cccc` from an atom of type `pppp` resolves to the
first child whose type is `cccc`, with the children after it. -/
theorem atom_find_two (parent : Atom) (sibs : List Atom) (p4 c4 : List Nat)
    (hp : p4.length = 4) (hc : c4.length = 4)
    (hty : mp4p_fourcc_compare parent.type p4 = false) :
    mp4p_atom_find (parent :: sibs) (p4 ++ 47 :: c4)
      = parent.subatoms.dropWhile (fun a => mp4p_fourcc_compare a.type c4) := by
  have hlen : (p4 ++ 47 :: c4).length + 1 = 8 + 1 + 1 := by simp [hp, hc]
  have hdrop : (p4 ++ 47 :: c4).drop 4 = 47 :: c4 := by
    rw [← hp]; exact List.drop_left _ _
  unfold mp4p_atom_find
  rw [hlen, mp4p_atom_find_aux]
  rw [if_neg (by simp [hp, hc])]
  simp only [List.dropWhile, fourcc_compare_prefix _ _ _ hp, hty, hdrop]
  rw [if_pos trivial, mp4p_atom_find_aux, if_neg (by omega)]
  have hd4 : c4.drop 4 = [] := by rw [← hc]; exact List.drop_length _
  cases hdw : parent.subatoms.dropWhile (fun a => mp4p_fourcc_compare a.type c4) with
  | nil => rfl
  | cons a next => simp only [hd4]

/-! ## Sample table queries: `stsz` -/

/-- C9: for an stbl atom whose first child of type `stsz` carries a decoded
stsz table, `mp4p_sample_size` returns `stsz.sample_size` when that field is
nonzero, otherwise `entries[sample].sample_size` when `sample` is below the
number of entries, and 0 when it is out of range. -/
theorem C9_sample_size (stbl : Atom) (sibs pre post : List Atom) (stsz_atom : Atom)
    (stsz : mp4p_stsz_t) (sample : Nat)
    (hty : mp4p_atom_type_compare stbl (chars "stbl") = false)
    (hch : stbl.subatoms = pre ++ stsz_atom :: post)
    (hpre : ∀ a ∈ pre, mp4p_atom_type_compare a (chars "stsz") = true)
    (hst : mp4p_atom_type_compare stsz_atom (chars "stsz") = false)
    (hd : stsz_atom.data = .stsz stsz) :
    mp4p_sample_size (stbl :: sibs) sample
      = some (if stsz.sample_size ≠ 0 then stsz.sample_size
              else if h : sample < stsz.entries.length
                then (stsz.entries.get ⟨sample, h⟩).sample_size
                else 0) := by
  have hpath : chars "stbl/stsz" = chars "stbl" ++ 47 :: chars "stsz" := by decide
  have hfind : mp4p_atom_find (stbl :: sibs) (chars "stbl/stsz") = stsz_atom :: post := by
    rw [hpath, atom_find_two stbl sibs _ _ (by decide) (by decide) hty, hch]
    exact dropWhile_first _ pre stsz_atom post hpre hst
  unfold mp4p_sample_size
  rw [hfind]
  simp only [hd]
  by_cases h0 : stsz.sample_size = 0
  · by_cases hlt : sample < stsz.entries.length
    · simp [h0, hlt, List.getElem?_eq_getElem]
    · simp [h0, hlt]
  · simp [h0]

theorem C9_sample_size_witness :
    mp4p_sample_size
        [Atom.mk 0 44 (chars "stbl") .none none
          [Atom.mk 8 8 (chars "free") .none none [],
           Atom.mk 16 28 (chars "stsz") (.stsz ⟨0, [⟨10⟩, ⟨20⟩]⟩) none []]] 1
      = some (if (0 : Nat) ≠ 0 then 0
              else if h : 1 < ([⟨10⟩, ⟨20⟩] : List mp4p_stsz_entry_t).length
                then (([⟨10⟩, ⟨20⟩] : List mp4p_stsz_entry_t).get ⟨1, h⟩).sample_size
                else 0) :=
  C9_sample_size
    (Atom.mk 0 44 (chars "stbl") .none none
      [Atom.mk 8 8 (chars "free") .none none [],
       Atom.mk 16 28 (chars "stsz") (.stsz ⟨0, [⟨10⟩, ⟨20⟩]⟩) none []])
    [] [Atom.mk 8 8 (chars "free") .none none []] []
    (Atom.mk 16 28 (chars "stsz") (.stsz ⟨0, [⟨10⟩, ⟨20⟩]⟩) none [])
    ⟨0, [⟨10⟩, ⟨20⟩]⟩ 1 (by decide) rfl (by decide) (by decide) rfl

/-! ## Sample table queries: `mp4p_sample_offset` -/

/-- C1 (evaluation at the failing input): one stsc run `(first_chunk 1, 1
sample per chunk)` spanning two chunks at offsets 100 and 200, sample sizes
10 and 20. Sample 1 is the only sample of the second chunk, at offset 200;
`mp4p_sample_offset` indexes the chunk offsets with the stsc run index and
returns 100 + 10. -/
theorem C1_sample_offset_wrong_chunk :
    mp4p_sample_offset
        [Atom.mk 0 0 (chars "stbl") .none none
          [Atom.mk 0 0 (chars "stsc") (.stsc ⟨[⟨1, 1, 1⟩]⟩) none [],
           Atom.mk 0 0 (chars "stco") (.stco ⟨[⟨100⟩, ⟨200⟩]⟩) none [],
           Atom.mk 0 0 (chars "stsz") (.stsz ⟨0, [⟨10⟩, ⟨20⟩]⟩) none []]] 1 = some 110
      ∧ spec_sample_offset ⟨[⟨1, 1, 1⟩]⟩ ⟨[⟨100⟩, ⟨200⟩]⟩ ⟨0, [⟨10⟩, ⟨20⟩]⟩ 1 = some 200 := by
  decide

/-- C10 (evaluation at the failing input): chunks 1 to 3 hold one sample,
chunk 4 holds two; the chunks lie back to back at 100, 110, 120, 130 and
every sample has 10 bytes. `mp4p_sample_offset` gives 130 for sample 3 and
120 for sample 4. -/
theorem C10_sample_offset_not_monotone :
    mp4p_sample_offset
        [Atom.mk 0 0 (chars "stbl") .none none
          [Atom.mk 0 0 (chars "stsc") (.stsc ⟨[⟨1, 1, 1⟩, ⟨4, 2, 1⟩]⟩) none [],
           Atom.mk 0 0 (chars "stco") (.stco ⟨[⟨100⟩, ⟨110⟩, ⟨120⟩, ⟨130⟩]⟩) none [],
           Atom.mk 0 0 (chars "stsz")
             (.stsz ⟨0, [⟨10⟩, ⟨10⟩, ⟨10⟩, ⟨10⟩, ⟨10⟩]⟩) none []]] 3 = some 130
      ∧ mp4p_sample_offset
        [Atom.mk 0 0 (chars "stbl") .none none
          [Atom.mk 0 0 (chars "stsc") (.stsc ⟨[⟨1, 1, 1⟩, ⟨4, 2, 1⟩]⟩) none [],
           Atom.mk 0 0 (chars "stco") (.stco ⟨[⟨100⟩, ⟨110⟩, ⟨120⟩, ⟨130⟩]⟩) none [],
           Atom.mk 0 0 (chars "stsz")
             (.stsz ⟨0, [⟨10⟩, ⟨10⟩, ⟨10⟩, ⟨10⟩, ⟨10⟩]⟩) none []]] 4 = some 120
      ∧ (List.range 5).map (spec_sample_offset ⟨[⟨1, 1, 1⟩, ⟨4, 2, 1⟩]⟩
          ⟨[⟨100⟩, ⟨110⟩, ⟨120⟩, ⟨130⟩]⟩ ⟨0, [⟨10⟩, ⟨10⟩, ⟨10⟩, ⟨10⟩, ⟨10⟩]⟩)
        = [some 100, some 110, some 120, some 130, some 140] := by
  decide

/-! ## Atom loader: a box of declared size 0 -/

/-- Loading the box header `00 00 00 00 'free'` at position 0 succeeds and
leaves the cursor at position 0. -/
theorem atom_load_zero_size (fuel : Nat) :
    _atom_load (fuel + 1) none ⟨[0, 0, 0, 0, 102, 114, 101, 101], 0⟩
      = some (some (Atom.mk 0 0 (chars "free") .none none []),
          ⟨[0, 0, 0, 0, 102, 114, 101, 101], 0⟩) := rfl

theorem open_loop_zero_size (depth : Nat) :
    ∀ (fuel : Nat) (acc : List Atom),
      mp4p_open_loop depth fuel acc ⟨[0, 0, 0, 0, 102, 114, 101, 101], 0⟩ = none := by
  intro fuel
  induction fuel with
  | zero => intro acc; rfl
  | succ n ih =>
    intro acc
    cases depth with
    | zero => rfl
    | succ d =>
      rw [mp4p_open_loop, atom_load_zero_size d]
      exact ih _

/-- C4 (evaluation at the failing input): on the 8-byte source
`00 00 00 00 'free'` a load of one atom succeeds with the cursor left at the
position where the atom started, and the top-level loop of `mp4p_open` does
not end for any amount of fuel. -/
theorem C4_zero_size_no_progress :
    (∀ fuel : Nat, _atom_load (fuel + 1) none ⟨[0, 0, 0, 0, 102, 114, 101, 101], 0⟩
        = some (some (Atom.mk 0 0 (chars "free") .none none []),
            ⟨[0, 0, 0, 0, 102, 114, 101, 101], 0⟩))
      ∧ (∀ fuel : Nat, mp4p_open fuel ⟨[0, 0, 0, 0, 102, 114, 101, 101], 0⟩ = none) :=
  ⟨fun _ => rfl, fun fuel => open_loop_zero_size fuel fuel []⟩

/-- The child loop of a `moov` box of declared size 16 whose payload is the
header `00 00 00 00 'free'` never ends: every round loads the same child. -/
theorem load_subatoms_loop_stuck (fuel : Nat) :
    ∀ (k : Nat) (acc : List Atom),
      _load_subatoms_loop
        (_atom_load fuel (some (Atom.mk 0 16 (chars "moov") .none none []))) 16 k acc
        ⟨[0, 0, 0, 16, 109, 111, 111, 118, 0, 0, 0, 0, 102, 114, 101, 101], 8⟩ = none := by
  intro k
  induction k with
  | zero => intro acc; rfl
  | succ n ih =>
    intro acc
    cases fuel with
    | zero => rfl
    | succ f =>
      have hload : _atom_load (f + 1) (some (Atom.mk 0 16 (chars "moov") .none none []))
          ⟨[0, 0, 0, 16, 109, 111, 111, 118, 0, 0, 0, 0, 102, 114, 101, 101], 8⟩
          = some (some (Atom.mk 8 0 (chars "free") .none none []),
              ⟨[0, 0, 0, 16, 109, 111, 111, 118, 0, 0, 0, 0, 102, 114, 101, 101], 8⟩) := rfl
      rw [_load_subatoms_loop, if_pos (by decide), hload]
      exact ih _

theorem atom_load_moov_stuck (fuel : Nat) :
    _atom_load fuel none
      ⟨[0, 0, 0, 16, 109, 111, 111, 118, 0, 0, 0, 0, 102, 114, 101, 101], 0⟩ = none := by
  cases fuel with
  | zero => rfl
  | succ f =>
    have hinit : mp4p_atom_init (_atom_load f) f none
        (Atom.mk 0 16 (chars "moov") .none none [])
        ⟨[0, 0, 0, 16, 109, 111, 111, 118, 0, 0, 0, 0, 102, 114, 101, 101], 8⟩ = none := by
      have h1 : mp4p_atom_init (_atom_load f) f none
          (Atom.mk 0 16 (chars "moov") .none none [])
          ⟨[0, 0, 0, 16, 109, 111, 111, 118, 0, 0, 0, 0, 102, 114, 101, 101], 8⟩
          = _load_subatoms (_atom_load f) f (Atom.mk 0 16 (chars "moov") .none none [])
            ⟨[0, 0, 0, 16, 109, 111, 111, 118, 0, 0, 0, 0, 102, 114, 101, 101], 8⟩ := rfl
      rw [h1]
      unfold _load_subatoms
      have h2 := load_subatoms_loop_stuck f f []
      simp only [Atom.pos, Atom.size, Atom.subatoms] at h2 ⊢
      rw [h2]
    have hstep : _atom_load (f + 1) none
        ⟨[0, 0, 0, 16, 109, 111, 111, 118, 0, 0, 0, 0, 102, 114, 101, 101], 0⟩
        = match mp4p_atom_init (_atom_load f) f none
            (Atom.mk 0 16 (chars "moov") .none none [])
            ⟨[0, 0, 0, 16, 109, 111, 111, 118, 0, 0, 0, 0, 102, 114, 101, 101], 8⟩ with
          | none => none
          | some (_, atom, fp3) => some (some atom, fp3.fseek_set (0 + 16)) := rfl
    rw [hstep, hinit]

/-- C2 (evaluation at the failing input): at position 0 of the 16-byte source
`00 00 00 10 'moov' 00 00 00 00 'free'` the eight header bytes can be read,
yet `_atom_load` returns for no amount of fuel: the child loop of the `moov`
box meets a box of declared size 0 and loads it again and again. -/
theorem C2_atom_load_does_not_return :
    8 ≤ ([0, 0, 0, 16, 109, 111, 111, 118, 0, 0, 0, 0, 102, 114, 101, 101] : List Nat).length
      ∧ ∀ fuel : Nat, _atom_load fuel none
          ⟨[0, 0, 0, 16, 109, 111, 111, 118, 0, 0, 0, 0, 102, 114, 101, 101], 0⟩ = none :=
  ⟨by decide, atom_load_moov_stuck⟩

/-- C3 (evaluation at the failing input): the 16-byte source
`00 00 00 10 'moov' 00 00 00 00 'free'` is one box of declared size 16
followed by no further byte, and `mp4p_open` returns for no amount of fuel. -/
theorem C3_open_does_not_return :
    ∀ fuel : Nat, mp4p_open fuel
      ⟨[0, 0, 0, 16, 109, 111, 111, 118, 0, 0, 0, 0, 102, 114, 101, 101], 0⟩ = none := by
  intro fuel
  cases fuel with
  | zero => rfl
  | succ f =>
    unfold mp4p_open
    rw [mp4p_open_loop, atom_load_moov_stuck]

/-! ## The decoders leave the bytes of the source as they are -/

theorem keeps_pure {σ α : Type} (a : α) : (Rd.pure a : Rd σ α).Keeps := ⟨fun _ _ => rfl⟩

theorem keeps_pure_inst {σ α : Type} (a : α) : (pure a : Rd σ α).Keeps := ⟨fun _ _ => rfl⟩

theorem keeps_fail {σ α : Type} : (Rd.fail : Rd σ α).Keeps := ⟨fun _ _ => rfl⟩

theorem keeps_set {σ : Type} (f : σ → σ) : (Rd.set f).Keeps := ⟨fun _ _ => rfl⟩

theorem keeps_ftell {σ : Type} : (Rd.ftell : Rd σ Nat).Keeps := ⟨fun _ _ => rfl⟩

theorem keeps_fseek_cur {σ : Type} (offset : Int) : (Rd.fseek_cur offset : Rd σ Unit).Keeps := by
  constructor
  intro s fp
  simp only [Rd.fseek_cur, File.fseek_cur]
  split <;> rfl

theorem keeps_bind {σ α β : Type} (m : Rd σ α) (f : α → Rd σ β) (hm : m.Keeps)
    (hf : ∀ a, (f a).Keeps) : (m >>= f).Keeps := by
  constructor
  intro s fp
  show (Rd.bind m f s fp).2.2.bytes = fp.bytes
  unfold Rd.bind
  have h1 := hm.bytes_eq s fp
  split
  · rename_i s1 fp1 heq
    rw [heq] at h1
    exact h1
  · rename_i a s1 fp1 heq
    rw [heq] at h1
    rw [(hf a).bytes_eq s1 fp1]
    exact h1

theorem fread_bytes (fp : File) (n : Nat) : (fp.fread n).2.bytes = fp.bytes := rfl

theorem read_uint16_bytes (fp : File) : (_read_uint16 fp).2.bytes = fp.bytes := by
  unfold _read_uint16
  split <;> (rename_i h; rw [← fread_bytes fp 2, h])

theorem read_uint32_bytes (fp : File) : (_read_uint32 fp).2.bytes = fp.bytes := by
  unfold _read_uint32
  split <;> (rename_i h; rw [← fread_bytes fp 4, h])

theorem read_uint64_bytes (fp : File) : (_read_uint64 fp).2.bytes = fp.bytes := by
  unfold _read_uint64
  split <;> (rename_i h; rw [← fread_bytes fp 8, h])

theorem keeps_READ_UINT8 {σ : Type} : (READ_UINT8 : Rd σ Nat).Keeps := by
  constructor
  intro s fp
  unfold READ_UINT8
  split <;> (rename_i h; rw [← fread_bytes fp 1, h])

theorem keeps_READ_UINT16 {σ : Type} : (READ_UINT16 : Rd σ Nat).Keeps :=
  ⟨fun _ fp => read_uint16_bytes fp⟩

theorem keeps_READ_UINT32 {σ : Type} : (READ_UINT32 : Rd σ Nat).Keeps :=
  ⟨fun _ fp => read_uint32_bytes fp⟩

theorem keeps_READ_UINT64 {σ : Type} : (READ_UINT64 : Rd σ Nat).Keeps :=
  ⟨fun _ fp => read_uint64_bytes fp⟩

theorem keeps_READ_BUF {σ : Type} (size : Nat) (store : List Nat → σ → σ) :
    (READ_BUF size store).Keeps := by
  constructor
  intro s fp
  unfold READ_BUF
  simp only
  split <;> rfl

theorem keeps_READ_BUF_local {σ : Type} (size : Nat) : (READ_BUF_local size : Rd σ _).Keeps :=
  keeps_READ_BUF size _

theorem keeps_READ_COMMON_HEADER {σ : Type} : (READ_COMMON_HEADER : Rd σ Unit).Keeps :=
  keeps_bind _ _ keeps_READ_UINT32 (fun _ => keeps_pure _)

theorem keeps_load_ftyp : (load_ftyp).Keeps := by
  unfold load_ftyp
  repeat (first
    | with_reducible exact keeps_pure _
    | with_reducible exact keeps_pure_inst _
    | with_reducible exact keeps_fail
    | with_reducible exact keeps_set _
    | with_reducible exact keeps_READ_UINT8
    | with_reducible exact keeps_READ_UINT16
    | with_reducible exact keeps_READ_UINT32
    | with_reducible exact keeps_READ_UINT64
    | with_reducible exact keeps_READ_BUF _ _
    | with_reducible exact keeps_READ_BUF_local _
    | with_reducible exact keeps_READ_COMMON_HEADER
    | with_reducible exact keeps_fseek_cur _
    | with_reducible exact keeps_ftell
    | with_reducible apply keeps_bind | intro _ | split | dsimp only)

theorem keeps_load_mvhd : (load_mvhd).Keeps := by
  unfold load_mvhd
  repeat (first
    | with_reducible exact keeps_pure _
    | with_reducible exact keeps_pure_inst _
    | with_reducible exact keeps_fail
    | with_reducible exact keeps_set _
    | with_reducible exact keeps_READ_UINT8
    | with_reducible exact keeps_READ_UINT16
    | with_reducible exact keeps_READ_UINT32
    | with_reducible exact keeps_READ_UINT64
    | with_reducible exact keeps_READ_BUF _ _
    | with_reducible exact keeps_READ_BUF_local _
    | with_reducible exact keeps_READ_COMMON_HEADER
    | with_reducible exact keeps_fseek_cur _
    | with_reducible exact keeps_ftell
    | with_reducible apply keeps_bind | intro _ | split | dsimp only)

theorem keeps_load_tkhd : (load_tkhd).Keeps := by
  unfold load_tkhd
  repeat (first
    | with_reducible exact keeps_pure _
    | with_reducible exact keeps_pure_inst _
    | with_reducible exact keeps_fail
    | with_reducible exact keeps_set _
    | with_reducible exact keeps_READ_UINT8
    | with_reducible exact keeps_READ_UINT16
    | with_reducible exact keeps_READ_UINT32
    | with_reducible exact keeps_READ_UINT64
    | with_reducible exact keeps_READ_BUF _ _
    | with_reducible exact keeps_READ_BUF_local _
    | with_reducible exact keeps_READ_COMMON_HEADER
    | with_reducible exact keeps_fseek_cur _
    | with_reducible exact keeps_ftell
    | with_reducible apply keeps_bind | intro _ | split | dsimp only)

theorem keeps_load_mdhd : (load_mdhd).Keeps := by
  unfold load_mdhd
  repeat (first
    | with_reducible exact keeps_pure _
    | with_reducible exact keeps_pure_inst _
    | with_reducible exact keeps_fail
    | with_reducible exact keeps_set _
    | with_reducible exact keeps_READ_UINT8
    | with_reducible exact keeps_READ_UINT16
    | with_reducible exact keeps_READ_UINT32
    | with_reducible exact keeps_READ_UINT64
    | with_reducible exact keeps_READ_BUF _ _
    | with_reducible exact keeps_READ_BUF_local _
    | with_reducible exact keeps_READ_COMMON_HEADER
    | with_reducible exact keeps_fseek_cur _
    | with_reducible exact keeps_ftell
    | with_reducible apply keeps_bind | intro _ | split | dsimp only)

theorem keeps_load_hdlr : (load_hdlr).Keeps := by
  unfold load_hdlr
  repeat (first
    | with_reducible exact keeps_pure _
    | with_reducible exact keeps_pure_inst _
    | with_reducible exact keeps_fail
    | with_reducible exact keeps_set _
    | with_reducible exact keeps_READ_UINT8
    | with_reducible exact keeps_READ_UINT16
    | with_reducible exact keeps_READ_UINT32
    | with_reducible exact keeps_READ_UINT64
    | with_reducible exact keeps_READ_BUF _ _
    | with_reducible exact keeps_READ_BUF_local _
    | with_reducible exact keeps_READ_COMMON_HEADER
    | with_reducible exact keeps_fseek_cur _
    | with_reducible exact keeps_ftell
    | with_reducible apply keeps_bind | intro _ | split | dsimp only)

theorem keeps_load_smhd : (load_smhd).Keeps := by
  unfold load_smhd
  repeat (first
    | with_reducible exact keeps_pure _
    | with_reducible exact keeps_pure_inst _
    | with_reducible exact keeps_fail
    | with_reducible exact keeps_set _
    | with_reducible exact keeps_READ_UINT8
    | with_reducible exact keeps_READ_UINT16
    | with_reducible exact keeps_READ_UINT32
    | with_reducible exact keeps_READ_UINT64
    | with_reducible exact keeps_READ_BUF _ _
    | with_reducible exact keeps_READ_BUF_local _
    | with_reducible exact keeps_READ_COMMON_HEADER
    | with_reducible exact keeps_fseek_cur _
    | with_reducible exact keeps_ftell
    | with_reducible apply keeps_bind | intro _ | split | dsimp only)

theorem keeps_load_stsd : (load_stsd).Keeps := by
  unfold load_stsd
  repeat (first
    | with_reducible exact keeps_pure _
    | with_reducible exact keeps_pure_inst _
    | with_reducible exact keeps_fail
    | with_reducible exact keeps_set _
    | with_reducible exact keeps_READ_UINT8
    | with_reducible exact keeps_READ_UINT16
    | with_reducible exact keeps_READ_UINT32
    | with_reducible exact keeps_READ_UINT64
    | with_reducible exact keeps_READ_BUF _ _
    | with_reducible exact keeps_READ_BUF_local _
    | with_reducible exact keeps_READ_COMMON_HEADER
    | with_reducible exact keeps_fseek_cur _
    | with_reducible exact keeps_ftell
    | with_reducible apply keeps_bind | intro _ | split | dsimp only)

theorem keeps_load_stts_entries :
    ∀ k i : Nat, (load_stts_entries k i : Rd mp4p_stts_t _).Keeps := by
  intro k
  induction k with
  | zero => intro i; exact keeps_pure _
  | succ n ih =>
    intro i
    unfold load_stts_entries
    repeat (first
      | with_reducible exact keeps_pure _
      | with_reducible exact keeps_pure_inst _
      | with_reducible exact keeps_fail
      | with_reducible exact keeps_set _
      | with_reducible exact keeps_READ_UINT8
      | with_reducible exact keeps_READ_UINT16
      | with_reducible exact keeps_READ_UINT32
      | with_reducible exact keeps_READ_UINT64
      | with_reducible exact keeps_READ_BUF _ _
      | with_reducible exact keeps_READ_BUF_local _
      | with_reducible exact keeps_READ_COMMON_HEADER
      | with_reducible exact keeps_fseek_cur _
      | with_reducible exact keeps_ftell
      | with_reducible exact ih _
      | with_reducible apply keeps_bind | intro _ | split | dsimp only)

theorem keeps_load_stts : (load_stts).Keeps := by
  unfold load_stts
  repeat (first
    | with_reducible exact keeps_pure _
    | with_reducible exact keeps_pure_inst _
    | with_reducible exact keeps_fail
    | with_reducible exact keeps_set _
    | with_reducible exact keeps_READ_UINT8
    | with_reducible exact keeps_READ_UINT16
    | with_reducible exact keeps_READ_UINT32
    | with_reducible exact keeps_READ_UINT64
    | with_reducible exact keeps_READ_BUF _ _
    | with_reducible exact keeps_READ_BUF_local _
    | with_reducible exact keeps_READ_COMMON_HEADER
    | with_reducible exact keeps_fseek_cur _
    | with_reducible exact keeps_ftell
    | with_reducible exact keeps_load_stts_entries _ _
    | with_reducible apply keeps_bind | intro _ | split | dsimp only)

theorem keeps_load_stsc_entries :
    ∀ k i : Nat, (load_stsc_entries k i : Rd mp4p_stsc_t _).Keeps := by
  intro k
  induction k with
  | zero => intro i; exact keeps_pure _
  | succ n ih =>
    intro i
    unfold load_stsc_entries
    repeat (first
      | with_reducible exact keeps_pure _
      | with_reducible exact keeps_pure_inst _
      | with_reducible exact keeps_fail
      | with_reducible exact keeps_set _
      | with_reducible exact keeps_READ_UINT8
      | with_reducible exact keeps_READ_UINT16
      | with_reducible exact keeps_READ_UINT32
      | with_reducible exact keeps_READ_UINT64
      | with_reducible exact keeps_READ_BUF _ _
      | with_reducible exact keeps_READ_BUF_local _
      | with_reducible exact keeps_READ_COMMON_HEADER
      | with_reducible exact keeps_fseek_cur _
      | with_reducible exact keeps_ftell
      | with_reducible exact ih _
      | with_reducible apply keeps_bind | intro _ | split | dsimp only)

theorem keeps_load_stsc : (load_stsc).Keeps := by
  unfold load_stsc
  repeat (first
    | with_reducible exact keeps_pure _
    | with_reducible exact keeps_pure_inst _
    | with_reducible exact keeps_fail
    | with_reducible exact keeps_set _
    | with_reducible exact keeps_READ_UINT8
    | with_reducible exact keeps_READ_UINT16
    | with_reducible exact keeps_READ_UINT32
    | with_reducible exact keeps_READ_UINT64
    | with_reducible exact keeps_READ_BUF _ _
    | with_reducible exact keeps_READ_BUF_local _
    | with_reducible exact keeps_READ_COMMON_HEADER
    | with_reducible exact keeps_fseek_cur _
    | with_reducible exact keeps_ftell
    | with_reducible exact keeps_load_stsc_entries _ _
    | with_reducible apply keeps_bind | intro _ | split | dsimp only)

theorem keeps_load_stsz_entries :
    ∀ k i : Nat, (load_stsz_entries k i : Rd mp4p_stsz_t _).Keeps := by
  intro k
  induction k with
  | zero => intro i; exact keeps_pure _
  | succ n ih =>
    intro i
    unfold load_stsz_entries
    repeat (first
      | with_reducible exact keeps_pure _
      | with_reducible exact keeps_pure_inst _
      | with_reducible exact keeps_fail
      | with_reducible exact keeps_set _
      | with_reducible exact keeps_READ_UINT8
      | with_reducible exact keeps_READ_UINT16
      | with_reducible exact keeps_READ_UINT32
      | with_reducible exact keeps_READ_UINT64
      | with_reducible exact keeps_READ_BUF _ _
      | with_reducible exact keeps_READ_BUF_local _
      | with_reducible exact keeps_READ_COMMON_HEADER
      | with_reducible exact keeps_fseek_cur _
      | with_reducible exact keeps_ftell
      | with_reducible exact ih _
      | with_reducible apply keeps_bind | intro _ | split | dsimp only)

theorem keeps_load_stsz : (load_stsz).Keeps := by
  unfold load_stsz
  repeat (first
    | with_reducible exact keeps_pure _
    | with_reducible exact keeps_pure_inst _
    | with_reducible exact keeps_fail
    | with_reducible exact keeps_set _
    | with_reducible exact keeps_READ_UINT8
    | with_reducible exact keeps_READ_UINT16
    | with_reducible exact keeps_READ_UINT32
    | with_reducible exact keeps_READ_UINT64
    | with_reducible exact keeps_READ_BUF _ _
    | with_reducible exact keeps_READ_BUF_local _
    | with_reducible exact keeps_READ_COMMON_HEADER
    | with_reducible exact keeps_fseek_cur _
    | with_reducible exact keeps_ftell
    | with_reducible exact keeps_load_stsz_entries _ _
    | with_reducible apply keeps_bind | intro _ | split | dsimp only)

theorem keeps_load_stco_entries (wide : Bool) :
    ∀ k i : Nat, (load_stco_entries wide k i : Rd mp4p_stco_t _).Keeps := by
  intro k
  induction k with
  | zero => intro i; exact keeps_pure _
  | succ n ih =>
    intro i
    unfold load_stco_entries
    repeat (first
      | with_reducible exact keeps_pure _
      | with_reducible exact keeps_pure_inst _
      | with_reducible exact keeps_fail
      | with_reducible exact keeps_set _
      | with_reducible exact keeps_READ_UINT8
      | with_reducible exact keeps_READ_UINT16
      | with_reducible exact keeps_READ_UINT32
      | with_reducible exact keeps_READ_UINT64
      | with_reducible exact keeps_READ_BUF _ _
      | with_reducible exact keeps_READ_BUF_local _
      | with_reducible exact keeps_READ_COMMON_HEADER
      | with_reducible exact keeps_fseek_cur _
      | with_reducible exact keeps_ftell
      | with_reducible exact ih _
      | with_reducible apply keeps_bind | intro _ | split | dsimp only)

theorem keeps_load_stco (wide : Bool) : (load_stco wide).Keeps := by
  unfold load_stco
  repeat (first
    | with_reducible exact keeps_pure _
    | with_reducible exact keeps_pure_inst _
    | with_reducible exact keeps_fail
    | with_reducible exact keeps_set _
    | with_reducible exact keeps_READ_UINT8
    | with_reducible exact keeps_READ_UINT16
    | with_reducible exact keeps_READ_UINT32
    | with_reducible exact keeps_READ_UINT64
    | with_reducible exact keeps_READ_BUF _ _
    | with_reducible exact keeps_READ_BUF_local _
    | with_reducible exact keeps_READ_COMMON_HEADER
    | with_reducible exact keeps_fseek_cur _
    | with_reducible exact keeps_ftell
    | with_reducible exact keeps_load_stco_entries _ _ _
    | with_reducible apply keeps_bind | intro _ | split | dsimp only)

theorem keeps_load_dref : (load_dref).Keeps := by
  unfold load_dref
  repeat (first
    | with_reducible exact keeps_pure _
    | with_reducible exact keeps_pure_inst _
    | with_reducible exact keeps_fail
    | with_reducible exact keeps_set _
    | with_reducible exact keeps_READ_UINT8
    | with_reducible exact keeps_READ_UINT16
    | with_reducible exact keeps_READ_UINT32
    | with_reducible exact keeps_READ_UINT64
    | with_reducible exact keeps_READ_BUF _ _
    | with_reducible exact keeps_READ_BUF_local _
    | with_reducible exact keeps_READ_COMMON_HEADER
    | with_reducible exact keeps_fseek_cur _
    | with_reducible exact keeps_ftell
    | with_reducible apply keeps_bind | intro _ | split | dsimp only)

theorem keeps_load_alac (size : Nat) : (load_alac size).Keeps := by
  unfold load_alac
  repeat (first
    | with_reducible exact keeps_pure _
    | with_reducible exact keeps_pure_inst _
    | with_reducible exact keeps_fail
    | with_reducible exact keeps_set _
    | with_reducible exact keeps_READ_UINT8
    | with_reducible exact keeps_READ_UINT16
    | with_reducible exact keeps_READ_UINT32
    | with_reducible exact keeps_READ_UINT64
    | with_reducible exact keeps_READ_BUF _ _
    | with_reducible exact keeps_READ_BUF_local _
    | with_reducible exact keeps_READ_COMMON_HEADER
    | with_reducible exact keeps_fseek_cur _
    | with_reducible exact keeps_ftell
    | with_reducible apply keeps_bind | intro _ | split | dsimp only)

theorem keeps_load_mp4a : (load_mp4a).Keeps := by
  unfold load_mp4a
  repeat (first
    | with_reducible exact keeps_pure _
    | with_reducible exact keeps_pure_inst _
    | with_reducible exact keeps_fail
    | with_reducible exact keeps_set _
    | with_reducible exact keeps_READ_UINT8
    | with_reducible exact keeps_READ_UINT16
    | with_reducible exact keeps_READ_UINT32
    | with_reducible exact keeps_READ_UINT64
    | with_reducible exact keeps_READ_BUF _ _
    | with_reducible exact keeps_READ_BUF_local _
    | with_reducible exact keeps_READ_COMMON_HEADER
    | with_reducible exact keeps_fseek_cur _
    | with_reducible exact keeps_ftell
    | with_reducible apply keeps_bind | intro _ | split | dsimp only)

theorem keeps_read_esds_tag_size_loop {σ : Type} :
    ∀ k num : Nat, (_read_esds_tag_size_loop k num : Rd σ _).Keeps := by
  intro k
  induction k with
  | zero => intro num; exact keeps_pure _
  | succ n ih =>
    intro num
    unfold _read_esds_tag_size_loop
    repeat (first
      | with_reducible exact keeps_pure _
      | with_reducible exact keeps_pure_inst _
      | with_reducible exact keeps_fail
      | with_reducible exact keeps_set _
      | with_reducible exact keeps_READ_UINT8
      | with_reducible exact keeps_READ_UINT16
      | with_reducible exact keeps_READ_UINT32
      | with_reducible exact keeps_READ_UINT64
      | with_reducible exact keeps_READ_BUF _ _
      | with_reducible exact keeps_READ_BUF_local _
      | with_reducible exact keeps_READ_COMMON_HEADER
      | with_reducible exact keeps_fseek_cur _
      | with_reducible exact keeps_ftell
      | with_reducible exact ih _
      | with_reducible apply keeps_bind | intro _ | split | dsimp only)

theorem keeps_read_esds_tag_size {σ : Type} : (_read_esds_tag_size : Rd σ Nat).Keeps :=
  keeps_read_esds_tag_size_loop 4 0

theorem keeps_load_esds_dc : (load_esds_dc).Keeps := by
  unfold load_esds_dc
  repeat (first
    | with_reducible exact keeps_pure _
    | with_reducible exact keeps_pure_inst _
    | with_reducible exact keeps_fail
    | with_reducible exact keeps_set _
    | with_reducible exact keeps_READ_UINT8
    | with_reducible exact keeps_READ_UINT16
    | with_reducible exact keeps_READ_UINT32
    | with_reducible exact keeps_READ_UINT64
    | with_reducible exact keeps_READ_BUF _ _
    | with_reducible exact keeps_READ_BUF_local _
    | with_reducible exact keeps_READ_COMMON_HEADER
    | with_reducible exact keeps_fseek_cur _
    | with_reducible exact keeps_ftell
    | with_reducible exact keeps_read_esds_tag_size
    | with_reducible apply keeps_bind | intro _ | split | dsimp only)

theorem keeps_load_esds : (load_esds).Keeps := by
  unfold load_esds
  repeat (first
    | with_reducible exact keeps_pure _
    | with_reducible exact keeps_pure_inst _
    | with_reducible exact keeps_fail
    | with_reducible exact keeps_set _
    | with_reducible exact keeps_READ_UINT8
    | with_reducible exact keeps_READ_UINT16
    | with_reducible exact keeps_READ_UINT32
    | with_reducible exact keeps_READ_UINT64
    | with_reducible exact keeps_READ_BUF _ _
    | with_reducible exact keeps_READ_BUF_local _
    | with_reducible exact keeps_READ_COMMON_HEADER
    | with_reducible exact keeps_fseek_cur _
    | with_reducible exact keeps_ftell
    | with_reducible exact keeps_read_esds_tag_size
    | with_reducible exact keeps_load_esds_dc
    | with_reducible apply keeps_bind | intro _ | split | dsimp only)

theorem keeps__load_custom_metadata_atom : (_load_custom_metadata_atom).Keeps := by
  unfold _load_custom_metadata_atom
  repeat (first
    | with_reducible exact keeps_pure _
    | with_reducible exact keeps_pure_inst _
    | with_reducible exact keeps_fail
    | with_reducible exact keeps_set _
    | with_reducible exact keeps_READ_UINT8
    | with_reducible exact keeps_READ_UINT16
    | with_reducible exact keeps_READ_UINT32
    | with_reducible exact keeps_READ_UINT64
    | with_reducible exact keeps_READ_BUF _ _
    | with_reducible exact keeps_READ_BUF_local _
    | with_reducible exact keeps_READ_COMMON_HEADER
    | with_reducible exact keeps_fseek_cur _
    | with_reducible exact keeps_ftell
    | with_reducible apply keeps_bind | intro _ | split | dsimp only)

theorem keeps_load_metadata_values :
    ∀ k i : Nat, (load_metadata_values k i : Rd (mp4p_meta_t × Option Writer) _).Keeps := by
  intro k
  induction k with
  | zero => intro i; exact keeps_pure _
  | succ n ih =>
    intro i
    unfold load_metadata_values
    repeat (first
      | with_reducible exact keeps_pure _
      | with_reducible exact keeps_pure_inst _
      | with_reducible exact keeps_fail
      | with_reducible exact keeps_set _
      | with_reducible exact keeps_READ_UINT8
      | with_reducible exact keeps_READ_UINT16
      | with_reducible exact keeps_READ_UINT32
      | with_reducible exact keeps_READ_UINT64
      | with_reducible exact keeps_READ_BUF _ _
      | with_reducible exact keeps_READ_BUF_local _
      | with_reducible exact keeps_READ_COMMON_HEADER
      | with_reducible exact keeps_fseek_cur _
      | with_reducible exact keeps_ftell
      | with_reducible exact ih _
      | with_reducible apply keeps_bind | intro _ | split | dsimp only)

theorem keeps__load_metadata_atom (type : List Nat) : (_load_metadata_atom type).Keeps := by
  unfold _load_metadata_atom
  repeat (first
    | with_reducible exact keeps_pure _
    | with_reducible exact keeps_pure_inst _
    | with_reducible exact keeps_fail
    | with_reducible exact keeps_set _
    | with_reducible exact keeps_READ_UINT8
    | with_reducible exact keeps_READ_UINT16
    | with_reducible exact keeps_READ_UINT32
    | with_reducible exact keeps_READ_UINT64
    | with_reducible exact keeps_READ_BUF _ _
    | with_reducible exact keeps_READ_BUF_local _
    | with_reducible exact keeps_READ_COMMON_HEADER
    | with_reducible exact keeps_fseek_cur _
    | with_reducible exact keeps_ftell
    | with_reducible exact keeps_load_metadata_values _ _
    | with_reducible exact keeps__load_custom_metadata_atom
    | with_reducible apply keeps_bind | intro _ | split | dsimp only)

theorem run_bytes {σ : Type} (m : Rd σ Unit) (hm : m.Keeps) (s : σ) (fp : File) :
    (m.run s fp).2.2.bytes = fp.bytes := by
  have h := hm.bytes_eq s fp
  unfold Rd.run
  split <;> (rename_i heq; rw [heq] at h; exact h)

/-! ## Atom loader: what a returned atom carries -/

@[simp] theorem pos_setData (a : Atom) (d : Payload) : (a.setData d).pos = a.pos := by
  cases a; rfl

@[simp] theorem size_setData (a : Atom) (d : Payload) : (a.setData d).size = a.size := by
  cases a; rfl

@[simp] theorem type_setData (a : Atom) (d : Payload) : (a.setData d).type = a.type := by
  cases a; rfl

@[simp] theorem subatoms_setData (a : Atom) (d : Payload) :
    (a.setData d).subatoms = a.subatoms := by
  cases a; rfl

@[simp] theorem to_buffer_setData (a : Atom) (d : Payload) :
    (a.setData d).to_buffer = a.to_buffer := by
  cases a; rfl

@[simp] theorem pos_setWriter (a : Atom) (w : Option Writer) : (a.setWriter w).pos = a.pos := by
  cases a; rfl

@[simp] theorem size_setWriter (a : Atom) (w : Option Writer) : (a.setWriter w).size = a.size := by
  cases a; rfl

@[simp] theorem type_setWriter (a : Atom) (w : Option Writer) : (a.setWriter w).type = a.type := by
  cases a; rfl

@[simp] theorem pos_setSubatoms (a : Atom) (c : List Atom) : (a.setSubatoms c).pos = a.pos := by
  cases a; rfl

@[simp] theorem size_setSubatoms (a : Atom) (c : List Atom) :
    (a.setSubatoms c).size = a.size := by
  cases a; rfl

@[simp] theorem type_setSubatoms (a : Atom) (c : List Atom) :
    (a.setSubatoms c).type = a.type := by
  cases a; rfl

theorem load_subatoms_loop_bytes (load : File → Option (Option Atom × File)) (limit : Nat)
    (hload : ∀ fp r fp1, load fp = some (r, fp1) → fp1.bytes = fp.bytes) :
    ∀ (k : Nat) (acc : List Atom) (fp : File) (res : List Atom) (fp1 : File),
      _load_subatoms_loop load limit k acc fp = some (res, fp1) → fp1.bytes = fp.bytes := by
  intro k
  induction k with
  | zero =>
    intro acc fp res fp1 h
    unfold _load_subatoms_loop at h
    split at h
    · cases h
    · cases h; rfl
  | succ n ih =>
    intro acc fp res fp1 h
    unfold _load_subatoms_loop at h
    split at h
    · split at h
      · cases h
      · rename_i fp2 heq
        cases h
        exact hload _ _ _ heq
      · rename_i c fp2 heq
        rw [ih _ _ _ _ h]
        exact hload _ _ _ heq
    · cases h; rfl

theorem load_subatoms_ok (load : Option Atom → File → Option (Option Atom × File))
    (hload : ∀ parent fp r fp1, load parent fp = some (r, fp1) → fp1.bytes = fp.bytes)
    (fuel : Nat) (atom : Atom) (fp : File) (r : Int) (a : Atom) (fp1 : File)
    (h : _load_subatoms load fuel atom fp = some (r, a, fp1)) : SameHeader atom fp a fp1 := by
  unfold _load_subatoms at h
  split at h
  · cases h
  · rename_i subs fp2 heq
    cases h
    exact ⟨by simp, by simp, by simp,
      load_subatoms_loop_bytes _ _ (hload (some atom)) _ _ _ _ _ heq⟩

theorem init_leaf_ok {σ : Type} (atom : Atom) (fp : File) (m : Rd σ Unit) (hm : m.Keeps)
    (zero : σ) (wrap : σ → Payload) (r : Int) (a : Atom) (fp1 : File)
    (h : init_leaf atom fp m zero wrap = some (r, a, fp1)) : SameHeader atom fp a fp1 := by
  unfold init_leaf at h
  cases h
  exact ⟨by simp, by simp, by simp, run_bytes m hm zero fp⟩

theorem init_node_ok {σ : Type} (load : Option Atom → File → Option (Option Atom × File))
    (hload : ∀ parent fp r fp1, load parent fp = some (r, fp1) → fp1.bytes = fp.bytes)
    (fuel : Nat) (atom : Atom) (fp : File) (m : Rd σ Unit) (hm : m.Keeps)
    (zero : σ) (wrap : σ → Payload) (r : Int) (a : Atom) (fp1 : File)
    (h : init_node load fuel atom fp m zero wrap = some (r, a, fp1)) :
    SameHeader atom fp a fp1 := by
  unfold init_node at h
  have hb := run_bytes m hm zero fp
  split at h
  · rename_i d fp2 heq
    rw [heq] at hb
    obtain ⟨h1, h2, h3, h4⟩ := load_subatoms_ok load hload fuel _ _ _ _ _ h
    exact ⟨by simpa using h1, by simpa using h2, by simpa using h3, h4.trans hb⟩
  · rename_i r2 d fp2 _ heq
    rw [heq] at hb
    cases h
    exact ⟨by simp, by simp, by simp, hb⟩

theorem atom_init_ok (load : Option Atom → File → Option (Option Atom × File))
    (hload : ∀ parent fp r fp1, load parent fp = some (r, fp1) → fp1.bytes = fp.bytes)
    (fuel : Nat) (parent_atom : Option Atom) (atom : Atom) (fp : File)
    (r : Int) (a : Atom) (fp1 : File)
    (h : mp4p_atom_init load fuel parent_atom atom fp = some (r, a, fp1)) :
    SameHeader atom fp a fp1 := by
  unfold mp4p_atom_init at h
  by_cases hc : container_atoms.any (fun t => !mp4p_atom_type_compare atom t) = true
  · rw [if_pos hc] at h
    exact load_subatoms_ok load hload fuel _ _ _ _ _ h
  rw [if_neg hc] at h
  clear hc
  by_cases hc : (!mp4p_atom_type_compare atom (chars "ftyp")) = true
  · rw [if_pos hc] at h
    exact init_leaf_ok _ _ _ keeps_load_ftyp _ _ _ _ _ h
  rw [if_neg hc] at h
  clear hc
  by_cases hc : (!mp4p_atom_type_compare atom (chars "mvhd")) = true
  · rw [if_pos hc] at h
    exact init_leaf_ok _ _ _ keeps_load_mvhd _ _ _ _ _ h
  rw [if_neg hc] at h
  clear hc
  by_cases hc : (!mp4p_atom_type_compare atom (chars "tkhd")) = true
  · rw [if_pos hc] at h
    exact init_leaf_ok _ _ _ keeps_load_tkhd _ _ _ _ _ h
  rw [if_neg hc] at h
  clear hc
  by_cases hc : (!mp4p_atom_type_compare atom (chars "mdhd")) = true
  · rw [if_pos hc] at h
    exact init_leaf_ok _ _ _ keeps_load_mdhd _ _ _ _ _ h
  rw [if_neg hc] at h
  clear hc
  by_cases hc : (!mp4p_atom_type_compare atom (chars "hdlr")) = true
  · rw [if_pos hc] at h
    exact init_leaf_ok _ _ _ keeps_load_hdlr _ _ _ _ _ h
  rw [if_neg hc] at h
  clear hc
  by_cases hc : (!mp4p_atom_type_compare atom (chars "smhd")) = true
  · rw [if_pos hc] at h
    exact init_leaf_ok _ _ _ keeps_load_smhd _ _ _ _ _ h
  rw [if_neg hc] at h
  clear hc
  by_cases hc : (!mp4p_atom_type_compare atom (chars "stsd")) = true
  · rw [if_pos hc] at h
    exact init_node_ok load hload fuel _ _ _ keeps_load_stsd _ _ _ _ _ h
  rw [if_neg hc] at h
  clear hc
  by_cases hc : (!mp4p_atom_type_compare atom (chars "stts")) = true
  · rw [if_pos hc] at h
    exact init_leaf_ok _ _ _ keeps_load_stts _ _ _ _ _ h
  rw [if_neg hc] at h
  clear hc
  by_cases hc : (!mp4p_atom_type_compare atom (chars "stsc")) = true
  · rw [if_pos hc] at h
    exact init_leaf_ok _ _ _ keeps_load_stsc _ _ _ _ _ h
  rw [if_neg hc] at h
  clear hc
  by_cases hc : (!mp4p_atom_type_compare atom (chars "stsz")) = true
  · rw [if_pos hc] at h
    exact init_leaf_ok _ _ _ keeps_load_stsz _ _ _ _ _ h
  rw [if_neg hc] at h
  clear hc
  by_cases hc : (!mp4p_atom_type_compare atom (chars "stco")) = true
  · rw [if_pos hc] at h
    exact init_leaf_ok _ _ _ (keeps_load_stco false) _ _ _ _ _ h
  rw [if_neg hc] at h
  clear hc
  by_cases hc : (!mp4p_atom_type_compare atom (chars "co64")) = true
  · rw [if_pos hc] at h
    exact init_leaf_ok _ _ _ (keeps_load_stco true) _ _ _ _ _ h
  rw [if_neg hc] at h
  clear hc
  by_cases hc : (!mp4p_atom_type_compare atom (chars "dref")) = true
  · rw [if_pos hc] at h
    exact init_node_ok load hload fuel _ _ _ keeps_load_dref _ _ _ _ _ h
  rw [if_neg hc] at h
  clear hc
  by_cases hc : (!mp4p_atom_type_compare atom (chars "tref")) = true
  · rw [if_pos hc] at h
    exact load_subatoms_ok load hload fuel _ _ _ _ _ h
  rw [if_neg hc] at h
  clear hc
  by_cases hc : (!mp4p_atom_type_compare atom (chars "alac")) = true
  · rw [if_pos hc] at h
    exact init_leaf_ok _ _ _ (keeps_load_alac _) _ _ _ _ _ h
  rw [if_neg hc] at h
  clear hc
  by_cases hc : (!mp4p_atom_type_compare atom (chars "mp4a")) = true
  · rw [if_pos hc] at h
    exact init_node_ok load hload fuel _ _ _ keeps_load_mp4a _ _ _ _ _ h
  rw [if_neg hc] at h
  clear hc
  by_cases hc : (!mp4p_atom_type_compare atom (chars "esds")) = true
  · rw [if_pos hc] at h
    exact init_leaf_ok _ _ _ keeps_load_esds _ _ _ _ _ h
  rw [if_neg hc] at h
  clear hc
  by_cases hc : (!mp4p_atom_type_compare atom (chars "meta")) = true
  · rw [if_pos hc] at h
    have hb := run_bytes (READ_COMMON_HEADER : Rd Unit Unit) keeps_READ_COMMON_HEADER () fp
    split at h
    · rename_i d fp2 heq
      rw [heq] at hb
      obtain ⟨h1, h2, h3, h4⟩ := load_subatoms_ok load hload fuel _ _ _ _ _ h
      exact ⟨h1, h2, h3, h4.trans hb⟩
    · rename_i r2 d fp2 _ heq
      rw [heq] at hb
      cases h
      exact ⟨rfl, rfl, rfl, hb⟩
  rw [if_neg hc] at h
  clear hc
  by_cases hc : (!mp4p_atom_type_compare atom (chars "ilst")) = true
  · rw [if_pos hc] at h
    exact load_subatoms_ok load hload fuel _ _ _ _ _ h
  rw [if_neg hc] at h
  clear hc
  by_cases hc : parent_is_ilst parent_atom = true
  · rw [if_pos hc] at h
    cases h
    exact ⟨by simp, by simp, by simp,
      run_bytes _ (keeps__load_metadata_atom _) _ fp⟩
  rw [if_neg hc] at h
  clear hc
  cases h
  exact ⟨rfl, rfl, rfl, rfl⟩

/-- Loading never changes the bytes of the source. -/
theorem atom_load_bytes :
    ∀ (fuel : Nat) (parent_atom : Option Atom) (fp : File) (r : Option Atom) (fp1 : File),
      _atom_load fuel parent_atom fp = some (r, fp1) → fp1.bytes = fp.bytes := by
  intro fuel
  induction fuel with
  | zero => intro parent_atom fp r fp1 h; cases h
  | succ n ih =>
    intro parent_atom fp r fp1 h
    unfold _atom_load at h
    simp only at h
    have h32 := read_uint32_bytes fp
    split at h
    · rename_i fp2 heq
      rw [heq] at h32
      cases h
      exact h32
    · rename_i size fp2 heq
      rw [heq] at h32
      split_ifs at h
      · cases h
        exact h32
      · split at h
        · cases h
        · rename_i r2 atom fp3 heq2
          cases h
          have := atom_init_ok _ ih _ _ _ _ _ _ _ heq2
          exact this.2.2.2.trans h32

/-! ## Reading the box header -/

theorem fread_eq (fp : File) (pre rest : List Nat) (h : fp.bytes.drop fp.pos = pre ++ rest) :
    fp.fread pre.length = (pre, ⟨fp.bytes, fp.pos + pre.length⟩) := by
  unfold File.fread
  simp only [h, List.take_left]

theorem drop_after (fp : File) (pre rest : List Nat) (h : fp.bytes.drop fp.pos = pre ++ rest) :
    fp.bytes.drop (fp.pos + pre.length) = rest := by
  rw [← List.drop_drop, h, List.drop_left]

/-- Four bytes below 256 combined as in `_read_uint32` give their big-endian
value. -/
theorem be32_eq (c0 c1 c2 c3 : Nat) (h0 : c0 < 256) (h1 : c1 < 256) (h2 : c2 < 256)
    (h3 : c3 < 256) :
    (c3 ||| (c2 <<< 8) ||| (c1 <<< 16) ||| (c0 <<< 24)) % 2 ^ 32
      = c0 * 2 ^ 24 + c1 * 2 ^ 16 + c2 * 2 ^ 8 + c3 := by
  have e1 : c3 ||| (c2 <<< 8) = 2 ^ 8 * c2 + c3 := by
    rw [Nat.or_comm, Nat.shiftLeft_eq, Nat.mul_comm c2]
    exact (Nat.mul_add_lt_is_or (by omega) c2).symm
  have e2 : (2 ^ 8 * c2 + c3) ||| (c1 <<< 16) = 2 ^ 16 * c1 + (2 ^ 8 * c2 + c3) := by
    rw [Nat.or_comm, Nat.shiftLeft_eq, Nat.mul_comm c1]
    exact (Nat.mul_add_lt_is_or (by omega) c1).symm
  have e3 : (2 ^ 16 * c1 + (2 ^ 8 * c2 + c3)) ||| (c0 <<< 24)
      = 2 ^ 24 * c0 + (2 ^ 16 * c1 + (2 ^ 8 * c2 + c3)) := by
    rw [Nat.or_comm, Nat.shiftLeft_eq, Nat.mul_comm c0]
    exact (Nat.mul_add_lt_is_or (by omega) c0).symm
  rw [e1, e2, e3]
  omega

theorem read_uint32_eq (fp : File) (c0 c1 c2 c3 : Nat) (rest : List Nat)
    (h : fp.bytes.drop fp.pos = [c0, c1, c2, c3] ++ rest) :
    _read_uint32 fp
      = (some ((c3 ||| (c2 <<< 8) ||| (c1 <<< 16) ||| (c0 <<< 24)) % 2 ^ 32),
          ⟨fp.bytes, fp.pos + 4⟩) := by
  unfold _read_uint32
  rw [show (4 : Nat) = [c0, c1, c2, c3].length from rfl, fread_eq fp _ rest h]

/-- What `_atom_load` hands back once the eight header bytes `c0 c1 c2 c3
t0 t1 t2 t3` are readable at the cursor: if the call returns at all, it
returns an atom at the cursor position whose size is the big-endian value of
`c0..c3` and whose type is `t0..t3`, and the cursor stands at position plus
size. -/
theorem atom_load_header (fuel : Nat) (parent_atom : Option Atom) (fp : File)
    (c0 c1 c2 c3 t0 t1 t2 t3 : Nat) (rest : List Nat)
    (hhdr : fp.bytes.drop fp.pos = [c0, c1, c2, c3, t0, t1, t2, t3] ++ rest)
    (h0 : c0 < 256) (h1 : c1 < 256) (h2 : c2 < 256) (h3 : c3 < 256)
    (r : Option Atom) (fp1 : File) (h : _atom_load fuel parent_atom fp = some (r, fp1)) :
    ∃ a, r = some a ∧ a.pos = fp.pos
      ∧ a.size = c0 * 2 ^ 24 + c1 * 2 ^ 16 + c2 * 2 ^ 8 + c3
      ∧ a.type = [t0, t1, t2, t3]
      ∧ fp1 = ⟨fp.bytes, fp.pos + a.size⟩ := by
  cases fuel with
  | zero => cases h
  | succ n =>
    unfold _atom_load at h
    have hr := read_uint32_eq fp c0 c1 c2 c3 ([t0, t1, t2, t3] ++ rest) hhdr
    have hd2 : (⟨fp.bytes, fp.pos + 4⟩ : File).bytes.drop (⟨fp.bytes, fp.pos + 4⟩ : File).pos
        = [t0, t1, t2, t3] ++ rest :=
      drop_after fp [c0, c1, c2, c3] ([t0, t1, t2, t3] ++ rest) hhdr
    have hf := fread_eq ⟨fp.bytes, fp.pos + 4⟩ [t0, t1, t2, t3] rest hd2
    simp only [List.length_cons, List.length_nil] at hf
    simp only [hr, be32_eq c0 c1 c2 c3 h0 h1 h2 h3] at h
    rw [show (0 + 1 + 1 + 1 + 1 : Nat) = 4 from rfl] at hf
    rw [hf] at h
    simp only [List.length_cons, List.length_nil] at h
    rw [if_neg (by decide)] at h
    split at h
    · cases h
    · rename_i r2 atom fp3 heq
      have hok := atom_init_ok _ (atom_load_bytes n) _ _ _ _ _ _ _ heq
      cases h
      refine ⟨atom, rfl, hok.1, hok.2.1, hok.2.2.1, ?_⟩
      simp only [File.fseek_set, File.ftell]
      rw [hok.2.1, hok.2.2.2]
      rfl

/-! ## Boxes that are loaded without children -/

theorem setData_data (atom : Atom) : atom.setData atom.data = atom := by
  cases atom; rfl

/-- At top level, a box whose type is none of `subatom_types` is loaded by
`mp4p_atom_init` as the same atom with at most its payload set: no children,
no writer. -/
theorem atom_init_leaf_type (load : Option Atom → File → Option (Option Atom × File))
    (fuel : Nat) (atom : Atom) (fp : File)
    (hleaf : ∀ t ∈ subatom_types, mp4p_atom_type_compare atom t = true) :
    ∃ r d fp1, mp4p_atom_init load fuel none atom fp = some (r, atom.setData d, fp1) := by
  have hcont : ¬ (container_atoms.any (fun t => !mp4p_atom_type_compare atom t) = true) := by
    rw [List.any_eq_true]
    rintro ⟨t, ht, hx⟩
    rw [hleaf t (List.mem_append_left _ ht)] at hx
    exact absurd hx (by decide)
  unfold mp4p_atom_init
  rw [if_neg hcont]
  by_cases hc : (!mp4p_atom_type_compare atom (chars "ftyp")) = true
  · rw [if_pos hc]
    exact ⟨_, _, _, rfl⟩
  rw [if_neg hc]
  clear hc
  by_cases hc : (!mp4p_atom_type_compare atom (chars "mvhd")) = true
  · rw [if_pos hc]
    exact ⟨_, _, _, rfl⟩
  rw [if_neg hc]
  clear hc
  by_cases hc : (!mp4p_atom_type_compare atom (chars "tkhd")) = true
  · rw [if_pos hc]
    exact ⟨_, _, _, rfl⟩
  rw [if_neg hc]
  clear hc
  by_cases hc : (!mp4p_atom_type_compare atom (chars "mdhd")) = true
  · rw [if_pos hc]
    exact ⟨_, _, _, rfl⟩
  rw [if_neg hc]
  clear hc
  by_cases hc : (!mp4p_atom_type_compare atom (chars "hdlr")) = true
  · rw [if_pos hc]
    exact ⟨_, _, _, rfl⟩
  rw [if_neg hc]
  clear hc
  by_cases hc : (!mp4p_atom_type_compare atom (chars "smhd")) = true
  · rw [if_pos hc]
    exact ⟨_, _, _, rfl⟩
  rw [if_neg hc]
  clear hc
  rw [if_neg (by rw [hleaf (chars "stsd") (by decide)]; decide)]
  by_cases hc : (!mp4p_atom_type_compare atom (chars "stts")) = true
  · rw [if_pos hc]
    exact ⟨_, _, _, rfl⟩
  rw [if_neg hc]
  clear hc
  by_cases hc : (!mp4p_atom_type_compare atom (chars "stsc")) = true
  · rw [if_pos hc]
    exact ⟨_, _, _, rfl⟩
  rw [if_neg hc]
  clear hc
  by_cases hc : (!mp4p_atom_type_compare atom (chars "stsz")) = true
  · rw [if_pos hc]
    exact ⟨_, _, _, rfl⟩
  rw [if_neg hc]
  clear hc
  by_cases hc : (!mp4p_atom_type_compare atom (chars "stco")) = true
  · rw [if_pos hc]
    exact ⟨_, _, _, rfl⟩
  rw [if_neg hc]
  clear hc
  by_cases hc : (!mp4p_atom_type_compare atom (chars "co64")) = true
  · rw [if_pos hc]
    exact ⟨_, _, _, rfl⟩
  rw [if_neg hc]
  clear hc
  rw [if_neg (by rw [hleaf (chars "dref") (by decide)]; decide)]
  rw [if_neg (by rw [hleaf (chars "tref") (by decide)]; decide)]
  by_cases hc : (!mp4p_atom_type_compare atom (chars "alac")) = true
  · rw [if_pos hc]
    exact ⟨_, _, _, rfl⟩
  rw [if_neg hc]
  clear hc
  rw [if_neg (by rw [hleaf (chars "mp4a") (by decide)]; decide)]
  by_cases hc : (!mp4p_atom_type_compare atom (chars "esds")) = true
  · rw [if_pos hc]
    exact ⟨_, _, _, rfl⟩
  rw [if_neg hc]
  clear hc
  rw [if_neg (by rw [hleaf (chars "meta") (by decide)]; decide)]
  rw [if_neg (by rw [hleaf (chars "ilst") (by decide)]; decide)]
  rw [if_neg (by decide)]
  exact ⟨0, atom.data, fp, by rw [setData_data]⟩

theorem atom_load_eof (fuel : Nat) (parent_atom : Option Atom) (fp : File)
    (h : fp.bytes.length ≤ fp.pos) :
    _atom_load (fuel + 1) parent_atom fp = some (none, fp) := by
  have hd : fp.bytes.drop fp.pos = [] := List.drop_eq_nil_of_le h
  have hr : _read_uint32 fp = (none, fp) := by
    unfold _read_uint32 File.fread
    simp only [hd, List.take_nil, List.length_nil, Nat.add_zero]
  unfold _atom_load
  simp only [hr]

/-- A top-level box whose type is none of `subatom_types`: `_atom_load`
returns, with any fuel, the atom of that position, size and type, without
children and without writer, and moves the cursor to position plus size. -/
theorem atom_load_leaf (fuel : Nat) (fp : File) (c0 c1 c2 c3 t0 t1 t2 t3 : Nat)
    (rest : List Nat)
    (hhdr : fp.bytes.drop fp.pos = [c0, c1, c2, c3, t0, t1, t2, t3] ++ rest)
    (h0 : c0 < 256) (h1 : c1 < 256) (h2 : c2 < 256) (h3 : c3 < 256)
    (hleaf : ∀ t ∈ subatom_types, mp4p_fourcc_compare [t0, t1, t2, t3] t = true) :
    ∃ d, _atom_load (fuel + 1) none fp
      = some (some (Atom.mk fp.pos (c0 * 2 ^ 24 + c1 * 2 ^ 16 + c2 * 2 ^ 8 + c3)
            [t0, t1, t2, t3] d none []),
          ⟨fp.bytes, fp.pos + (c0 * 2 ^ 24 + c1 * 2 ^ 16 + c2 * 2 ^ 8 + c3)⟩) := by
  have hr := read_uint32_eq fp c0 c1 c2 c3 ([t0, t1, t2, t3] ++ rest) hhdr
  have hd2 : (⟨fp.bytes, fp.pos + 4⟩ : File).bytes.drop (⟨fp.bytes, fp.pos + 4⟩ : File).pos
      = [t0, t1, t2, t3] ++ rest :=
    drop_after fp [c0, c1, c2, c3] ([t0, t1, t2, t3] ++ rest) hhdr
  have hf := fread_eq ⟨fp.bytes, fp.pos + 4⟩ [t0, t1, t2, t3] rest hd2
  simp only [List.length_cons, List.length_nil] at hf
  rw [show (0 + 1 + 1 + 1 + 1 : Nat) = 4 from rfl] at hf
  obtain ⟨r, d, fp1, hinit⟩ := atom_init_leaf_type (_atom_load fuel) fuel
    (Atom.mk fp.pos (c0 * 2 ^ 24 + c1 * 2 ^ 16 + c2 * 2 ^ 8 + c3) [t0, t1, t2, t3] .none none [])
    ⟨fp.bytes, fp.pos + 4 + 4⟩ hleaf
  have hok := atom_init_ok _ (atom_load_bytes fuel) _ _ _ _ _ _ _ hinit
  refine ⟨d, ?_⟩
  unfold _atom_load
  simp only [hr, be32_eq c0 c1 c2 c3 h0 h1 h2 h3]
  rw [hf]
  simp only [List.length_cons, List.length_nil]
  rw [if_neg (by decide)]
  simp only [File.ftell, hinit, File.fseek_set]
  rw [hok.2.2.2]
  rfl

/-! ## Parse, then serialize -/

theorem and_255 (x : Nat) : x &&& 255 = x % 256 :=
  Nat.and_pow_two_sub_one_eq_mod x 8

/-- The bytes `WRITE_UINT32` stores for a big-endian value are the four bytes
it was read from. -/
theorem uint32_bytes_be32 (c0 c1 c2 c3 : Nat) (h0 : c0 < 256) (h1 : c1 < 256) (h2 : c2 < 256)
    (h3 : c3 < 256) :
    uint32_bytes (c0 * 2 ^ 24 + c1 * 2 ^ 16 + c2 * 2 ^ 8 + c3) = [c0, c1, c2, c3] := by
  unfold uint32_bytes
  simp only [Nat.shiftRight_eq_div_pow, and_255]
  have e0 : (c0 * 2 ^ 24 + c1 * 2 ^ 16 + c2 * 2 ^ 8 + c3) / 2 ^ 24 % 256 = c0 := by omega
  have e1 : (c0 * 2 ^ 24 + c1 * 2 ^ 16 + c2 * 2 ^ 8 + c3) / 2 ^ 16 % 256 % 256 = c1 := by omega
  have e2 : (c0 * 2 ^ 24 + c1 * 2 ^ 16 + c2 * 2 ^ 8 + c3) / 2 ^ 8 % 256 % 256 = c2 := by omega
  have e3 : (c0 * 2 ^ 24 + c1 * 2 ^ 16 + c2 * 2 ^ 8 + c3) % 256 % 256 = c3 := by omega
  rw [e0, e1, e2, e3]

/-- A childless atom without writer is serialized as its eight header bytes;
the rest of the buffer keeps its content and the declared size is
returned. -/
theorem atom_to_buffer_no_writer (pos size : Nat) (t0 t1 t2 t3 : Nat) (d : Payload)
    (mem : List Nat) (buffer_size : Nat) (hsize : size ≠ 0) (hbs : 8 ≤ buffer_size) :
    mp4p_atom_to_buffer (Atom.mk pos size [t0, t1, t2, t3] d none []) mem (some 0) buffer_size
      = some (size, uint32_bytes size ++ [t0, t1, t2, t3] ++ mem.drop 8) := by
  have hlen : (uint32_bytes size).length = 4 := rfl
  unfold mp4p_atom_to_buffer
  simp only
  unfold atom_to_buffer_write
  rw [if_neg hsize]
  simp only [write_chunks, hlen, List.take, List.length_cons, List.length_nil]
  rw [if_neg (by omega), if_neg (by omega)]
  simp only [poke, List.take_zero, List.nil_append, Nat.zero_add, hlen]
  congr 2
  rw [List.take_left' hlen, List.drop_append_eq_append_drop, hlen]
  simp [List.drop_drop, List.drop_eq_nil_of_le, hlen]

/-- C5 (evaluation at the failing input): the 24-byte `ftyp` box
`00 00 00 18 'ftyp' 'M4A ' 00 00 00 00 'isom' 'iso2'` is parsed by `mp4p_open`
into one atom, with its four fields decoded, that has no writer; serializing
that atom into a zeroed buffer of 24 bytes returns 24 and writes the eight
header bytes only (the branch for an atom without writer prints a message and
writes nothing), so the output differs from the source. -/
theorem C5_payload_not_written :
    mp4p_open 2 ⟨[0, 0, 0, 24, 102, 116, 121, 112, 77, 52, 65, 32, 0, 0, 0, 0,
        105, 115, 111, 109, 105, 115, 111, 50], 0⟩
      = some ([Atom.mk 0 24 [102, 116, 121, 112]
            (.mtyp ⟨[77, 52, 65, 32], [0, 0, 0, 0], [105, 115, 111, 109], [105, 115, 111, 50]⟩)
            none []],
          ⟨[0, 0, 0, 24, 102, 116, 121, 112, 77, 52, 65, 32, 0, 0, 0, 0,
            105, 115, 111, 109, 105, 115, 111, 50], 24⟩)
    ∧ mp4p_atom_to_buffer
        (Atom.mk 0 24 [102, 116, 121, 112]
          (.mtyp ⟨[77, 52, 65, 32], [0, 0, 0, 0], [105, 115, 111, 109], [105, 115, 111, 50]⟩)
          none [])
        (List.replicate 24 0) (some 0) 24
      = some (24, [0, 0, 0, 24, 102, 116, 121, 112, 0, 0, 0, 0, 0, 0, 0, 0,
          0, 0, 0, 0, 0, 0, 0, 0])
    ∧ ([0, 0, 0, 24, 102, 116, 121, 112, 0, 0, 0, 0, 0, 0, 0, 0, 0, 0, 0, 0, 0, 0, 0, 0] : List Nat)
      ≠ [0, 0, 0, 24, 102, 116, 121, 112, 77, 52, 65, 32, 0, 0, 0, 0,
          105, 115, 111, 109, 105, 115, 111, 50] :=
  ⟨rfl, rfl, by decide⟩

/-- The same for every childless box: for a source that is one box
`c0 c1 c2 c3 t0 t1 t2 t3 payload` whose declared size is its length and whose
type is none of those loaded with children, `mp4p_open` returns one atom, and
serializing it into a buffer of at least 8 bytes returns the declared size
but writes the eight header bytes only; the bytes of the buffer after them
are left as they were, so the payload of the source is not reproduced. -/
theorem parsed_leaf_header_only (c0 c1 c2 c3 t0 t1 t2 t3 : Nat) (payload mem : List Nat)
    (fuel buffer_size : Nat)
    (h0 : c0 < 256) (h1 : c1 < 256) (h2 : c2 < 256) (h3 : c3 < 256)
    (hsize : c0 * 2 ^ 24 + c1 * 2 ^ 16 + c2 * 2 ^ 8 + c3 = 8 + payload.length)
    (hleaf : ∀ t ∈ subatom_types, mp4p_fourcc_compare [t0, t1, t2, t3] t = true)
    (hbs : 8 ≤ buffer_size) (_hmem : buffer_size ≤ mem.length) :
    ∃ a fp,
      mp4p_open (fuel + 2) ⟨[c0, c1, c2, c3, t0, t1, t2, t3] ++ payload, 0⟩ = some ([a], fp)
      ∧ mp4p_atom_to_buffer a mem (some 0) buffer_size
          = some (8 + payload.length, [c0, c1, c2, c3, t0, t1, t2, t3] ++ mem.drop 8) := by
  obtain ⟨d, hload⟩ := atom_load_leaf (fuel + 1)
    ⟨[c0, c1, c2, c3, t0, t1, t2, t3] ++ payload, 0⟩ c0 c1 c2 c3 t0 t1 t2 t3 payload rfl
    h0 h1 h2 h3 hleaf
  rw [hsize] at hload
  have heof := atom_load_eof (fuel + 1) none
    ⟨[c0, c1, c2, c3, t0, t1, t2, t3] ++ payload, 0 + (8 + payload.length)⟩
    (by simp; omega)
  refine ⟨Atom.mk 0 (8 + payload.length) [t0, t1, t2, t3] d none [],
    ⟨[c0, c1, c2, c3, t0, t1, t2, t3] ++ payload, 0 + (8 + payload.length)⟩, ?_, ?_⟩
  · unfold mp4p_open
    rw [mp4p_open_loop, hload]
    simp only
    rw [mp4p_open_loop, heof]
    rfl
  · rw [atom_to_buffer_no_writer 0 (8 + payload.length) t0 t1 t2 t3 d mem buffer_size
      (by omega) hbs, ← hsize, uint32_bytes_be32 c0 c1 c2 c3 h0 h1 h2 h3]
    rfl

/-- The same on the serializer's own output: the `hdlr` atom set up by
`mp4p_hdlr_init` serializes to 33 bytes; parsing these bytes gives an atom
without writer, whose serialization into a zeroed buffer holds the header
only. -/
theorem roundtrip_of_serialized_hdlr :
    mp4p_atom_to_buffer
        (mp4p_hdlr_init (mp4p_atom_new (chars "hdlr")) [0, 0, 0, 0] (chars "mdir") (chars "appl"))
        (List.replicate 33 0) (some 0) 33
      = some (33, [0, 0, 0, 33, 104, 100, 108, 114, 0, 0, 0, 0, 0, 0, 0, 0, 109, 100, 105, 114,
          97, 112, 112, 108, 0, 0, 0, 0, 0, 0, 0, 0, 0])
    ∧ (∃ d fp, mp4p_open 2 ⟨[0, 0, 0, 33, 104, 100, 108, 114, 0, 0, 0, 0, 0, 0, 0, 0,
          109, 100, 105, 114, 97, 112, 112, 108, 0, 0, 0, 0, 0, 0, 0, 0, 0], 0⟩
        = some ([Atom.mk 0 33 (chars "hdlr") d none []], fp)
      ∧ mp4p_atom_to_buffer (Atom.mk 0 33 (chars "hdlr") d none []) (List.replicate 33 0)
          (some 0) 33
        = some (33, [0, 0, 0, 33, 104, 100, 108, 114] ++ List.replicate 25 0)) :=
  ⟨rfl, _, _, rfl, rfl⟩

/-- C11 (evaluation at the failing input): two chunks of two samples each at
offsets 100 and 200, uniform sample size 10. Samples 2 and 3 are the two
samples of the second chunk, at 200 and 210; `mp4p_sample_offset` gives 120
for sample 2 (the test `>=` of the chunk walk leaves the first sample of a
run in the run before) and 210 for sample 3: the difference is 90, not 10.
The last two equations are a second input, one chunk of three samples at
offset 0 with uniform sample size 2^31: the product
`sample_size * (sample - nsample)` is a 32-bit one, so sample 1 is put at
2^31 and sample 2 at 0. -/
theorem C11_uniform_step_at_run_start :
    mp4p_sample_offset
        [Atom.mk 0 0 (chars "stbl") .none none
          [Atom.mk 0 0 (chars "stsc") (.stsc ⟨[⟨1, 2, 1⟩, ⟨2, 2, 1⟩]⟩) none [],
           Atom.mk 0 0 (chars "stco") (.stco ⟨[⟨100⟩, ⟨200⟩]⟩) none [],
           Atom.mk 0 0 (chars "stsz") (.stsz ⟨10, []⟩) none []]] 2 = some 120
      ∧ mp4p_sample_offset
        [Atom.mk 0 0 (chars "stbl") .none none
          [Atom.mk 0 0 (chars "stsc") (.stsc ⟨[⟨1, 2, 1⟩, ⟨2, 2, 1⟩]⟩) none [],
           Atom.mk 0 0 (chars "stco") (.stco ⟨[⟨100⟩, ⟨200⟩]⟩) none [],
           Atom.mk 0 0 (chars "stsz") (.stsz ⟨10, []⟩) none []]] 3 = some 210
      ∧ (List.range 4).map (spec_sample_offset ⟨[⟨1, 2, 1⟩, ⟨2, 2, 1⟩]⟩ ⟨[⟨100⟩, ⟨200⟩]⟩ ⟨10, []⟩)
        = [some 100, some 110, some 200, some 210]
      ∧ mp4p_sample_offset
        [Atom.mk 0 0 (chars "stbl") .none none
          [Atom.mk 0 0 (chars "stsc") (.stsc ⟨[⟨1, 3, 1⟩]⟩) none [],
           Atom.mk 0 0 (chars "stco") (.stco ⟨[⟨0⟩]⟩) none [],
           Atom.mk 0 0 (chars "stsz") (.stsz ⟨2147483648, []⟩) none []]] 1 = some 2147483648
      ∧ mp4p_sample_offset
        [Atom.mk 0 0 (chars "stbl") .none none
          [Atom.mk 0 0 (chars "stsc") (.stsc ⟨[⟨1, 3, 1⟩]⟩) none [],
           Atom.mk 0 0 (chars "stco") (.stco ⟨[⟨0⟩]⟩) none [],
           Atom.mk 0 0 (chars "stsz") (.stsz ⟨2147483648, []⟩) none []]] 2 = some 0 := by
  decide

/-- C13 (evaluation at the failing input): for an stbl atom without children
`mp4p_atom_find` returns `NULL`, which `mp4p_sample_size` and
`mp4p_sample_offset` dereference; and with all three tables present but only
two sample sizes, `mp4p_sample_offset` for sample 7 reads `stsz->entries`
outside the array. -/
theorem C13_queries_invalid_access :
    mp4p_sample_size [Atom.mk 0 8 (chars "stbl") .none none []] 0 = none
      ∧ mp4p_sample_offset [Atom.mk 0 8 (chars "stbl") .none none []] 0 = none
      ∧ mp4p_sample_offset
        [Atom.mk 0 0 (chars "stbl") .none none
          [Atom.mk 0 0 (chars "stsc") (.stsc ⟨[⟨1, 2, 1⟩]⟩) none [],
           Atom.mk 0 0 (chars "stco") (.stco ⟨[⟨100⟩]⟩) none [],
           Atom.mk 0 0 (chars "stsz") (.stsz ⟨0, [⟨10⟩, ⟨20⟩]⟩) none []]] 7 = none := by
  decide

theorem find_stbl_child (stbl : Atom) (sibs : List Atom) (path c4 : List Nat)
    (hpath : path = chars "stbl" ++ 47 :: c4) (hc : c4.length = 4)
    (hty : mp4p_atom_type_compare stbl (chars "stbl") = false) :
    mp4p_atom_find (stbl :: sibs) path = first_child stbl c4 := by
  rw [hpath]
  exact atom_find_two stbl sibs _ _ (by decide) hc hty

theorem sample_offset_of_tables (stbl : Atom) (sibs : List Atom)
    (stsc_atom stsz_atom stco_atom : Atom) (r1 r2 r3 : List Atom)
    (stsc : mp4p_stsc_t) (stsz : mp4p_stsz_t) (stco : mp4p_stco_t) (sample : Nat)
    (hty : mp4p_atom_type_compare stbl (chars "stbl") = false)
    (h1 : first_child stbl (chars "stsc") = stsc_atom :: r1) (hd1 : stsc_atom.data = .stsc stsc)
    (hne : stsc.entries ≠ [])
    (h2 : first_child stbl (chars "stsz") = stsz_atom :: r2) (hd2 : stsz_atom.data = .stsz stsz)
    (h3 : (match mp4p_atom_find (stbl :: sibs) (chars "stbl/co64") with
          | [] => mp4p_atom_find (stbl :: sibs) (chars "stbl/stco")
          | l => l) = stco_atom :: r3)
    (hd3 : stco_atom.data = .stco stco) :
    mp4p_sample_offset (stbl :: sibs) sample
      = sample_offset_from_tables stsc stco stsz sample := by
  have e1 := find_stbl_child stbl sibs (chars "stbl/stsc") (chars "stsc") (by decide)
    (by decide) hty
  have e2 := find_stbl_child stbl sibs (chars "stbl/stsz") (chars "stsz") (by decide)
    (by decide) hty
  have hlen : ¬ stsc.entries.length = 0 := by
    intro h
    exact hne (List.length_eq_zero.mp h)
  unfold mp4p_sample_offset sample_offset_from_tables
  rw [e1, h1]
  simp only [hd1]
  rw [if_neg hlen]
  simp only [h3, e2, h2, hd2, hd3]

/-! ## Atom lookup: paths -/

theorem dropWhile_head {α : Type} (p : α → Bool) :
    ∀ (l : List α) (x : α) (xs : List α), l.dropWhile p = x :: xs → p x = false ∧ x ∈ l := by
  intro l
  induction l with
  | nil => intro x xs h; cases h
  | cons y ys ih =>
    intro x xs h
    cases hp : p y with
    | true =>
      simp only [List.dropWhile, hp] at h
      obtain ⟨h1, h2⟩ := ih x xs h
      exact ⟨h1, List.mem_cons_of_mem _ h2⟩
    | false =>
      simp only [List.dropWhile, hp] at h
      cases h
      exact ⟨hp, List.mem_cons_self _ _⟩

theorem fourcc_compare_false (t c : List Nat) (hc : c.length = 4)
    (h : mp4p_fourcc_compare t c = false) : t.take 4 = c := by
  unfold mp4p_fourcc_compare at h
  have h1 : t.take 4 = c.take 4 := by simpa using h
  rw [h1, ← hc, List.take_length]

theorem path_of_cons2 (c c1 : List Nat) (cs : List (List Nat)) :
    path_of (c :: c1 :: cs) = c ++ 47 :: path_of (c1 :: cs) := rfl

theorem atom_find_aux_chain :
    ∀ (fuel : Nat) (root : List Atom) (comps : List (List Nat)) (a : Atom) (next : List Atom),
      (∀ c ∈ comps, c.length = 4) →
      mp4p_atom_find_aux fuel root (path_of comps) = a :: next → Chain root comps a := by
  intro fuel
  induction fuel with
  | zero => intro root comps a next _ h; cases h
  | succ n ih =>
    intro root comps a next hc h
    match comps, hc, h with
    | [], _, h =>
      simp [path_of, mp4p_atom_find_aux] at h
    | [c], hc, h =>
      have hc4 : c.length = 4 := hc c (List.mem_cons_self _ _)
      have hd4 : c.drop 4 = [] := by rw [← hc4]; exact List.drop_length _
      simp only [path_of] at h
      rw [mp4p_atom_find_aux, if_neg (by omega)] at h
      cases hdw : root.dropWhile (fun a => mp4p_fourcc_compare a.type c) with
      | nil => rw [hdw] at h; cases h
      | cons p ps =>
        rw [hdw] at h
        simp only [hd4] at h
        cases h
        obtain ⟨h1, h2⟩ := dropWhile_head _ _ _ _ hdw
        exact ⟨h2, fourcc_compare_false _ _ hc4 h1⟩
    | c :: c1 :: cs, hc, h =>
      have hc4 : c.length = 4 := hc c (List.mem_cons_self _ _)
      have hdrop : (c ++ 47 :: path_of (c1 :: cs)).drop 4 = 47 :: path_of (c1 :: cs) := by
        rw [← hc4]; exact List.drop_left _ _
      rw [path_of_cons2, mp4p_atom_find_aux, if_neg (by simp [hc4])] at h
      simp only [ fourcc_compare_prefix _ _ _ hc4] at h
      cases hdw : root.dropWhile (fun a => mp4p_fourcc_compare a.type c) with
      | nil => rw [hdw] at h; cases h
      | cons p ps =>
        rw [hdw] at h
        simp only [hdrop] at h
        rw [if_pos trivial] at h
        obtain ⟨h1, h2⟩ := dropWhile_head _ _ _ _ hdw
        exact ⟨p, h2, fourcc_compare_false _ _ hc4 h1,
          ih p.subatoms (c1 :: cs) a next
            (fun x hx => hc x (List.mem_cons_of_mem _ hx)) h⟩

theorem chain_last_type :
    ∀ (comps : List (List Nat)) (root : List Atom) (a : Atom),
      Chain root comps a → comps.getLast? = some (a.type.take 4) := by
  intro comps
  induction comps with
  | nil => intro root a h; cases h
  | cons c cs ih =>
    intro root a h
    cases cs with
    | nil =>
      obtain ⟨_, h2⟩ := h
      simp [h2]
    | cons c1 cs1 =>
      obtain ⟨p, _, _, h3⟩ := h
      have := ih p.subatoms a h3
      simpa using this

/-- C14: for every sibling list and every path made of four-character codes
separated by `/`, an atom returned by `mp4p_atom_find` is reached from the
list by a chain of immediate children whose types are, byte for byte, the
codes of the path in order, and its type is the last code; a path shorter
than four characters gives no match. -/
theorem C14_atom_find_sound (root : List Atom) (comps : List (List Nat)) (a : Atom)
    (next : List Atom) (hc : ∀ c ∈ comps, c.length = 4)
    (h : mp4p_atom_find root (path_of comps) = a :: next) :
    Chain root comps a ∧ comps.getLast? = some (a.type.take 4)
      ∧ ∀ (l : List Atom) (p : List Nat), p.length < 4 → mp4p_atom_find l p = [] := by
  have hch := atom_find_aux_chain _ root comps a next hc h
  refine ⟨hch, chain_last_type comps root a hch, ?_⟩
  intro l p hp
  unfold mp4p_atom_find
  rw [mp4p_atom_find_aux, if_pos hp]

theorem C14_atom_find_sound_witness :
    Chain [Atom.mk 0 24 (chars "moov") .none none
            [Atom.mk 8 8 (chars "free") .none none [], Atom.mk 16 8 (chars "udta") .none none []]]
        [chars "moov", chars "udta"] (Atom.mk 16 8 (chars "udta") .none none [])
      ∧ [chars "moov", chars "udta"].getLast?
          = some ((Atom.mk 16 8 (chars "udta") .none none []).type.take 4)
      ∧ ∀ (l : List Atom) (p : List Nat), p.length < 4 → mp4p_atom_find l p = [] :=
  C14_atom_find_sound
    [Atom.mk 0 24 (chars "moov") .none none
      [Atom.mk 8 8 (chars "free") .none none [], Atom.mk 16 8 (chars "udta") .none none []]]
    [chars "moov", chars "udta"] (Atom.mk 16 8 (chars "udta") .none none []) []
    (by decide) rfl

theorem path_of_length_ge :
    ∀ comps : List (List Nat), (∀ c ∈ comps, c.length = 4) →
      comps.length ≤ (path_of comps).length + 1 := by
  intro comps
  induction comps with
  | nil => intro _; simp
  | cons c cs ih =>
    intro hc
    cases cs with
    | nil => simp
    | cons c1 cs1 =>
      have := ih (fun x hx => hc x (List.mem_cons_of_mem _ hx))
      rw [path_of_cons2]
      simp only [List.length_cons, List.length_append] at this ⊢
      omega

theorem atom_find_aux_first_match :
    ∀ (comps : List (List Nat)) (fuel : Nat) (root : List Atom),
      (∀ c ∈ comps, c.length = 4) → comps.length ≤ fuel →
      mp4p_atom_find_aux fuel root (path_of comps) = first_match_find root comps := by
  intro comps
  induction comps with
  | nil =>
    intro fuel root _ _
    cases fuel with
    | zero => rfl
    | succ n => simp [path_of, mp4p_atom_find_aux, first_match_find]
  | cons c cs ih =>
    intro fuel root hc hf
    have hc4 : c.length = 4 := hc c (List.mem_cons_self _ _)
    cases fuel with
    | zero => simp at hf
    | succ n =>
      cases cs with
      | nil =>
        have hd4 : c.drop 4 = [] := by rw [← hc4]; exact List.drop_length _
        simp only [path_of, first_match_find]
        rw [mp4p_atom_find_aux, if_neg (by omega)]
        cases hdw : root.dropWhile (fun a => mp4p_fourcc_compare a.type c) with
        | nil => rfl
        | cons p ps => simp only [hd4]
      | cons c1 cs1 =>
        have hdrop : (c ++ 47 :: path_of (c1 :: cs1)).drop 4 = 47 :: path_of (c1 :: cs1) := by
          rw [← hc4]; exact List.drop_left _ _
        rw [path_of_cons2, mp4p_atom_find_aux, if_neg (by simp [hc4])]
        simp only [ fourcc_compare_prefix _ _ _ hc4, first_match_find]
        cases hdw : root.dropWhile (fun a => mp4p_fourcc_compare a.type c) with
        | nil => rfl
        | cons p ps =>
          simp only [hdrop]
          rw [if_pos trivial]
          exact ih n p.subatoms (fun x hx => hc x (List.mem_cons_of_mem _ hx))
            (by simp only [List.length_cons] at hf ⊢; omega)

/-- C15 (counterexample): of two `trak` atoms the first has no child and the
second has an `mdia` child, so a chain matching `trak/mdia` exists;
`mp4p_atom_find` stops at the first `trak` and returns no match. -/
theorem C15_second_trak_not_found :
    mp4p_atom_find
        [Atom.mk 0 8 (chars "trak") .none none [],
         Atom.mk 8 16 (chars "trak") .none none [Atom.mk 16 8 (chars "mdia") .none none []]]
        (path_of [chars "trak", chars "mdia"]) = []
      ∧ Chain
        [Atom.mk 0 8 (chars "trak") .none none [],
         Atom.mk 8 16 (chars "trak") .none none [Atom.mk 16 8 (chars "mdia") .none none []]]
        [chars "trak", chars "mdia"] (Atom.mk 16 8 (chars "mdia") .none none []) :=
  ⟨rfl, Atom.mk 8 16 (chars "trak") .none none [Atom.mk 16 8 (chars "mdia") .none none []],
    List.mem_cons_of_mem _ (List.mem_cons_self _ _), rfl, List.mem_cons_self _ _, rfl⟩

/-- C15 (amended): for every sibling list and every path of four-character
codes, `mp4p_atom_find` returns what the first-match lookup returns: at each
level the first atom whose type is the code is taken and the search goes on
in its children only; a no-match means that this chain of first matches
breaks, and an atom returned is the first match at the last level. -/
theorem C15_atom_find_first_match (root : List Atom) (comps : List (List Nat))
    (hc : ∀ c ∈ comps, c.length = 4) :
    mp4p_atom_find root (path_of comps) = first_match_find root comps :=
  atom_find_aux_first_match comps _ root hc (path_of_length_ge comps hc)

theorem C15_atom_find_first_match_witness :
    mp4p_atom_find
        [Atom.mk 0 8 (chars "trak") .none none [],
         Atom.mk 8 16 (chars "trak") .none none [Atom.mk 16 8 (chars "mdia") .none none []]]
        (path_of [chars "trak", chars "mdia"])
      = first_match_find
        [Atom.mk 0 8 (chars "trak") .none none [],
         Atom.mk 8 16 (chars "trak") .none none [Atom.mk 16 8 (chars "mdia") .none none []]]
        [chars "trak", chars "mdia"] :=
  C15_atom_find_first_match _ _ (by decide)

/-! ## Serializer: the size-only pass -/

theorem subatoms_size_mod :
    ∀ (cs : List Atom) (acc : Nat),
      subatoms_size cs acc % 2 ^ 32 = (acc + (cs.map atom_to_buffer_size).sum) % 2 ^ 32 := by
  intro cs
  induction cs with
  | nil => intro acc; simp [subatoms_size]
  | cons c cs ih =>
    intro acc
    rw [subatoms_size, ih]
    simp only [List.map_cons, List.sum_cons]
    omega

theorem subatoms_size_lt :
    ∀ (cs : List Atom) (acc : Nat), acc < 2 ^ 32 → subatoms_size cs acc < 2 ^ 32 := by
  intro cs
  induction cs with
  | nil => intro acc h; simpa [subatoms_size] using h
  | cons c cs ih =>
    intro acc _
    rw [subatoms_size]
    exact ih _ (Nat.mod_lt _ (by norm_num))

/-- C19 (counterexample): the size-only pass on a `udta` container freshly
made by `mp4p_atom_new` gives 0, not 8. -/
theorem C19_new_container_size_zero :
    mp4p_atom_to_buffer (mp4p_atom_new (chars "udta")) [] none 0 = some (0, []) := rfl

/-- C19 (amended): the size computed by `mp4p_atom_to_buffer (atom, NULL, 0)`
is the declared size field of every atom without children, container or
leaf, and for every atom with at least one child it is 8 plus the sum of the
computed sizes of the children, in 32-bit arithmetic; the buffer is not
touched. -/
theorem C19_size_only (pos size : Nat) (type : List Nat) (data : Payload)
    (to_buffer : Option Writer) (c : Atom) (cs : List Atom) (mem : List Nat) :
    mp4p_atom_to_buffer (Atom.mk pos size type data to_buffer []) mem none 0 = some (size, mem)
      ∧ mp4p_atom_to_buffer (Atom.mk pos size type data to_buffer (c :: cs)) mem none 0
        = some ((8 + ((c :: cs).map atom_to_buffer_size).sum) % 2 ^ 32, mem) := by
  refine ⟨rfl, ?_⟩
  unfold mp4p_atom_to_buffer
  simp only
  rw [atom_to_buffer_size]
  have h1 := subatoms_size_mod (c :: cs) 8
  have h2 := subatoms_size_lt (c :: cs) 8 (by norm_num)
  rw [Nat.mod_eq_of_lt h2] at h1
  rw [h1]

/-! ## Genre table -/

set_option maxRecDepth 8000 in
/-- C20: `mp4p_genre_name_for_index (1)` returns "Blues" and
`mp4p_genre_name_for_index (0)` returns `NULL`. -/
theorem C20_genre_name_one_and_zero :
    mp4p_genre_name_for_index 1 = some (chars "Blues")
      ∧ mp4p_genre_name_for_index 0 = none :=
  ⟨rfl, rfl⟩

/-! ## Stepping through a decoder from a known payload -/

theorem from_bind {σ α β : Type} (m : Rd σ α) (f : α → Rd σ β) (s0 : σ) (R : β → σ → Prop)
    (h : ∀ fp a, (m s0 fp).1 = some a → (f a).From (m s0 fp).2.1 R) : (m >>= f).From s0 R := by
  intro fp b hb
  have hb1 : (Rd.bind m f s0 fp).1 = some b := hb
  show R b (Rd.bind m f s0 fp).2.1
  have h1 := h fp
  unfold Rd.bind at hb1 ⊢
  rcases hm : m s0 fp with ⟨_ | a, s1, fp1⟩
  · rw [hm] at hb1
    cases hb1
  · rw [hm] at hb1 h1
    exact h1 a rfl fp1 b hb1

theorem from_weaken {σ α : Type} (m : Rd σ α) (s0 : σ) (R1 R : α → σ → Prop)
    (h : m.From s0 R1) (hw : ∀ a s, R1 a s → R a s) : m.From s0 R :=
  fun fp a ha => hw _ _ (h fp a ha)

theorem from_pure {σ α : Type} (a : α) (s0 : σ) (R : α → σ → Prop) (h : R a s0) :
    (Rd.pure a : Rd σ α).From s0 R := by
  intro fp b hb
  cases hb
  exact h

theorem from_fail {σ α : Type} (s0 : σ) (R : α → σ → Prop) : (Rd.fail : Rd σ α).From s0 R := by
  intro fp b hb
  cases hb

theorem from_set {σ : Type} (f : σ → σ) (s0 : σ) (R : Unit → σ → Prop) (h : R () (f s0)) :
    (Rd.set f).From s0 R := by
  intro fp b _
  exact h

theorem from_bind_set {σ β : Type} (f : σ → σ) (g : Unit → Rd σ β) (s0 : σ)
    (R : β → σ → Prop) (h : (g ()).From (f s0) R) : (Rd.set f >>= g).From s0 R :=
  from_bind _ _ _ _ (fun _ _ _ => h)

theorem from_bind_ftell {σ β : Type} (g : Nat → Rd σ β) (s0 : σ) (R : β → σ → Prop)
    (h : ∀ a, (g a).From s0 R) : (Rd.ftell >>= g).From s0 R :=
  from_bind _ _ _ _ (fun _ a _ => h a)

theorem from_bind_READ_UINT16 {σ β : Type} (g : Nat → Rd σ β) (s0 : σ) (R : β → σ → Prop)
    (h : ∀ a, (g a).From s0 R) : (READ_UINT16 >>= g).From s0 R :=
  from_bind _ _ _ _ (fun _ a _ => h a)

theorem from_bind_READ_UINT32 {σ β : Type} (g : Nat → Rd σ β) (s0 : σ) (R : β → σ → Prop)
    (h : ∀ a, (g a).From s0 R) : (READ_UINT32 >>= g).From s0 R :=
  from_bind _ _ _ _ (fun _ a _ => h a)

theorem from_bind_READ_COMMON_HEADER {σ β : Type} (g : Unit → Rd σ β) (s0 : σ)
    (R : β → σ → Prop) (h : (g ()).From s0 R) : (READ_COMMON_HEADER >>= g).From s0 R := by
  unfold READ_COMMON_HEADER
  refine from_bind _ _ _ _ (fun fp a ha => ?_)
  have hs : ((READ_UINT32 >>= fun _ => Rd.pure ()) s0 fp).2.1 = s0 := by
    show (Rd.bind READ_UINT32 (fun _ => Rd.pure ()) s0 fp).2.1 = s0
    unfold Rd.bind
    split <;> (rename_i heq; have := congrArg (fun x => x.2.1) heq; simpa using this.symm)
  rw [hs]
  exact h

theorem READ_BUF_state {σ : Type} (size : Nat) (store : List Nat → σ → σ) (s0 : σ) (fp : File)
    (a : List Nat) (h : (READ_BUF size store s0 fp).1 = some a) :
    (READ_BUF size store s0 fp).2.1 = store a s0 := by
  unfold READ_BUF at h ⊢
  simp only at h ⊢
  split at h
  · rename_i hlen
    rw [if_pos hlen]
    cases h
    rfl
  · cases h

theorem from_bind_READ_BUF {σ β : Type} (size : Nat) (store : List Nat → σ → σ)
    (g : List Nat → Rd σ β) (s0 : σ) (R : β → σ → Prop)
    (h : ∀ b, (g b).From (store b s0) R) : (READ_BUF size store >>= g).From s0 R := by
  refine from_bind _ _ _ _ (fun fp a ha => ?_)
  rw [READ_BUF_state size store s0 fp a ha]
  exact h a

theorem from_bind_READ_BUF_local {σ β : Type} (size : Nat) (g : List Nat → Rd σ β) (s0 : σ)
    (R : β → σ → Prop) (h : ∀ b, (g b).From s0 R) : (READ_BUF_local size >>= g).From s0 R :=
  from_bind_READ_BUF size _ g s0 R h

/-! ## Metadata items: what a successful decode leaves -/

theorem load_metadata_values_from :
    ∀ (k i : Nat) (s0 : mp4p_meta_t × Option Writer),
      (load_metadata_values k i).From s0 (fun _ s =>
        s.1.name = s0.1.name ∧ s.1.text = s0.1.text
          ∧ s.1.version_flags = s0.1.version_flags
          ∧ s.1.values.isSome = s0.1.values.isSome ∧ s.2 = s0.2) := by
  intro k
  induction k with
  | zero =>
    intro i s0
    exact from_pure _ _ _ ⟨rfl, rfl, rfl, rfl, rfl⟩
  | succ n ih =>
    intro i s0
    unfold load_metadata_values
    refine from_bind_READ_UINT16 _ _ _ (fun v => ?_)
    refine from_bind_set _ _ _ _ ?_
    refine from_weaken _ _ _ _ (ih (i + 1) _) ?_
    intro _ s h
    obtain ⟨h1, h2, h3, h4, h5⟩ := h
    refine ⟨h1, h2, h3, ?_, h5⟩
    rw [h4]
    cases s0.1.values <;> rfl

theorem load_metadata_atom_from (type : List Nat)
    (htype : ¬ (type.take 4 == chars "----") = true) :
    (_load_metadata_atom type).From ({}, none) (fun _ s =>
      s.1.name = none ∧ s.2 = some Writer._meta_write
        ∧ ((s.1.version_flags &&& 0xff = 0 ∧ s.1.values.isSome ∧ s.1.text = none)
          ∨ (s.1.version_flags &&& 0xff = 1 ∧ s.1.text.isSome ∧ s.1.values = none))) := by
  unfold _load_metadata_atom
  rw [if_neg htype]
  refine from_bind_READ_UINT32 _ _ _ (fun size => ?_)
  refine from_bind_READ_BUF_local _ _ _ _ (fun data => ?_)
  split
  · exact from_fail _ _
  refine from_bind_set _ _ _ _ ?_
  refine from_bind_READ_UINT32 _ _ _ (fun vf => ?_)
  refine from_bind_set _ _ _ _ ?_
  refine from_bind_READ_UINT32 _ _ _ (fun _ => ?_)
  dsimp only
  refine from_bind_set _ _ _ _ ?_
  refine from_bind_ftell _ _ _ (fun data_offset => ?_)
  refine from_bind_set _ _ _ _ ?_
  dsimp only
  split
  · rename_i hflag
    refine from_bind_set _ _ _ _ ?_
    refine from_weaken _ _ _ _ (load_metadata_values_from _ _ _) ?_
    intro _ s h
    obtain ⟨h1, h2, h3, h4, h5⟩ := h
    exact ⟨h1, h5, Or.inl ⟨by rw [h3]; exact hflag, by rw [h4]; rfl, h2⟩⟩
  · split
    · rename_i hflag
      split
      · exact from_fail _ _
      · refine from_bind_READ_BUF _ _ _ _ _ (fun b => ?_)
        exact from_pure _ _ _ ⟨rfl, rfl, Or.inr ⟨hflag, rfl, rfl⟩⟩
    · exact from_fail _ _

theorem load_custom_metadata_atom_from :
    _load_custom_metadata_atom.From ({}, none) (fun _ s =>
      s.1.name.isSome ∧ s.1.text.isSome ∧ s.1.values = none ∧ s.2 = none) := by
  unfold _load_custom_metadata_atom
  refine from_bind_READ_UINT32 _ _ _ (fun mean_size => ?_)
  refine from_bind_READ_BUF_local _ _ _ _ (fun mean_type => ?_)
  split
  · exact from_fail _ _
  refine from_bind_READ_COMMON_HEADER _ _ _ ?_
  refine from_bind_READ_BUF_local _ _ _ _ (fun mean_data => ?_)
  split
  · exact from_fail _ _
  refine from_bind_READ_UINT32 _ _ _ (fun name_size => ?_)
  refine from_bind_READ_BUF_local _ _ _ _ (fun name_type => ?_)
  split
  · exact from_fail _ _
  refine from_bind_READ_COMMON_HEADER _ _ _ ?_
  refine from_bind_READ_BUF _ _ _ _ _ (fun name => ?_)
  dsimp only
  refine from_bind_READ_UINT32 _ _ _ (fun data_size => ?_)
  refine from_bind_READ_BUF_local _ _ _ _ (fun data_type => ?_)
  split
  · exact from_fail _ _
  refine from_bind_READ_COMMON_HEADER _ _ _ ?_
  refine from_bind_READ_UINT32 _ _ _ (fun _ => ?_)
  dsimp only
  refine from_bind_set _ _ _ _ ?_
  refine from_bind_READ_BUF _ _ _ _ _ (fun text => ?_)
  exact from_pure _ _ _ ⟨rfl, rfl, rfl, rfl⟩

theorem run_ok_iff {σ : Type} (m : Rd σ Unit) (s : σ) (fp : File) (h : (m.run s fp).1 = 0) :
    (m s fp).1 = some () ∧ (m.run s fp).2.1 = (m s fp).2.1 := by
  unfold Rd.run at h ⊢
  rcases hm : m s fp with ⟨_ | a, s1, fp1⟩
  · rw [hm] at h
    simp at h
  · exact ⟨rfl, rfl⟩

/-! ## Children of an ilst container -/

theorem atom_init_ilst_child (load : Option Atom → File → Option (Option Atom × File))
    (fuel : Nat) (p atom : Atom) (fp : File)
    (hp : mp4p_atom_type_compare p (chars "ilst") = false)
    (hother : ∀ t ∈ init_types, mp4p_atom_type_compare atom t = true) :
    mp4p_atom_init load fuel (some p) atom fp
      = some (((_load_metadata_atom atom.type).run ({}, none) fp).1,
          (atom.setData (.meta ((_load_metadata_atom atom.type).run ({}, none) fp).2.1.1)).setWriter
            ((_load_metadata_atom atom.type).run ({}, none) fp).2.1.2,
          ((_load_metadata_atom atom.type).run ({}, none) fp).2.2) := by
  have hcont : ¬ (container_atoms.any (fun t => !mp4p_atom_type_compare atom t) = true) := by
    rw [List.any_eq_true]
    rintro ⟨t, ht, hx⟩
    rw [hother t (List.mem_append_left _ ht)] at hx
    exact absurd hx (by decide)
  have hpar : parent_is_ilst (some p) = true := by
    show (!mp4p_atom_type_compare p (chars "ilst")) = true
    rw [hp]
    rfl
  unfold mp4p_atom_init
  rw [if_neg hcont]
  rw [if_neg (by rw [hother (chars "ftyp") (by decide)]; decide)]
  rw [if_neg (by rw [hother (chars "mvhd") (by decide)]; decide)]
  rw [if_neg (by rw [hother (chars "tkhd") (by decide)]; decide)]
  rw [if_neg (by rw [hother (chars "mdhd") (by decide)]; decide)]
  rw [if_neg (by rw [hother (chars "hdlr") (by decide)]; decide)]
  rw [if_neg (by rw [hother (chars "smhd") (by decide)]; decide)]
  rw [if_neg (by rw [hother (chars "stsd") (by decide)]; decide)]
  rw [if_neg (by rw [hother (chars "stts") (by decide)]; decide)]
  rw [if_neg (by rw [hother (chars "stsc") (by decide)]; decide)]
  rw [if_neg (by rw [hother (chars "stsz") (by decide)]; decide)]
  rw [if_neg (by rw [hother (chars "stco") (by decide)]; decide)]
  rw [if_neg (by rw [hother (chars "co64") (by decide)]; decide)]
  rw [if_neg (by rw [hother (chars "dref") (by decide)]; decide)]
  rw [if_neg (by rw [hother (chars "tref") (by decide)]; decide)]
  rw [if_neg (by rw [hother (chars "alac") (by decide)]; decide)]
  rw [if_neg (by rw [hother (chars "mp4a") (by decide)]; decide)]
  rw [if_neg (by rw [hother (chars "esds") (by decide)]; decide)]
  rw [if_neg (by rw [hother (chars "meta") (by decide)]; decide)]
  rw [if_neg (by rw [hother (chars "ilst") (by decide)]; decide)]
  rw [if_pos hpar]

/-- C16 (counterexample): inside an `ilst` container, an item whose type code
is `ftyp` (with a well-formed `data` box holding the text "A") is decoded by
the `ftyp` branch, as a file-type payload, not as a metadata item. -/
theorem C16_ilst_child_typed_ftyp :
    mp4p_open 3 ⟨[0, 0, 0, 33, 105, 108, 115, 116, 0, 0, 0, 25, 102, 116, 121, 112,
        0, 0, 0, 17, 100, 97, 116, 97, 0, 0, 0, 1, 0, 0, 0, 0, 65], 0⟩
      = some ([Atom.mk 0 33 (chars "ilst") .none none
            [Atom.mk 8 25 (chars "ftyp")
              (.mtyp ⟨[0, 0, 0, 17], [100, 97, 116, 97], [0, 0, 0, 1], [0, 0, 0, 0]⟩) none []]],
          ⟨[0, 0, 0, 33, 105, 108, 115, 116, 0, 0, 0, 25, 102, 116, 121, 112,
            0, 0, 0, 17, 100, 97, 116, 97, 0, 0, 0, 1, 0, 0, 0, 0, 65], 33⟩) := rfl

/-- C16 (amended): a box that is a direct child of an `ilst` container and
whose type is none of the types `mp4p_atom_init` has a branch for is decoded
by `_load_metadata_atom` as a metadata item; the type `----` is decoded by
`_load_custom_metadata_atom`, and for every other type a successful decode
has stored values alone when the low byte of the version/flags word is 0 and
text alone when it is 1. -/
theorem C16_ilst_child_is_metadata (load : Option Atom → File → Option (Option Atom × File))
    (fuel : Nat) (p atom : Atom) (fp : File)
    (hp : mp4p_atom_type_compare p (chars "ilst") = false)
    (hother : ∀ t ∈ init_types, mp4p_atom_type_compare atom t = true) :
    ∃ (r : Int) (m : mp4p_meta_t) (w : Option Writer) (fp1 : File),
      mp4p_atom_init load fuel (some p) atom fp
          = some (r, (atom.setData (.meta m)).setWriter w, fp1)
        ∧ (_load_metadata_atom atom.type).run ({}, none) fp = (r, (m, w), fp1)
        ∧ ((atom.type.take 4 == chars "----") = true →
            _load_metadata_atom atom.type = _load_custom_metadata_atom)
        ∧ (¬ (atom.type.take 4 == chars "----") = true → r = 0 →
            (m.version_flags &&& 0xff = 0 ∧ m.values.isSome ∧ m.text = none)
              ∨ (m.version_flags &&& 0xff = 1 ∧ m.text.isSome ∧ m.values = none)) := by
  refine ⟨_, _, _, _, atom_init_ilst_child load fuel p atom fp hp hother, rfl, ?_, ?_⟩
  · intro h
    unfold _load_metadata_atom
    rw [if_pos h]
  · intro htype hr
    obtain ⟨h1, h2⟩ := run_ok_iff _ _ _ hr
    have h3 := load_metadata_atom_from atom.type htype fp () h1
    rw [h2]
    exact h3.2.2

theorem C16_ilst_child_is_metadata_witness :
    ∃ (r : Int) (m : mp4p_meta_t) (w : Option Writer) (fp1 : File),
      mp4p_atom_init (_atom_load 0) 0 (some (Atom.mk 0 33 (chars "ilst") .none none []))
          (Atom.mk 8 25 (COPYRIGHT_SYM ++ chars "nam") .none none [])
          ⟨[0, 0, 0, 33, 105, 108, 115, 116, 0, 0, 0, 25, 169, 110, 97, 109,
            0, 0, 0, 17, 100, 97, 116, 97, 0, 0, 0, 1, 0, 0, 0, 0, 65], 16⟩
          = some (r, ((Atom.mk 8 25 (COPYRIGHT_SYM ++ chars "nam") .none none []).setData
              (.meta m)).setWriter w, fp1)
        ∧ (_load_metadata_atom (Atom.mk 8 25 (COPYRIGHT_SYM ++ chars "nam") .none none []).type).run
            ({}, none)
            ⟨[0, 0, 0, 33, 105, 108, 115, 116, 0, 0, 0, 25, 169, 110, 97, 109,
              0, 0, 0, 17, 100, 97, 116, 97, 0, 0, 0, 1, 0, 0, 0, 0, 65], 16⟩ = (r, (m, w), fp1)
        ∧ (((Atom.mk 8 25 (COPYRIGHT_SYM ++ chars "nam") .none none []).type.take 4
              == chars "----") = true →
            _load_metadata_atom (Atom.mk 8 25 (COPYRIGHT_SYM ++ chars "nam") .none none []).type
              = _load_custom_metadata_atom)
        ∧ (¬ ((Atom.mk 8 25 (COPYRIGHT_SYM ++ chars "nam") .none none []).type.take 4
              == chars "----") = true → r = 0 →
            (m.version_flags &&& 0xff = 0 ∧ m.values.isSome ∧ m.text = none)
              ∨ (m.version_flags &&& 0xff = 1 ∧ m.text.isSome ∧ m.values = none)) :=
  C16_ilst_child_is_metadata (_atom_load 0) 0 (Atom.mk 0 33 (chars "ilst") .none none [])
    (Atom.mk 8 25 (COPYRIGHT_SYM ++ chars "nam") .none none [])
    ⟨[0, 0, 0, 33, 105, 108, 115, 116, 0, 0, 0, 25, 169, 110, 97, 109,
      0, 0, 0, 17, 100, 97, 116, 97, 0, 0, 0, 1, 0, 0, 0, 0, 65], 16⟩
    (by decide) (by decide)

/-! ## Metadata items: one shape populated -/

/-- C17 (counterexample): an `ilst` holding a `tmpo` item whose data box has
type flag 21 (an integer) is parsed into an item that stays in the tree with
none of values, text and name populated. -/
theorem C17_item_with_nothing_populated :
    mp4p_open 3 ⟨[0, 0, 0, 34, 105, 108, 115, 116, 0, 0, 0, 26, 116, 109, 112, 111,
        0, 0, 0, 18, 100, 97, 116, 97, 0, 0, 0, 21, 0, 0, 0, 0, 0, 120], 0⟩
      = some ([Atom.mk 0 34 (chars "ilst") .none none
            [Atom.mk 8 26 (chars "tmpo") (.meta ⟨none, none, none, 6, 32, 21⟩)
              (some Writer._meta_write) []]],
          ⟨[0, 0, 0, 34, 105, 108, 115, 116, 0, 0, 0, 26, 116, 109, 112, 111,
            0, 0, 0, 18, 100, 97, 116, 97, 0, 0, 0, 21, 0, 0, 0, 0, 0, 120], 34⟩)
      ∧ ¬ OnePopulated ⟨none, none, none, 6, 32, 21⟩ := by
  refine ⟨rfl, ?_⟩
  unfold OnePopulated
  decide

/-- C17 (amended): every metadata item whose decoding by
`_load_metadata_atom` succeeds (return value 0) has exactly one of values,
text, custom name with text populated; for a type other than `----` the low
byte of the version/flags word makes the choice, 0 for values and 1 for
text. The items built by `mp4p_ilst_append_text`, `_custom`, `_genre` and
`_track_disc` have exactly one of the three populated as well. -/
theorem C17_one_shape_populated (type : List Nat) (fp : File) (ty name text : List Nat)
    (index total : Nat)
    (hok : ((_load_metadata_atom type).run ({}, none) fp).1 = 0) :
    OnePopulated ((_load_metadata_atom type).run ({}, none) fp).2.1.1
      ∧ (¬ (type.take 4 == chars "----") = true →
          (((_load_metadata_atom type).run ({}, none) fp).2.1.1.version_flags &&& 0xff = 0
              ∧ ((_load_metadata_atom type).run ({}, none) fp).2.1.1.values.isSome
              ∧ ((_load_metadata_atom type).run ({}, none) fp).2.1.1.text = none)
            ∨ (((_load_metadata_atom type).run ({}, none) fp).2.1.1.version_flags &&& 0xff = 1
              ∧ ((_load_metadata_atom type).run ({}, none) fp).2.1.1.text.isSome
              ∧ ((_load_metadata_atom type).run ({}, none) fp).2.1.1.values = none))
      ∧ (∃ m, (ilst_text_item ty text).data = .meta m ∧ OnePopulated m)
      ∧ (∃ m, (ilst_custom_item name text).data = .meta m ∧ OnePopulated m)
      ∧ (∃ m, (ilst_genre_item text).data = .meta m ∧ OnePopulated m)
      ∧ (∃ m, (ilst_track_disc_item ty index total).data = .meta m ∧ OnePopulated m) := by
  obtain ⟨h1, h2⟩ := run_ok_iff _ _ _ hok
  have hflag : ¬ (type.take 4 == chars "----") = true →
      (((_load_metadata_atom type).run ({}, none) fp).2.1.1.version_flags &&& 0xff = 0
          ∧ ((_load_metadata_atom type).run ({}, none) fp).2.1.1.values.isSome
          ∧ ((_load_metadata_atom type).run ({}, none) fp).2.1.1.text = none)
        ∨ (((_load_metadata_atom type).run ({}, none) fp).2.1.1.version_flags &&& 0xff = 1
          ∧ ((_load_metadata_atom type).run ({}, none) fp).2.1.1.text.isSome
          ∧ ((_load_metadata_atom type).run ({}, none) fp).2.1.1.values = none) := by
    intro htype
    have h3 := load_metadata_atom_from type htype fp () h1
    rw [h2]
    exact h3.2.2
  refine ⟨?_, hflag, ⟨_, rfl, Or.inr (Or.inl ⟨rfl, rfl, rfl⟩)⟩,
    ⟨_, rfl, Or.inr (Or.inr ⟨rfl, rfl, rfl⟩)⟩, ?_, ⟨_, rfl, Or.inl ⟨rfl, rfl, rfl⟩⟩⟩
  · by_cases htype : (type.take 4 == chars "----") = true
    · have hc : _load_metadata_atom type = _load_custom_metadata_atom := by
        unfold _load_metadata_atom
        rw [if_pos htype]
      rw [hc] at h1 h2 ⊢
      have h3 := load_custom_metadata_atom_from fp () h1
      rw [h2]
      exact Or.inr (Or.inr ⟨h3.1, h3.2.1, h3.2.2.1⟩)
    · have h3 := load_metadata_atom_from type htype fp () h1
      rcases hflag htype with ⟨_, hv, ht⟩ | ⟨_, ht, hv⟩
      · exact Or.inl ⟨hv, ht, by rw [h2]; exact h3.1⟩
      · exact Or.inr (Or.inl ⟨ht, hv, by rw [h2]; exact h3.1⟩)
  · unfold ilst_genre_item
    split
    · exact ⟨_, rfl, Or.inl ⟨rfl, rfl, rfl⟩⟩
    · exact ⟨_, rfl, Or.inr (Or.inl ⟨rfl, rfl, rfl⟩)⟩

theorem C17_one_shape_populated_witness :
    ((_load_metadata_atom (COPYRIGHT_SYM ++ chars "nam")).run ({}, none)
        ⟨[0, 0, 0, 17, 100, 97, 116, 97, 0, 0, 0, 1, 0, 0, 0, 0, 65, 66, 67, 68, 69], 0⟩).1 = 0
      ∧ OnePopulated ((_load_metadata_atom (COPYRIGHT_SYM ++ chars "nam")).run ({}, none)
        ⟨[0, 0, 0, 17, 100, 97, 116, 97, 0, 0, 0, 1, 0, 0, 0, 0, 65, 66, 67, 68, 69], 0⟩).2.1.1 :=
  ⟨rfl, (C17_one_shape_populated (COPYRIGHT_SYM ++ chars "nam")
    ⟨[0, 0, 0, 17, 100, 97, 116, 97, 0, 0, 0, 1, 0, 0, 0, 0, 65, 66, 67, 68, 69], 0⟩
    (chars "trkn") (chars "MusicBrainz Track Id") (chars "Rock") 5 12 rfl).1⟩

/-! ## The `stsz` payload -/

/-- C18 (evaluation at the failing input): an `stsz` box of 20 bytes with
uniform sample size 1024 and sample count 2, followed by an `stco` box. The
parser reads and stores two entries although the sample size is nonzero:
they come from the first eight bytes of the `stco` box that follows. -/
theorem C18_stsz_entries_read_for_uniform_size :
    _atom_load 1 none
        ⟨[0, 0, 0, 20, 115, 116, 115, 122, 0, 0, 0, 0, 0, 0, 4, 0, 0, 0, 0, 2,
          0, 0, 0, 20, 115, 116, 99, 111, 0, 0, 0, 0, 0, 0, 0, 1, 0, 0, 0, 100], 0⟩
      = some (some (Atom.mk 0 20 (chars "stsz")
            (.stsz ⟨1024, [⟨20⟩, ⟨1937007471⟩]⟩) none []),
          ⟨[0, 0, 0, 20, 115, 116, 115, 122, 0, 0, 0, 0, 0, 0, 4, 0, 0, 0, 0, 2,
            0, 0, 0, 20, 115, 116, 99, 111, 0, 0, 0, 0, 0, 0, 0, 1, 0, 0, 0, 100], 20⟩) := rfl

/-! ## The `stco` payload: offsets as stored in the file -/

theorem bind_eval {σ α β : Type} (m : Rd σ α) (f : α → Rd σ β) (s s1 : σ) (fp fp1 : File)
    (a : α) (h : m s fp = (some a, s1, fp1)) : (m >>= f) s fp = f a s1 fp1 := by
  show Rd.bind m f s fp = f a s1 fp1
  unfold Rd.bind
  rw [h]

theorem read_uint32_of_bytes (fp : File) (v : Nat) (rest : List Nat) (hv : v < 2 ^ 32)
    (h : fp.bytes.drop fp.pos = uint32_bytes v ++ rest) :
    _read_uint32 fp = (some v, ⟨fp.bytes, fp.pos + 4⟩) := by
  unfold uint32_bytes at h
  rw [read_uint32_eq fp _ _ _ _ rest h,
    be32_eq _ _ _ _ (Nat.mod_lt _ (by norm_num)) (Nat.mod_lt _ (by norm_num))
      (Nat.mod_lt _ (by norm_num)) (Nat.mod_lt _ (by norm_num))]
  simp only [Nat.shiftRight_eq_div_pow, and_255]
  congr 2
  omega

theorem update_entry_append {α : Type} (f : α → α) (e : α) (post : List α) :
    ∀ pre : List α, update_entry f (pre ++ e :: post) pre.length = pre ++ f e :: post := by
  intro pre
  induction pre with
  | nil => rfl
  | cons x xs ih =>
    show x :: update_entry f (xs ++ e :: post) xs.length = x :: (xs ++ f e :: post)
    rw [ih]

theorem load_stco_entries_exact :
    ∀ (vs : List Nat) (pre : List mp4p_stco_entry_t) (fp : File) (rest : List Nat),
      (∀ v ∈ vs, v < 2 ^ 32) →
      fp.bytes.drop fp.pos = (vs.map uint32_bytes).flatten ++ rest →
      load_stco_entries false vs.length pre.length ⟨pre ++ List.replicate vs.length ⟨0⟩⟩ fp
        = (some (), ⟨pre ++ vs.map (fun v => ⟨v⟩)⟩, ⟨fp.bytes, fp.pos + 4 * vs.length⟩) := by
  intro vs
  induction vs with
  | nil =>
    intro pre fp rest _ _
    simp [load_stco_entries, Rd.pure]
  | cons v vs ih =>
    intro pre fp rest hv h
    have hv0 : v < 2 ^ 32 := hv v (List.mem_cons_self _ _)
    simp only [List.map_cons, List.flatten_cons, List.append_assoc] at h
    have hr := read_uint32_of_bytes fp v _ hv0 h
    have hd : (⟨fp.bytes, fp.pos + 4⟩ : File).bytes.drop (⟨fp.bytes, fp.pos + 4⟩ : File).pos
        = (vs.map uint32_bytes).flatten ++ rest :=
      drop_after fp (uint32_bytes v) _ h
    have hrd : (READ_UINT32 : Rd mp4p_stco_t Nat)
        ⟨pre ++ List.replicate (vs.length + 1) ⟨0⟩⟩ fp
        = (some v, ⟨pre ++ List.replicate (vs.length + 1) ⟨0⟩⟩, ⟨fp.bytes, fp.pos + 4⟩) := by
      unfold READ_UINT32
      rw [hr]
    have hih := ih (pre ++ [⟨v⟩]) ⟨fp.bytes, fp.pos + 4⟩ rest
      (fun x hx => hv x (List.mem_cons_of_mem _ hx)) hd
    simp only [List.length_append, List.length_cons, List.length_nil, List.append_assoc,
      List.singleton_append] at hih
    rw [List.length_cons, load_stco_entries, if_neg (by decide), bind_eval _ _ _ _ _ _ _ hrd]
    dsimp only
    rw [bind_eval (Rd.set _) _ _ _ _ _ () rfl]
    simp only [List.replicate_succ, update_entry_append, List.map_cons]
    rw [hih]
    congr 2
    simp only [File.mk.injEq, true_and]
    omega

theorem load_stco_exact (vs hdr rest : List Nat) (fp : File) (hh : hdr.length = 4)
    (hn : vs.length < 2 ^ 32) (hv : ∀ v ∈ vs, v < 2 ^ 32)
    (h : fp.bytes.drop fp.pos
      = hdr ++ (uint32_bytes vs.length ++ ((vs.map uint32_bytes).flatten ++ rest))) :
    (load_stco false).run {} fp
      = (0, ⟨vs.map (fun v => ⟨v⟩)⟩, ⟨fp.bytes, fp.pos + 8 + 4 * vs.length⟩) := by
  obtain ⟨c0, c1, c2, c3, rfl⟩ : ∃ c0 c1 c2 c3, hdr = [c0, c1, c2, c3] := by
    match hdr, hh with
    | [c0, c1, c2, c3], _ => exact ⟨c0, c1, c2, c3, rfl⟩
  have hr0 := read_uint32_eq fp c0 c1 c2 c3 _ h
  have hd1 : (⟨fp.bytes, fp.pos + 4⟩ : File).bytes.drop (⟨fp.bytes, fp.pos + 4⟩ : File).pos
      = uint32_bytes vs.length ++ ((vs.map uint32_bytes).flatten ++ rest) :=
    drop_after fp [c0, c1, c2, c3] _ h
  have hr1 := read_uint32_of_bytes ⟨fp.bytes, fp.pos + 4⟩ vs.length _ hn hd1
  have hd2 : (⟨fp.bytes, fp.pos + 4 + 4⟩ : File).bytes.drop
        (⟨fp.bytes, fp.pos + 4 + 4⟩ : File).pos
      = (vs.map uint32_bytes).flatten ++ rest :=
    drop_after ⟨fp.bytes, fp.pos + 4⟩ (uint32_bytes vs.length) _ hd1
  have hent := load_stco_entries_exact vs [] ⟨fp.bytes, fp.pos + 4 + 4⟩ rest hv hd2
  have hhdr : (READ_COMMON_HEADER : Rd mp4p_stco_t Unit) {} fp
      = (some (), {}, ⟨fp.bytes, fp.pos + 4⟩) := by
    unfold READ_COMMON_HEADER
    rw [bind_eval (READ_UINT32 : Rd mp4p_stco_t Nat) _ _ _ _ _ _
      (by unfold READ_UINT32; rw [hr0])]
    rfl
  have hcnt : (READ_UINT32 : Rd mp4p_stco_t Nat) {} ⟨fp.bytes, fp.pos + 4⟩
      = (some vs.length, {}, ⟨fp.bytes, fp.pos + 4 + 4⟩) := by
    unfold READ_UINT32
    rw [hr1]
  unfold Rd.run load_stco
  rw [bind_eval _ _ _ _ _ _ _ hhdr, bind_eval _ _ _ _ _ _ _ hcnt,
    bind_eval (Rd.set _) _ _ _ _ _ () rfl]
  simp only [List.length_nil, List.nil_append] at hent
  rw [hent]

theorem atom_init_stco (load : Option Atom → File → Option (Option Atom × File))
    (fuel : Nat) (parent_atom : Option Atom) (pos size : Nat) (fp : File) :
    mp4p_atom_init load fuel parent_atom (Atom.mk pos size (chars "stco") .none none []) fp
      = init_leaf (Atom.mk pos size (chars "stco") .none none []) fp (load_stco false) {}
          Payload.stco :=
  rfl

/-- C12: in an stbl with a non-empty stsc table and an stsz table,
`mp4p_sample_offset` computes from the offsets of the first co64 child
whenever the stbl has one (whether or not it also has an stco child), and
from the offsets of the first stco child when it has no co64 child; the
offset entry is used as stored, without change. And the `stco` branch of
`mp4p_atom_init` stores each 32-bit big-endian offset of the box as the same
number in the (64-bit) `offset` field. -/
theorem C12_offset_table_choice (stbl : Atom) (sibs : List Atom)
    (stsc_atom stsz_atom : Atom) (r1 r2 : List Atom)
    (stsc : mp4p_stsc_t) (stsz : mp4p_stsz_t) (sample : Nat)
    (hty : mp4p_atom_type_compare stbl (chars "stbl") = false)
    (h1 : first_child stbl (chars "stsc") = stsc_atom :: r1) (hd1 : stsc_atom.data = .stsc stsc)
    (hne : stsc.entries ≠ [])
    (h2 : first_child stbl (chars "stsz") = stsz_atom :: r2)
    (hd2 : stsz_atom.data = .stsz stsz) :
    (∀ (co64_atom : Atom) (r3 : List Atom) (co64 : mp4p_stco_t),
        first_child stbl (chars "co64") = co64_atom :: r3 → co64_atom.data = .stco co64 →
        mp4p_sample_offset (stbl :: sibs) sample
          = sample_offset_from_tables stsc co64 stsz sample)
    ∧ (first_child stbl (chars "co64") = [] →
        ∀ (stco_atom : Atom) (r4 : List Atom) (stco : mp4p_stco_t),
          first_child stbl (chars "stco") = stco_atom :: r4 → stco_atom.data = .stco stco →
          mp4p_sample_offset (stbl :: sibs) sample
            = sample_offset_from_tables stsc stco stsz sample)
    ∧ (∀ (load : Option Atom → File → Option (Option Atom × File)) (fuel : Nat)
        (parent_atom : Option Atom) (pos size : Nat) (vs hdr rest : List Nat) (fp : File),
        hdr.length = 4 → vs.length < 2 ^ 32 → (∀ v ∈ vs, v < 2 ^ 32) →
        fp.bytes.drop fp.pos
          = hdr ++ (uint32_bytes vs.length ++ ((vs.map uint32_bytes).flatten ++ rest)) →
        mp4p_atom_init load fuel parent_atom (Atom.mk pos size (chars "stco") .none none []) fp
          = some (0, Atom.mk pos size (chars "stco") (.stco ⟨vs.map (fun v => ⟨v⟩)⟩) none [],
              ⟨fp.bytes, fp.pos + 8 + 4 * vs.length⟩)) := by
  have e3 := find_stbl_child stbl sibs (chars "stbl/co64") (chars "co64") (by decide)
    (by decide) hty
  have e4 := find_stbl_child stbl sibs (chars "stbl/stco") (chars "stco") (by decide)
    (by decide) hty
  refine ⟨?_, ?_, ?_⟩
  · intro co64_atom r3 co64 h3 hd3
    exact sample_offset_of_tables stbl sibs stsc_atom stsz_atom co64_atom r1 r2 r3 stsc stsz
      co64 sample hty h1 hd1 hne h2 hd2 (by rw [e3, h3]) hd3
  · intro hno stco_atom r4 stco h4 hd4
    exact sample_offset_of_tables stbl sibs stsc_atom stsz_atom stco_atom r1 r2 r4 stsc stsz
      stco sample hty h1 hd1 hne h2 hd2 (by rw [e3, hno, e4, h4]) hd4
  · intro load fuel parent_atom pos size vs hdr rest fp hh hn hv h
    rw [atom_init_stco]
    unfold init_leaf
    rw [load_stco_exact vs hdr rest fp hh hn hv h]
    rfl

theorem C12_offset_table_choice_witness :
    mp4p_sample_offset
        [Atom.mk 0 0 (chars "stbl") .none none
          [Atom.mk 0 0 (chars "stsc") (.stsc ⟨[⟨1, 2, 1⟩]⟩) none [],
           Atom.mk 0 0 (chars "stco") (.stco ⟨[⟨100⟩]⟩) none [],
           Atom.mk 0 0 (chars "co64") (.stco ⟨[⟨8589934592⟩]⟩) none [],
           Atom.mk 0 0 (chars "stsz") (.stsz ⟨0, [⟨10⟩, ⟨20⟩]⟩) none []]] 1
      = sample_offset_from_tables ⟨[⟨1, 2, 1⟩]⟩ ⟨[⟨8589934592⟩]⟩ ⟨0, [⟨10⟩, ⟨20⟩]⟩ 1 :=
  (C12_offset_table_choice
    (Atom.mk 0 0 (chars "stbl") .none none
      [Atom.mk 0 0 (chars "stsc") (.stsc ⟨[⟨1, 2, 1⟩]⟩) none [],
       Atom.mk 0 0 (chars "stco") (.stco ⟨[⟨100⟩]⟩) none [],
       Atom.mk 0 0 (chars "co64") (.stco ⟨[⟨8589934592⟩]⟩) none [],
       Atom.mk 0 0 (chars "stsz") (.stsz ⟨0, [⟨10⟩, ⟨20⟩]⟩) none []])
    [] (Atom.mk 0 0 (chars "stsc") (.stsc ⟨[⟨1, 2, 1⟩]⟩) none [])
    (Atom.mk 0 0 (chars "stsz") (.stsz ⟨0, [⟨10⟩, ⟨20⟩]⟩) none [])
    [Atom.mk 0 0 (chars "stco") (.stco ⟨[⟨100⟩]⟩) none [],
     Atom.mk 0 0 (chars "co64") (.stco ⟨[⟨8589934592⟩]⟩) none [],
     Atom.mk 0 0 (chars "stsz") (.stsz ⟨0, [⟨10⟩, ⟨20⟩]⟩) none []]
    [] ⟨[⟨1, 2, 1⟩]⟩ ⟨0, [⟨10⟩, ⟨20⟩]⟩ 1 (by decide) rfl rfl (by decide) rfl rfl).1
    (Atom.mk 0 0 (chars "co64") (.stco ⟨[⟨8589934592⟩]⟩) none [])
    [Atom.mk 0 0 (chars "stsz") (.stsz ⟨0, [⟨10⟩, ⟨20⟩]⟩) none []] ⟨[⟨8589934592⟩]⟩ rfl rfl

/-! ## Genre table: its size, and the lookup by name -/

set_option maxRecDepth 8000 in
theorem genretbl_length : _genretbl.length = 192 := rfl

set_option maxRecDepth 8000 in
/-- C21 (counterexample): the genre id 185 is beyond 184 and
`mp4p_genre_name_for_index` returns a name for it, "Audio Theatre"; so it
does for 192, "Psybient", the last of the 192 names of the table. -/
theorem C21_genre_id_185_has_name :
    mp4p_genre_name_for_index 185 = some (chars "Audio Theatre")
      ∧ mp4p_genre_name_for_index 192 = some (chars "Psybient")
      ∧ _genretbl.length = 192 :=
  ⟨rfl, rfl, rfl⟩

/-- C21 (amended): the genre table holds exactly 192 names: for every genre
id greater than 192 (up to 65535, the range of `uint16_t`)
`mp4p_genre_name_for_index` returns `NULL`, and for every id in 1..192 it
returns a name. -/
theorem C21_genre_table_192_names (genreid : Nat) :
    _genretbl.length = 192
      ∧ (1 ≤ genreid → genreid ≤ 192 → (mp4p_genre_name_for_index genreid).isSome = true)
      ∧ (192 < genreid → genreid ≤ 65535 → mp4p_genre_name_for_index genreid = none) := by
  refine ⟨genretbl_length, ?_, ?_⟩
  · intro h1 h2
    have hlt : genreid - 1 < _genretbl.length := by rw [genretbl_length]; omega
    have hc : (genreid + 2 ^ 64 - 1) % 2 ^ 64 < _GENRE_COUNT := by
      unfold _GENRE_COUNT
      rw [genretbl_length]
      omega
    unfold mp4p_genre_name_for_index
    rw [if_pos hc, List.getElem?_eq_getElem hlt]
    rfl
  · intro h1 h2
    have hc : ¬ (genreid + 2 ^ 64 - 1) % 2 ^ 64 < _GENRE_COUNT := by
      unfold _GENRE_COUNT
      rw [genretbl_length]
      omega
    unfold mp4p_genre_name_for_index
    rw [if_neg hc]

theorem C21_genre_table_192_names_witness :
    (mp4p_genre_name_for_index 190).isSome = true ∧ mp4p_genre_name_for_index 193 = none :=
  ⟨(C21_genre_table_192_names 190).2.1 (by decide) (by decide),
   (C21_genre_table_192_names 193).2.2 (by decide) (by decide)⟩

theorem strcasecmp_congr (n1 n2 g : List Nat)
    (h : (strdup n1).map tolower = (strdup n2).map tolower) :
    strcasecmp n1 g = strcasecmp n2 g := by
  unfold strcasecmp
  rw [h]

theorem genre_index_loop_congr (n1 n2 : List Nat)
    (h : (strdup n1).map tolower = (strdup n2).map tolower) :
    ∀ (tbl : List String) (i : Nat), genre_index_loop tbl i n1 = genre_index_loop tbl i n2 := by
  intro tbl
  induction tbl with
  | nil => intro i; rfl
  | cons g gs ih =>
    intro i
    simp only [genre_index_loop]
    rw [strcasecmp_congr n1 n2 _ h, ih]

theorem genre_index_loop_none (name : List Nat) :
    ∀ (tbl : List String) (i : Nat),
      (∀ g ∈ tbl, strcasecmp name (chars g) = true) → genre_index_loop tbl i name = 0 := by
  intro tbl
  induction tbl with
  | nil => intro i _; rfl
  | cons g gs ih =>
    intro i h
    have hg := h g (List.mem_cons_self _ _)
    simp only [genre_index_loop, hg, Bool.not_true, Bool.false_eq_true, if_false]
    exact ih _ (fun x hx => h x (List.mem_cons_of_mem _ hx))

theorem genre_index_loop_first (name : List Nat) :
    ∀ (tbl : List String) (i k : Nat) (g : String),
      i + tbl.length < 2 ^ 16 → tbl[k]? = some g → strcasecmp name (chars g) = false →
      (∀ (j : Nat) (e : String), j < k → tbl[j]? = some e → strcasecmp name (chars e) = true) →
      genre_index_loop tbl i name = i + k + 1 := by
  intro tbl
  induction tbl with
  | nil => intro i k g _ hk; simp at hk
  | cons x xs ih =>
    intro i k g hlen hk hg hbefore
    simp only [List.length_cons] at hlen
    cases k with
    | zero =>
      simp only [List.getElem?_cons_zero, Option.some.injEq] at hk
      subst hk
      simp only [genre_index_loop, hg, Bool.not_false, if_true]
      omega
    | succ k =>
      have hx : strcasecmp name (chars x) = true := hbefore 0 x (by omega) (by simp)
      simp only [List.getElem?_cons_succ] at hk
      simp only [genre_index_loop, hx, Bool.not_true, Bool.false_eq_true, if_false]
      rw [show (i + 1) % 2 ^ 16 = i + 1 by omega,
        ih (i + 1) k g (by omega) hk hg
          (fun j e hj he => hbefore (j + 1) e (by omega) (by simpa using he))]
      omega

/-- C22: for every string `name`, `mp4p_genre_index_for_name` returns `k + 1`
for the first index `k` (counted from 0) at which the table entry equals
`name` when ASCII letter case is ignored, returns 0 when no entry does, and
returns the same id for two names that differ in letter case only. -/
theorem C22_genre_index_for_name (name : List Nat) :
    (∀ (k : Nat) (g : String), _genretbl[k]? = some g → strcasecmp name (chars g) = false →
        (∀ (j : Nat) (e : String), j < k → _genretbl[j]? = some e →
          strcasecmp name (chars e) = true) →
        mp4p_genre_index_for_name name = k + 1)
      ∧ ((∀ g ∈ _genretbl, strcasecmp name (chars g) = true) →
          mp4p_genre_index_for_name name = 0)
      ∧ (∀ name2 : List Nat, (strdup name2).map tolower = (strdup name).map tolower →
          mp4p_genre_index_for_name name2 = mp4p_genre_index_for_name name) := by
  refine ⟨?_, ?_, ?_⟩
  · intro k g hk hg hbefore
    unfold mp4p_genre_index_for_name
    rw [genre_index_loop_first name _genretbl 0 k g
      (by rw [genretbl_length]; norm_num) hk hg hbefore]
    omega
  · intro h
    exact genre_index_loop_none name _genretbl 0 h
  · intro name2 h
    exact genre_index_loop_congr name2 name h _genretbl 0

set_option maxRecDepth 8000 in
theorem C22_genre_index_for_name_witness :
    mp4p_genre_index_for_name (chars "cOUNTRY") = 2 + 1
      ∧ mp4p_genre_index_for_name (chars "COUNTRY") = mp4p_genre_index_for_name (chars "cOUNTRY") :=
  ⟨(C22_genre_index_for_name (chars "cOUNTRY")).1 2 "Country" rfl rfl
      (fun j e hj he => by
        match j, hj with
        | 0, _ =>
          have h0 : e = "Blues" := by
            have : _genretbl[0]? = some "Blues" := rfl
            rw [this] at he
            exact (Option.some.inj he).symm
          rw [h0]; rfl
        | 1, _ =>
          have h1 : e = "Classic Rock" := by
            have : _genretbl[1]? = some "Classic Rock" := rfl
            rw [this] at he
            exact (Option.some.inj he).symm
          rw [h1]; rfl),
   (C22_genre_index_for_name (chars "cOUNTRY")).2.2 (chars "COUNTRY") rfl⟩

/-! ## Reading tags: the `trkn` item -/

/-- C23: an item of type `trkn` that holds the 16-bit values
`[r, i, t, ...]` (no custom name, no text, `data_size >= 6`) makes
`mp4_load_tags` replace the tag `track` by the decimal text of `i` when `i`
is not zero and the tag `numtracks` by the decimal text of `t` when `t` is
not zero, after which the loop goes on with the next item; and a tree whose
`ilst` holds the one item `trkn` with values `[0, 5, 12]` gives `track` = 5
and `numtracks` = 12. -/
theorem C23_trkn_track_numtracks (meta_atom : Atom) (meta : mp4p_meta_t) (r i t : Nat)
    (rest : List Nat) (next : List Atom) (calls : List HostCall) (fuel : Nat)
    (ht : meta_atom.type.take 4 = chars "trkn") (hd : meta_atom.data = .meta meta)
    (hn : meta.name = none) (htx : meta.text = none)
    (hv : meta.values = some (r :: i :: t :: rest)) (hs : 6 ≤ meta.data_size) :
    load_tags_item meta_atom
        = .next ((if i ≠ 0 then [.pl_replace_meta (some (chars "track")) (decimal i)] else [])
            ++ (if t ≠ 0 then [.pl_replace_meta (some (chars "numtracks")) (decimal t)]
                else []))
      ∧ load_tags_loop (fuel + 1) (meta_atom :: next) calls
        = load_tags_loop fuel next
            (calls
              ++ ((if i ≠ 0 then [.pl_replace_meta (some (chars "track")) (decimal i)] else [])
                ++ (if t ≠ 0 then [.pl_replace_meta (some (chars "numtracks")) (decimal t)]
                    else [])))
      ∧ mp4_load_tags 2
          [Atom.mk 0 0 (chars "moov") .none none
            [Atom.mk 0 0 (chars "udta") .none none
              [Atom.mk 0 0 (chars "meta") .none none
                [Atom.mk 0 0 (chars "ilst") .none none
                  [Atom.mk 0 30 (chars "trkn") (.meta ⟨none, some [0, 5, 12], none, 6, 0, 0⟩)
                    (some Writer._meta_write) []]]]]]
        = .ret [.pl_replace_meta (some (chars "track")) (chars "5"),
            .pl_replace_meta (some (chars "numtracks")) (chars "12"),
            .pl_set_item_flags_itunes] := by
  have hitem : load_tags_item meta_atom
      = .next ((if i ≠ 0 then [.pl_replace_meta (some (chars "track")) (decimal i)] else [])
          ++ (if t ≠ 0 then [.pl_replace_meta (some (chars "numtracks")) (decimal t)]
              else [])) := by
    unfold load_tags_item
    rw [hd]
    simp only [load_tags_name_reads_past, hn, Option.getD_none, ht]
    rw [if_neg (by decide), if_neg (by decide), if_neg (by decide), if_neg (by decide),
      if_neg (by decide)]
    rw [show load_tags_lookup (chars "trkn") _mp4_atom_map 0 = some 16 from rfl]
    simp only [load_tags_matched, htx, hv, ht, if_true, load_tags_pair, ge_iff_le, hs,
      List.getElem?_cons_succ, List.getElem?_cons_zero]
  refine ⟨hitem, ?_, by decide⟩
  rw [load_tags_loop, hitem]

theorem C23_trkn_track_numtracks_witness :
    load_tags_item (ilst_track_disc_item (chars "trkn") 5 12)
      = .next [.pl_replace_meta (some (chars "track")) (chars "5"),
          .pl_replace_meta (some (chars "numtracks")) (chars "12")] :=
  (C23_trkn_track_numtracks (ilst_track_disc_item (chars "trkn") 5 12)
    ⟨none, some [0, 5, 12], none, 6, 0, 0⟩ 0 5 12 [] [] [] 0 rfl rfl rfl rfl rfl
    (by decide)).1

/-! ## Pointers: reading an atom after a change -/

theorem subatoms_setSubatoms (a : Atom) (c : List Atom) : (a.setSubatoms c).subatoms = c := by
  cases a; rfl

theorem update_entry_getElem? {α : Type} (f : α → α) :
    ∀ (l : List α) (i : Nat), (update_entry f l i)[i]? = (l[i]?).map f := by
  intro l
  induction l with
  | nil => intro i; rfl
  | cons x xs ih =>
    intro i
    cases i with
    | zero => simp [update_entry]
    | succ n =>
      simp only [update_entry, List.getElem?_cons_succ]
      exact ih n

theorem atom_at_modify_at (f : Atom → Atom) :
    ∀ (p : List Nat) (tree : List Atom),
      atom_at (modify_at f tree p) p = (atom_at tree p).map f := by
  intro p
  induction p with
  | nil => intro tree; rfl
  | cons i q ih =>
    intro tree
    cases q with
    | nil =>
      simp only [modify_at, atom_at]
      exact update_entry_getElem? f tree i
    | cons j q =>
      simp only [modify_at, atom_at]
      rw [update_entry_getElem?]
      cases h : tree[i]? with
      | none => rfl
      | some a =>
        simp only [Option.map_some']
        rw [subatoms_setSubatoms, ih]

theorem strlen_append_nul (v : List Nat) (rest : List Nat) (hv : ∀ c ∈ v, c ≠ 0) :
    strlen (v ++ 0 :: rest) = v.length := by
  unfold strlen
  induction v with
  | nil => rfl
  | cons x xs ih =>
    have hx : x ≠ 0 := hv x (List.mem_cons_self _ _)
    simp only [List.cons_append, List.takeWhile_cons, bne_iff_ne, ne_eq, hx, not_false_eq_true,
      if_true, List.length_cons, Nat.add_right_cancel_iff]
    exact ih (fun c hc => hv c (List.mem_cons_of_mem _ hc))

theorem strdup_append_nul (v : List Nat) (rest : List Nat) (hv : ∀ c ∈ v, c ≠ 0) :
    strdup (v ++ 0 :: rest) = v := by
  unfold strdup
  induction v with
  | nil => rfl
  | cons x xs ih =>
    have hx : x ≠ 0 := hv x (List.mem_cons_self _ _)
    simp only [List.cons_append, List.takeWhile_cons, bne_iff_ne, ne_eq, hx, not_false_eq_true,
      if_true, List.cons.injEq, true_and]
    exact ih (fun c hc => hv c (List.mem_cons_of_mem _ hc))

theorem modify_meta_values_nil (key : List Nat) (i : Nat) (ilst : List Nat) (fuel : Nat)
    (tree : List Atom) : modify_meta_values key i ilst fuel [] tree = tree := by
  cases fuel with
  | zero => rfl
  | succ n => simp [modify_meta_values]

/-! ## Pointers: the place `mp4p_atom_find` returns -/

theorem find_ptr_aux_ne_nil :
    ∀ (fuel : Nat) (root : List Atom) (path : List Nat),
      mp4p_atom_find_ptr_aux fuel root path ≠ some [] := by
  intro fuel root path h
  cases fuel with
  | zero => cases h
  | succ n =>
    unfold mp4p_atom_find_ptr_aux at h
    split at h
    · cases h
    · split at h
      · cases h
      · split at h
        · cases h
        · split at h
          · cases hq : mp4p_atom_find_ptr_aux n _ _ with
            | none => rw [hq] at h; cases h
            | some q => rw [hq] at h; cases h
          · cases h

theorem takeWhile_length_getElem? {α : Type} (p : α → Bool) :
    ∀ (l : List α) (a : α) (next : List α), l.dropWhile p = a :: next →
      l[(l.takeWhile p).length]? = some a := by
  intro l
  induction l with
  | nil => intro a next h; cases h
  | cons y ys ih =>
    intro a next h
    cases hp : p y with
    | true =>
      simp only [List.dropWhile, hp] at h
      simp only [List.takeWhile, hp, List.length_cons, List.getElem?_cons_succ]
      exact ih a next h
    | false =>
      simp only [List.dropWhile, hp] at h
      simp only [List.takeWhile, hp, List.length_nil, List.getElem?_cons_zero]
      exact congrArg some (List.cons.inj h).1

theorem atom_at_cons (l : List Atom) (k : Nat) (p : List Nat) (hp : p ≠ []) :
    atom_at l (k :: p) = (l[k]?).bind (fun a => atom_at a.subatoms p) := by
  cases p with
  | nil => exact absurd rfl hp
  | cons j q =>
    simp only [atom_at]
    cases l[k]? <;> rfl

theorem siblings_at_cons (l : List Atom) (k : Nat) (p : List Nat) (hp : p ≠ []) :
    siblings_at l (k :: p) = ((l[k]?).map (fun a => siblings_at a.subatoms p)).getD [] := by
  cases p with
  | nil => exact absurd rfl hp
  | cons j q =>
    simp only [siblings_at]
    cases l[k]? <;> rfl

/-- The atom at the place `mp4p_atom_find_ptr_aux` gives is the atom
`mp4p_atom_find_aux` returns. -/
theorem atom_find_ptr_atom :
    ∀ (fuel : Nat) (root : List Atom) (path : List Nat),
      (mp4p_atom_find_ptr_aux fuel root path).bind (atom_at root)
        = (mp4p_atom_find_aux fuel root path).head? := by
  intro fuel
  induction fuel with
  | zero => intro root path; rfl
  | succ n ih =>
    intro root path
    unfold mp4p_atom_find_ptr_aux mp4p_atom_find_aux
    by_cases hlen : path.length < 4
    · rw [if_pos hlen, if_pos hlen]; rfl
    rw [if_neg hlen, if_neg hlen]
    cases hdw : root.dropWhile (fun a => mp4p_fourcc_compare a.type path) with
    | nil => rfl
    | cons a next =>
      have hget := takeWhile_length_getElem? _ root a next hdw
      cases hrest : path.drop 4 with
      | nil =>
        simp only [Option.bind_some, atom_at, List.head?_cons]
        exact hget
      | cons c rest =>
        simp only
        by_cases hc : c = 47
        · rw [if_pos hc, if_pos hc, ← ih a.subatoms rest]
          cases hq : mp4p_atom_find_ptr_aux n a.subatoms rest with
          | none => rfl
          | some q =>
            have hne : q ≠ [] := by
              intro h0
              rw [h0] at hq
              exact find_ptr_aux_ne_nil _ _ _ hq
            show atom_at root (_ :: q) = atom_at a.subatoms q
            rw [atom_at_cons _ _ _ hne, hget]
            rfl
        · rw [if_neg hc, if_neg hc]; rfl

theorem atom_at_siblings :
    ∀ (q : List Nat) (tree : List Atom) (i r : Nat) (rs : List Nat),
      atom_at tree (q ++ (i + r) :: rs) = atom_at (siblings_at tree (q ++ [i])) (r :: rs) := by
  intro q
  induction q with
  | nil =>
    intro tree i r rs
    simp only [List.nil_append, siblings_at]
    cases rs with
    | nil => simp only [atom_at, List.getElem?_drop]
    | cons j rs => simp only [atom_at, List.getElem?_drop]
  | cons k q ih =>
    intro tree i r rs
    rw [List.cons_append, List.cons_append, atom_at_cons _ _ _ (by simp),
      siblings_at_cons _ _ _ (by simp)]
    cases tree[k]? with
    | none =>
      simp only [Option.bind_none, Option.map_none', Option.getD_none]
      cases rs <;> rfl
    | some a =>
      simp only [Option.bind_some, Option.map_some', Option.getD_some]
      exact ih a.subatoms i r rs

theorem find_ptr_nil (path : List Nat) : mp4p_atom_find_ptr [] path = none := by
  unfold mp4p_atom_find_ptr mp4p_atom_find_ptr_aux
  by_cases hlen : path.length < 4
  · rw [if_pos hlen]
  · rw [if_neg hlen]; rfl

/-- The atom at the place `mp4p_atom_find_from` gives is the atom
`mp4p_atom_find` returns when it is called on the atom `start` points to. -/
theorem atom_find_from_atom (tree : List Atom) (start path p : List Nat)
    (h : mp4p_atom_find_from tree start path = some p) :
    atom_at tree p = (mp4p_atom_find (siblings_at tree start) path).head? := by
  unfold mp4p_atom_find_from at h
  rcases List.eq_nil_or_concat start with h0 | ⟨q, i, hqi⟩
  · rw [h0] at h
    simp only [siblings_at, find_ptr_nil] at h
    cases h
  · cases hq : mp4p_atom_find_ptr (siblings_at tree start) path with
    | none => rw [hq] at h; cases h
    | some l =>
      rw [hq] at h
      cases l with
      | nil => cases h
      | cons r rs =>
        simp only [Option.some.injEq] at h
        rw [List.concat_eq_append] at hqi
        rw [← h, hqi, List.dropLast_concat, List.getLastD_concat, atom_at_siblings, ← hqi]
        have := atom_find_ptr_atom (path.length + 1) (siblings_at tree start) path
        unfold mp4p_atom_find_ptr at hq
        rw [hq] at this
        exact this

theorem find_meta_ilst_type (root : List Atom) (a : Atom)
    (h : (mp4p_atom_find root (chars "meta/ilst")).head? = some a) :
    a.type.take 4 = chars "ilst" := by
  cases hf : mp4p_atom_find root (chars "meta/ilst") with
  | nil => rw [hf] at h; cases h
  | cons x next =>
    rw [hf] at h
    simp only [List.head?_cons, Option.some.injEq] at h
    subst h
    have hc := atom_find_aux_chain _ root [chars "meta", chars "ilst"] x next
      (by decide) hf
    have ht := chain_last_type _ _ _ hc
    simp only [List.getLast?_cons_cons, List.getLast?_singleton, Option.some.injEq] at ht
    exact ht.symm

theorem remove_known_fields_loop_type :
    ∀ (l : List Atom) (ilst : Atom) (i : Nat) (r : Atom),
      _remove_known_fields_loop ilst l i = some r → r.type = ilst.type := by
  intro l
  induction l with
  | nil =>
    intro ilst i r h
    simp only [_remove_known_fields_loop, Option.some.injEq] at h
    rw [h]
  | cons a next ih =>
    intro ilst i r h
    unfold _remove_known_fields_loop at h
    split at h
    · split at h
      · rw [ih _ _ _ h]
        exact type_setSubatoms _ _
      · exact ih _ _ _ h
    · cases h

theorem atom_at_snoc :
    ∀ (p : List Nat) (tree : List Atom) (n : Nat), p ≠ [] →
      atom_at tree (p ++ [n]) = (atom_at tree p).bind (fun a => a.subatoms[n]?) := by
  intro p
  induction p with
  | nil => intro tree n h; exact absurd rfl h
  | cons k q ih =>
    intro tree n _
    rw [List.cons_append, atom_at_cons _ _ _ (by simp)]
    cases q with
    | nil =>
      simp only [List.nil_append, atom_at]
    | cons j q =>
      rw [atom_at_cons _ _ _ (by simp)]
      cases tree[k]? with
      | none => rfl
      | some a => exact ih a.subatoms n (by simp)

/-- The pointer `mp4p_atom_append` returns stands for the appended atom. -/
theorem atom_at_append_at (tree : List Atom) (parent : List Nat) (atom : Atom)
    (tree1 : List Atom) (q : List Nat) (h : append_at tree parent atom = some (tree1, q)) :
    atom_at tree1 q = some atom := by
  unfold append_at at h
  cases hp : atom_at tree parent with
  | none => rw [hp] at h; cases h
  | some P =>
    rw [hp] at h
    simp only [Option.some.injEq, Prod.mk.injEq] at h
    obtain ⟨h1, h2⟩ := h
    have hne : parent ≠ [] := by
      intro h0
      rw [h0] at hp
      cases hp
    rw [← h1, ← h2, atom_at_snoc _ _ _ hne, atom_at_modify_at, hp]
    show (mp4p_atom_append P atom).subatoms[P.subatoms.length]? = some atom
    rw [mp4p_atom_append, subatoms_setSubatoms]
    exact List.getElem?_concat_length _ _

/-! ## Writing tags: the pointer `ilst` -/

theorem modify_meta_ilst_atom (tree : List Atom) (meta : List Nat) (ilst : Option (List Nat))
    (t : List Atom) (p : List Nat) (h : modify_meta_ilst tree meta ilst = some (t, p))
    (hfound : ∀ q, ilst = some q → ∀ a, atom_at tree q = some a → a.type.take 4 = chars "ilst") :
    ∃ I, atom_at t p = some I ∧ I.type.take 4 = chars "ilst" := by
  unfold modify_meta_ilst at h
  cases ilst with
  | some q =>
    simp only at h
    cases ha : atom_at tree q with
    | none => rw [ha] at h; cases h
    | some a =>
      rw [ha] at h
      simp only at h
      cases hr : _remove_known_fields a with
      | none => rw [hr] at h; cases h
      | some a1 =>
        rw [hr] at h
        simp only [Option.some.injEq, Prod.mk.injEq] at h
        obtain ⟨h1, h2⟩ := h
        refine ⟨a1, ?_, ?_⟩
        · rw [← h1, ← h2, atom_at_modify_at, ha]; rfl
        · rw [remove_known_fields_loop_type _ _ _ _ hr]
          exact hfound q rfl a ha
  | none =>
    simp only at h
    exact ⟨_, atom_at_append_at _ _ _ _ _ h, rfl⟩

theorem modify_meta_meta_atom (tree : List Atom) (udta : List Nat) (meta : Option (List Nat))
    (t : List Atom) (p : List Nat) (h : modify_meta_meta tree udta meta = some (t, p)) :
    ∃ I, atom_at t p = some I ∧ I.type.take 4 = chars "ilst" := by
  unfold modify_meta_meta at h
  cases meta with
  | some m =>
    simp only at h
    refine modify_meta_ilst_atom _ _ _ _ _ h ?_
    intro q hq a ha
    rw [atom_find_from_atom _ _ _ _ hq] at ha
    exact find_meta_ilst_type _ _ ha
  | none =>
    simp only at h
    cases hap : append_at tree udta (mp4p_atom_new (chars "meta")) with
    | none => rw [hap] at h; cases h
    | some r =>
      obtain ⟨tree1, m⟩ := r
      rw [hap] at h
      exact modify_meta_ilst_atom _ _ _ _ _ h (fun q hq => by cases hq)

/-- The pointer `ilst` that the lines 116 to 136 of `mp4tagutil_modify_meta`
end with stands for an atom of type `ilst`. -/
theorem modify_meta_locate_atom (mp4file : List Atom) (t : List Atom) (p : List Nat)
    (h : modify_meta_locate mp4file = some (t, p)) :
    ∃ I, atom_at t p = some I ∧ I.type.take 4 = chars "ilst" := by
  unfold modify_meta_locate at h
  cases hu : mp4p_atom_find_ptr mp4file (chars "moov/udta") with
  | some udta =>
    rw [hu] at h
    exact modify_meta_meta_atom _ _ _ _ _ h
  | none =>
    rw [hu] at h
    simp only at h
    cases hap : append_at mp4file [0] (mp4p_atom_new (chars "udta")) with
    | none => rw [hap] at h; cases h
    | some r =>
      obtain ⟨tree1, u⟩ := r
      rw [hap] at h
      exact modify_meta_meta_atom _ _ _ _ _ h

theorem find_ptr_none_of_find_nil (root : List Atom) (path : List Nat)
    (h : mp4p_atom_find root path = []) : mp4p_atom_find_ptr root path = none := by
  have := atom_find_ptr_atom (path.length + 1) root path
  unfold mp4p_atom_find at h
  rw [h] at this
  unfold mp4p_atom_find_ptr
  cases hq : mp4p_atom_find_ptr_aux (path.length + 1) root path with
  | none => rfl
  | some q =>
    exfalso
    rw [hq] at this
    simp only [Option.bind_some, List.head?_nil] at this
    -- the place found always holds an atom
    have hsome : ∀ (fuel : Nat) (root : List Atom) (path q : List Nat),
        mp4p_atom_find_ptr_aux fuel root path = some q → (atom_at root q).isSome = true := by
      intro fuel
      induction fuel with
      | zero => intro root path q h; cases h
      | succ n ih =>
        intro root path q h
        unfold mp4p_atom_find_ptr_aux at h
        split at h
        · cases h
        · split at h
          · cases h
          · rename_i a next hdw
            have hget := takeWhile_length_getElem? _ root a next hdw
            split at h
            · simp only [Option.some.injEq] at h
              rw [← h]
              simp only [atom_at, hget, Option.isSome_some]
            · split at h
              · cases hq1 : mp4p_atom_find_ptr_aux n a.subatoms _ with
                | none => rw [hq1] at h; cases h
                | some q1 =>
                  rw [hq1] at h
                  simp only [Option.map_some', Option.some.injEq] at h
                  have hne : q1 ≠ [] := by
                    intro h0
                    rw [h0] at hq1
                    exact find_ptr_aux_ne_nil _ _ _ hq1
                  rw [← h, atom_at_cons _ _ _ hne, hget]
                  exact ih _ _ _ hq1
              · cases h
    have := hsome _ _ _ _ hq
    rw [‹atom_at root q = none›] at this
    cases this

/-! ## Writing tags: the item for `artist` -/

theorem modify_meta_fields_artist (ilst : List Nat) (tree : List Atom) (v : List Nat)
    (hv : ∀ c ∈ v, c ≠ 0) (hlen : v.length < 2 ^ 31) :
    modify_meta_fields ilst [⟨chars "artist", v ++ [0]⟩] tree
      = some (modify_at (fun a => mp4p_atom_append a
            (Atom.mk 0 (24 + v.length) (COPYRIGHT_SYM ++ chars "art")
              (.meta ⟨none, none, some v, v.length, 0, 1⟩) (some Writer._meta_write) []))
          tree ilst) := by
  have hlook : modify_meta_lookup (chars "artist") _mp4_atom_map 0 = some 2 := rfl
  have hcode : _mp4_atom_map[2]? = some (COPYRIGHT_SYM ++ chars "art") := rfl
  have hne : v ++ [0] ≠ [] := by simp
  have hitem : ilst_text_item (COPYRIGHT_SYM ++ chars "art") (v ++ [0])
      = Atom.mk 0 (24 + v.length) (COPYRIGHT_SYM ++ chars "art")
          (.meta ⟨none, none, some v, v.length, 0, 1⟩) (some Writer._meta_write) [] := by
    unfold ilst_text_item
    rw [strlen_append_nul v [] hv, strdup_append_nul v [] hv,
      Nat.mod_eq_of_lt (show v.length < 2 ^ 32 by omega),
      Nat.mod_eq_of_lt (show 24 + v.length < 2 ^ 32 by omega)]
    rfl
  have hdrop : (v ++ [0]).drop (v.length + 1) = [] :=
    List.drop_eq_nil_of_le (by simp)
  unfold modify_meta_fields
  dsimp only
  rw [if_neg (by decide), if_neg (by decide)]
  simp only [hlook, List.length_append, List.length_singleton, modify_meta_values, hne,
    if_false, hcode, strlen_append_nul v [] hv, hdrop, modify_meta_values_nil]
  rw [if_neg (by decide)]
  simp only [mp4p_ilst_append_text, hitem, modify_meta_fields]

theorem modify_meta_derived_none (it : DB_playItem_t) (ilst : List Nat) (tree : List Atom)
    (hfind : ∀ key, key ∈ [chars "genre", chars "track", chars "numtracks", chars "disc",
        chars "numdiscs"] ++ ddb_internal_rg_keys → it.pl_find_meta key = none) :
    modify_meta_replaygain it (ddb_internal_rg_keys.zip tag_rg_names) 0
        (modify_meta_track_disc it (modify_meta_genre it ilst tree)) = tree := by
  have h1 : it.pl_find_meta (chars "genre") = none := hfind _ (by decide)
  have h2 : it.pl_find_meta (chars "track") = none := hfind _ (by decide)
  have h3 : it.pl_find_meta (chars "numtracks") = none := hfind _ (by decide)
  have h4 : it.pl_find_meta (chars "disc") = none := hfind _ (by decide)
  have h5 : it.pl_find_meta (chars "numdiscs") = none := hfind _ (by decide)
  have h6 : it.pl_find_meta (chars ":REPLAYGAIN_ALBUMGAIN") = none := hfind _ (by decide)
  have h7 : it.pl_find_meta (chars ":REPLAYGAIN_ALBUMPEAK") = none := hfind _ (by decide)
  have h8 : it.pl_find_meta (chars ":REPLAYGAIN_TRACKGAIN") = none := hfind _ (by decide)
  have h9 : it.pl_find_meta (chars ":REPLAYGAIN_TRACKPEAK") = none := hfind _ (by decide)
  simp only [modify_meta_genre, modify_meta_track_disc, h1, h2, h3, h4, h5, ne_eq,
    not_true_eq_false, or_self, if_false, ddb_internal_rg_keys, tag_rg_names, List.zip_cons_cons,
    List.zip_nil_right, modify_meta_replaygain, h6, h7, h8, h9, Option.isSome_none,
    Bool.false_eq_true]

theorem modify_meta_locate_new (p s : Nat) (t : List Nat) (d : Payload) (w : Option Writer)
    (c rest : List Atom)
    (h : mp4p_atom_find (Atom.mk p s t d w c :: rest) (chars "moov/udta") = []) :
    modify_meta_locate (Atom.mk p s t d w c :: rest)
      = some (Atom.mk p s t d w (c ++ [Atom.mk 0 0 (chars "udta") .none none
            [Atom.mk 0 0 (chars "meta") .none none
              [Atom.mk 0 0 (chars "ilst") .none none []]]]) :: rest,
          [0, c.length, 0, 0]) := by
  unfold modify_meta_locate
  rw [find_ptr_none_of_find_nil _ _ h]
  simp only [append_at, atom_at, modify_at, update_entry, List.getElem?_cons_zero,
    mp4p_atom_append, Atom.subatoms, Atom.setSubatoms, modify_meta_meta, modify_meta_ilst,
    List.getElem?_concat_length, update_entry_append, List.cons_append, List.nil_append,
    List.length_nil, mp4p_atom_new]
  rfl

/-- C24: for every value string `v` (a C string, of a length an `int` holds),
writing the tag record whose one field is `artist` = `v` appends to the
children of the atom `ilst` points to — an atom of type `ilst` — an item of
type 0xA9 'a' 'r' 't' with text `v`, type flag 1 and declared size
`24 + length(v)`. When the first `moov` has no `udta` (no metadata yet), the
call makes `udta`, `meta` and `ilst`, the one under the other, below the
first top-level atom, and the item is the only child of that `ilst`. -/
theorem C24_artist_text_item (it : DB_playItem_t) (v : List Nat)
    (hrec : it.meta = [⟨chars "artist", v ++ [0]⟩])
    (hfind : ∀ key, strcasecmp key (chars "artist") = true → it.pl_find_meta key = none)
    (hv : ∀ c ∈ v, c ≠ 0) (hlen : v.length < 2 ^ 31) :
    (∀ (mp4file tree : List Atom) (ilst : List Nat),
        modify_meta_locate mp4file = some (tree, ilst) →
        ∃ I, atom_at tree ilst = some I ∧ I.type.take 4 = chars "ilst"
          ∧ mp4tagutil_modify_meta mp4file it
            = some (modify_at (fun a => mp4p_atom_append a
                (Atom.mk 0 (24 + v.length) (COPYRIGHT_SYM ++ chars "art")
                  (.meta ⟨none, none, some v, v.length, 0, 1⟩) (some Writer._meta_write) []))
              tree ilst)
          ∧ atom_at (modify_at (fun a => mp4p_atom_append a
                (Atom.mk 0 (24 + v.length) (COPYRIGHT_SYM ++ chars "art")
                  (.meta ⟨none, none, some v, v.length, 0, 1⟩) (some Writer._meta_write) []))
              tree ilst) ilst
            = some (I.setSubatoms (I.subatoms
                ++ [Atom.mk 0 (24 + v.length) (COPYRIGHT_SYM ++ chars "art")
                  (.meta ⟨none, none, some v, v.length, 0, 1⟩) (some Writer._meta_write) []])))
      ∧ (∀ (first : Atom) (rest : List Atom),
          mp4p_atom_find (first :: rest) (chars "moov/udta") = [] →
          mp4tagutil_modify_meta (first :: rest) it
            = some (mp4p_atom_append first
                (Atom.mk 0 0 (chars "udta") .none none
                  [Atom.mk 0 0 (chars "meta") .none none
                    [Atom.mk 0 0 (chars "ilst") .none none
                      [Atom.mk 0 (24 + v.length) (COPYRIGHT_SYM ++ chars "art")
                        (.meta ⟨none, none, some v, v.length, 0, 1⟩)
                        (some Writer._meta_write) []]]]) :: rest)) := by
  have hderived : ∀ (ilst : List Nat) (tree : List Atom),
      modify_meta_replaygain it (ddb_internal_rg_keys.zip tag_rg_names) 0
        (modify_meta_track_disc it (modify_meta_genre it ilst tree)) = tree := by
    intro ilst tree
    refine modify_meta_derived_none it ilst tree ?_
    intro key hkey
    refine hfind key ?_
    simp only [ddb_internal_rg_keys, List.cons_append, List.nil_append, List.mem_cons,
      List.mem_singleton, List.not_mem_nil, or_false] at hkey
    rcases hkey with h | h | h | h | h | h | h | h | h <;> (rw [h]; decide)
  have hrun : ∀ (mp4file tree : List Atom) (ilst : List Nat),
      modify_meta_locate mp4file = some (tree, ilst) →
      mp4tagutil_modify_meta mp4file it
        = some (modify_at (fun a => mp4p_atom_append a
            (Atom.mk 0 (24 + v.length) (COPYRIGHT_SYM ++ chars "art")
              (.meta ⟨none, none, some v, v.length, 0, 1⟩) (some Writer._meta_write) []))
          tree ilst) := by
    intro mp4file tree ilst hloc
    unfold mp4tagutil_modify_meta
    rw [hloc]
    simp only [hrec, modify_meta_fields_artist ilst tree v hv hlen, hderived]
  constructor
  · intro mp4file tree ilst hloc
    obtain ⟨I, hI, hty⟩ := modify_meta_locate_atom mp4file tree ilst hloc
    refine ⟨I, hI, hty, hrun mp4file tree ilst hloc, ?_⟩
    rw [atom_at_modify_at, hI]
    rfl
  · intro first rest hnone
    obtain ⟨p, s, t, d, w, c⟩ := first
    rw [hrun _ _ _ (modify_meta_locate_new p s t d w c rest hnone)]
    simp only [atom_at, modify_at, update_entry, List.getElem?_cons_zero,
      mp4p_atom_append, Atom.subatoms, Atom.setSubatoms,
      List.getElem?_concat_length, update_entry_append, List.cons_append, List.nil_append,
      List.length_nil]

theorem C24_artist_text_item_witness :
    mp4tagutil_modify_meta [Atom.mk 0 8 (chars "moov") .none none []]
        (tag_record [⟨chars "artist", chars "Test Artist" ++ [0]⟩])
      = some [Atom.mk 0 8 (chars "moov") .none none
          [Atom.mk 0 0 (chars "udta") .none none
            [Atom.mk 0 0 (chars "meta") .none none
              [Atom.mk 0 0 (chars "ilst") .none none
                [Atom.mk 0 35 [0xa9, 97, 114, 116]
                  (.meta ⟨none, none, some (chars "Test Artist"), 11, 0, 1⟩)
                  (some Writer._meta_write) []]]]]] :=
  (C24_artist_text_item (tag_record [⟨chars "artist", chars "Test Artist" ++ [0]⟩])
    (chars "Test Artist") rfl
    (fun key h => by simp [tag_record, List.find?, h])
    (by decide) (by decide)).2 (Atom.mk 0 8 (chars "moov") .none none []) [] rfl

/-! ## The tag map at its entries `trkn`, `track` `disk`, `disc` -/

/-- C25 (evaluation at the failing input): in `_mp4_atom_map` the literals
`"track" "disk"` stand without a comma between them, so from `trkn` on the
codes and the names change places. The read-side lookup finds nothing for
the codes 0xA9 'w' 'r' 't' and `disk` and gives `trackdisk` for `trkn`; the
write-side lookup for the names `composer` and `bpm`, and for a key that is
in no pair, runs to the entry whose partner is `NULL` and passes that `NULL`
to `strcasecmp`. On whole trees: an item 0xA9 'w' 'r' 't' with text "Bach" is
read without any tag being set, and writing the field `composer` = "Bach"
ends in the invalid access. -/
theorem C25_tag_map_shifted :
    load_tags_lookup (COPYRIGHT_SYM ++ chars "wrt") _mp4_atom_map 0 = none
      ∧ load_tags_lookup (chars "disk") _mp4_atom_map 0 = none
      ∧ (load_tags_lookup (chars "trkn") _mp4_atom_map 0).bind (fun i => _mp4_atom_map[i + 1]?)
        = some (chars "trackdisk")
      ∧ modify_meta_lookup (chars "composer") _mp4_atom_map 0 = none
      ∧ modify_meta_lookup (chars "bpm") _mp4_atom_map 0 = none
      ∧ modify_meta_lookup (chars "mood") _mp4_atom_map 0 = none
      ∧ mp4_load_tags 3
          [Atom.mk 0 0 (chars "moov") .none none
            [Atom.mk 0 0 (chars "udta") .none none
              [Atom.mk 0 0 (chars "meta") .none none
                [Atom.mk 0 0 (chars "ilst") .none none
                  [Atom.mk 0 28 (COPYRIGHT_SYM ++ chars "wrt")
                    (.meta ⟨none, none, some (chars "Bach"), 4, 0, 1⟩)
                    (some Writer._meta_write) []]]]]]
        = .ret [.pl_set_item_flags_itunes]
      ∧ mp4tagutil_modify_meta
          [Atom.mk 0 0 (chars "moov") .none none
            [Atom.mk 0 0 (chars "udta") .none none
              [Atom.mk 0 0 (chars "meta") .none none
                [Atom.mk 0 0 (chars "ilst") .none none []]]]]
          (tag_record [⟨chars "composer", chars "Bach" ++ [0]⟩]) = none :=
  ⟨rfl, rfl, rfl, rfl, rfl, rfl, rfl, rfl⟩

/-! ## Writing tags: where the new atoms go -/

/-- C26 (evaluation at the failing input): a file of an `ftyp` box and an
empty `moov` box is parsed into two top-level atoms; `mp4tagutil_modify_meta`
appends the new `udta` to `mp4file`, the `ftyp` atom, and the lookup of
`moov/udta/meta/ilst` in the tree after the call finds nothing. -/
theorem C26_udta_appended_to_first_atom :
    mp4p_open 3 ⟨[0, 0, 0, 24, 102, 116, 121, 112, 77, 52, 65, 32, 0, 0, 0, 0, 77, 52, 65, 32,
        109, 112, 52, 50, 0, 0, 0, 8, 109, 111, 111, 118], 0⟩
      = some ([Atom.mk 0 24 (chars "ftyp")
            (.mtyp ⟨chars "M4A ", [0, 0, 0, 0], chars "M4A ", chars "mp42"⟩) none [],
          Atom.mk 24 8 (chars "moov") .none none []],
          ⟨[0, 0, 0, 24, 102, 116, 121, 112, 77, 52, 65, 32, 0, 0, 0, 0, 77, 52, 65, 32,
            109, 112, 52, 50, 0, 0, 0, 8, 109, 111, 111, 118], 32⟩)
      ∧ mp4tagutil_modify_meta
          [Atom.mk 0 24 (chars "ftyp")
            (.mtyp ⟨chars "M4A ", [0, 0, 0, 0], chars "M4A ", chars "mp42"⟩) none [],
          Atom.mk 24 8 (chars "moov") .none none []] (tag_record [])
        = some [Atom.mk 0 24 (chars "ftyp")
            (.mtyp ⟨chars "M4A ", [0, 0, 0, 0], chars "M4A ", chars "mp42"⟩) none
            [Atom.mk 0 0 (chars "udta") .none none
              [Atom.mk 0 0 (chars "meta") .none none
                [Atom.mk 0 0 (chars "ilst") .none none []]]],
          Atom.mk 24 8 (chars "moov") .none none []]
      ∧ mp4p_atom_find
          [Atom.mk 0 24 (chars "ftyp")
            (.mtyp ⟨chars "M4A ", [0, 0, 0, 0], chars "M4A ", chars "mp42"⟩) none
            [Atom.mk 0 0 (chars "udta") .none none
              [Atom.mk 0 0 (chars "meta") .none none
                [Atom.mk 0 0 (chars "ilst") .none none []]]],
          Atom.mk 24 8 (chars "moov") .none none []] (chars "moov/udta/meta/ilst") = [] :=
  ⟨rfl, rfl, rfl⟩

/-- C27 (evaluation at the failing input): of the three children `disk`
(values 0, 1, 2), `year` (text "1999") and `xxxx` (text "1999") of an `ilst`,
`_remove_known_fields` keeps `disk`, whose code stands in no entry of the
map since `"track" "disk"` is one string, and removes `year`, which is the
name of the pair of 0xA9 'd' 'a' 'y': the loop steps through codes and names
alike. -/
theorem C27_remove_known_fields_keeps_disk :
    _remove_known_fields
        (Atom.mk 0 0 (chars "ilst") .none none
          [Atom.mk 0 30 (chars "disk") (.meta ⟨none, some [0, 1, 2], none, 6, 0, 0⟩)
            (some Writer._meta_write) [],
           Atom.mk 0 28 (chars "year") (.meta ⟨none, none, some (chars "1999"), 4, 0, 1⟩)
            (some Writer._meta_write) [],
           Atom.mk 0 28 (chars "xxxx") (.meta ⟨none, none, some (chars "1999"), 4, 0, 1⟩)
            (some Writer._meta_write) []])
      = some (Atom.mk 0 0 (chars "ilst") .none none
          [Atom.mk 0 30 (chars "disk") (.meta ⟨none, some [0, 1, 2], none, 6, 0, 0⟩)
            (some Writer._meta_write) [],
           Atom.mk 0 28 (chars "xxxx") (.meta ⟨none, none, some (chars "1999"), 4, 0, 1⟩)
            (some Writer._meta_write) []]) :=
  rfl

/-- C28 (evaluation at the failing input): the tree has `ftyp` and a `moov`
with an empty `udta/meta/ilst`. For the record track = 5, numtracks = 12 the
item made is appended to `mp4file`, the `ftyp` atom, and the `ilst` stays
empty; so is the custom item made for the replay-gain track gain. -/
theorem C28_items_appended_to_first_atom :
    mp4tagutil_modify_meta
        [Atom.mk 0 8 (chars "ftyp") .none none [],
         Atom.mk 8 32 (chars "moov") .none none
          [Atom.mk 16 24 (chars "udta") .none none
            [Atom.mk 24 16 (chars "meta") .none none
              [Atom.mk 32 8 (chars "ilst") .none none []]]]]
        (tag_record [⟨chars "track", chars "5" ++ [0]⟩, ⟨chars "numtracks", chars "12" ++ [0]⟩])
      = some [Atom.mk 0 8 (chars "ftyp") .none none
          [Atom.mk 0 30 (chars "trck") (.meta ⟨none, some [0, 5, 12], none, 6, 0, 0⟩)
            (some Writer._meta_write) []],
         Atom.mk 8 32 (chars "moov") .none none
          [Atom.mk 16 24 (chars "udta") .none none
            [Atom.mk 24 16 (chars "meta") .none none
              [Atom.mk 32 8 (chars "ilst") .none none []]]]]
      ∧ mp4tagutil_modify_meta
        [Atom.mk 0 8 (chars "ftyp") .none none [],
         Atom.mk 8 32 (chars "moov") .none none
          [Atom.mk 16 24 (chars "udta") .none none
            [Atom.mk 24 16 (chars "meta") .none none
              [Atom.mk 32 8 (chars "ilst") .none none []]]]]
        ⟨[⟨chars ":REPLAYGAIN_TRACKGAIN", chars "-3.50 dB" ++ [0]⟩],
          fun key => if key = chars ":REPLAYGAIN_TRACKGAIN" then some (chars "-3.50 dB")
            else none,
          fun _ => chars "-3.500000"⟩
      = some [Atom.mk 0 8 (chars "ftyp") .none none
          [Atom.mk 0 94 (chars "----")
            (.meta ⟨some (chars "replaygain_track_gain"), none, some (chars "-3.500000"), 9, 0, 0⟩)
            (some Writer._meta_write) []],
         Atom.mk 8 32 (chars "moov") .none none
          [Atom.mk 16 24 (chars "udta") .none none
            [Atom.mk 24 16 (chars "meta") .none none
              [Atom.mk 32 8 (chars "ilst") .none none []]]]] :=
  ⟨rfl, rfl⟩

/-- C29 (evaluation at the failing input): on a tree whose `moov` is the
first atom and has an empty `udta/meta/ilst`, the record
[":URI" = "x", "artist" = "A"] leaves the tree as it was: the loop over the
fields ends (`break`) at the field with the reserved prefix, and the field
`artist` after it yields no item; the record ["artist" = "A"] yields its
item. The record ["composer" = "Bach"], whose key has no reserved prefix,
yields no item either: the lookup of the key ends in an invalid access. -/
theorem C29_fields_after_reserved_key :
    mp4tagutil_modify_meta
        [Atom.mk 0 32 (chars "moov") .none none
          [Atom.mk 8 24 (chars "udta") .none none
            [Atom.mk 16 16 (chars "meta") .none none
              [Atom.mk 24 8 (chars "ilst") .none none []]]]]
        (tag_record [⟨chars ":URI", chars "x" ++ [0]⟩, ⟨chars "artist", chars "A" ++ [0]⟩])
      = some [Atom.mk 0 32 (chars "moov") .none none
          [Atom.mk 8 24 (chars "udta") .none none
            [Atom.mk 16 16 (chars "meta") .none none
              [Atom.mk 24 8 (chars "ilst") .none none []]]]]
      ∧ mp4tagutil_modify_meta
        [Atom.mk 0 32 (chars "moov") .none none
          [Atom.mk 8 24 (chars "udta") .none none
            [Atom.mk 16 16 (chars "meta") .none none
              [Atom.mk 24 8 (chars "ilst") .none none []]]]]
        (tag_record [⟨chars "artist", chars "A" ++ [0]⟩])
      = some [Atom.mk 0 32 (chars "moov") .none none
          [Atom.mk 8 24 (chars "udta") .none none
            [Atom.mk 16 16 (chars "meta") .none none
              [Atom.mk 24 8 (chars "ilst") .none none
                [Atom.mk 0 25 (COPYRIGHT_SYM ++ chars "art")
                  (.meta ⟨none, none, some (chars "A"), 1, 0, 1⟩)
                  (some Writer._meta_write) []]]]]]
      ∧ mp4tagutil_modify_meta
        [Atom.mk 0 32 (chars "moov") .none none
          [Atom.mk 8 24 (chars "udta") .none none
            [Atom.mk 16 16 (chars "meta") .none none
              [Atom.mk 24 8 (chars "ilst") .none none []]]]]
        (tag_record [⟨chars "composer", chars "Bach" ++ [0]⟩]) = none :=
  ⟨rfl, rfl, rfl⟩

/-- C30 (evaluation at the failing input): for the record track = 5,
numtracks = 12, disc = 1, numdiscs = 2 on a tree whose `moov` is the first
atom and has an empty `udta/meta/ilst`, the two items made are appended to
`moov`, not to the `ilst`; the first has the type `trck`, not `trkn`, and
the second, `disk`, holds the values [0, 5, 12] of the track, not
[0, 1, 2]. `mp4_load_tags` on the tree after the call makes no host call:
none of track, numtracks, disc, numdiscs is read back. And a `disk` item
with the values [0, 1, 2] that stands in the `ilst` is read without `disc` or
`numdiscs` being set. -/
theorem C30_track_disc_items :
    mp4tagutil_modify_meta
        [Atom.mk 0 32 (chars "moov") .none none
          [Atom.mk 8 24 (chars "udta") .none none
            [Atom.mk 16 16 (chars "meta") .none none
              [Atom.mk 24 8 (chars "ilst") .none none []]]]]
        (tag_record [⟨chars "track", chars "5" ++ [0]⟩, ⟨chars "numtracks", chars "12" ++ [0]⟩,
          ⟨chars "disc", chars "1" ++ [0]⟩, ⟨chars "numdiscs", chars "2" ++ [0]⟩])
      = some [Atom.mk 0 32 (chars "moov") .none none
          [Atom.mk 8 24 (chars "udta") .none none
            [Atom.mk 16 16 (chars "meta") .none none
              [Atom.mk 24 8 (chars "ilst") .none none []]],
           Atom.mk 0 30 (chars "trck") (.meta ⟨none, some [0, 5, 12], none, 6, 0, 0⟩)
            (some Writer._meta_write) [],
           Atom.mk 0 30 (chars "disk") (.meta ⟨none, some [0, 5, 12], none, 6, 0, 0⟩)
            (some Writer._meta_write) []]]
      ∧ mp4_load_tags 3
        [Atom.mk 0 32 (chars "moov") .none none
          [Atom.mk 8 24 (chars "udta") .none none
            [Atom.mk 16 16 (chars "meta") .none none
              [Atom.mk 24 8 (chars "ilst") .none none []]],
           Atom.mk 0 30 (chars "trck") (.meta ⟨none, some [0, 5, 12], none, 6, 0, 0⟩)
            (some Writer._meta_write) [],
           Atom.mk 0 30 (chars "disk") (.meta ⟨none, some [0, 5, 12], none, 6, 0, 0⟩)
            (some Writer._meta_write) []]] = .ret []
      ∧ mp4_load_tags 3
        [Atom.mk 0 32 (chars "moov") .none none
          [Atom.mk 8 24 (chars "udta") .none none
            [Atom.mk 16 16 (chars "meta") .none none
              [Atom.mk 24 8 (chars "ilst") .none none
                [Atom.mk 0 30 (chars "disk") (.meta ⟨none, some [0, 1, 2], none, 6, 0, 0⟩)
                  (some Writer._meta_write) []]]]]] = .ret [.pl_set_item_flags_itunes] :=
  ⟨rfl, rfl, rfl⟩

/-! ## The removal step as a filter -/

theorem eraseIdx_length_append {α : Type} (a : α) (post : List α) :
    ∀ pre : List α, (pre ++ a :: post).eraseIdx pre.length = pre ++ post := by
  intro pre
  induction pre with
  | nil => rfl
  | cons x xs ih =>
    simp only [List.cons_append, List.length_cons, List.eraseIdx_cons_succ, ih]

/-- The test of the removal step on one child: its payload is a metadata item
that has a custom name, or its type equals an entry of the map, code or
name, letter case ignored. -/
theorem remove_known_test_iff (meta : mp4p_meta_t) (type : List Nat) :
    ∀ l : List (List Nat), l ≠ [] →
      (remove_known_test meta type l = true
        ↔ meta.name.isSome = true ∨ ∃ e ∈ l, strcasecmp (type.take 4) e = false) := by
  intro l
  induction l with
  | nil => intro h; exact absurd rfl h
  | cons e es ih =>
    intro _
    unfold remove_known_test
    by_cases hn : meta.name.isSome = true
    · simp [hn]
    · have hn1 : meta.name.isSome = false := by simpa using hn
      by_cases he : strcasecmp (type.take 4) e = false
      · simp [hn1, he]
      · have he1 : strcasecmp (type.take 4) e = true := by simpa using he
        cases es with
        | nil => simp [hn1, he1, remove_known_test]
        | cons e2 es2 =>
          have := ih (by simp)
          simp only [hn1, he1, Bool.not_true, Bool.or_self, Bool.false_eq_true, if_false, this,
            false_or, List.mem_cons, exists_eq_or_imp, Bool.true_eq_false]

/-- When every child of `ilst` is a metadata item, `_remove_known_fields`
leaves the children that fail the test of the removal step, in their
order. -/
theorem remove_known_fields_loop_filter :
    ∀ (l : List Atom) (ilst : Atom) (pre : List Atom),
      ilst.subatoms = pre ++ l → (∀ a ∈ l, ∃ m, a.data = .meta m) →
      _remove_known_fields_loop ilst l pre.length
        = some (ilst.setSubatoms (pre ++ l.filter (fun a =>
            match a.data with
            | .meta m => !remove_known_test m a.type _mp4_atom_map
            | _ => true))) := by
  intro l
  induction l with
  | nil =>
    intro ilst pre h _
    simp only [_remove_known_fields_loop, List.filter_nil, ← h]
    cases ilst; rfl
  | cons a next ih =>
    intro ilst pre h hm
    obtain ⟨m, hd⟩ := hm a (List.mem_cons_self _ _)
    have hm2 : ∀ b ∈ next, ∃ m, b.data = .meta m :=
      fun b hb => hm b (List.mem_cons_of_mem _ hb)
    unfold _remove_known_fields_loop
    rw [hd]
    simp only
    by_cases ht : remove_known_test m a.type _mp4_atom_map = true
    · rw [if_pos ht]
      have hsub : (mp4p_atom_remove_subatom ilst pre.length).subatoms = pre ++ next := by
        rw [mp4p_atom_remove_subatom, subatoms_setSubatoms, h, eraseIdx_length_append]
      rw [ih _ pre hsub hm2]
      simp only [List.filter_cons, hd, ht, Bool.not_true, Bool.false_eq_true, if_false]
      cases ilst; rfl
    · rw [if_neg ht]
      have hsub : ilst.subatoms = (pre ++ [a]) ++ next := by rw [h]; simp
      have := ih ilst (pre ++ [a]) hsub hm2
      simp only [List.length_append, List.length_singleton] at this
      rw [this]
      have ht1 : remove_known_test m a.type _mp4_atom_map = false := by simpa using ht
      simp only [List.filter_cons, hd, ht1, Bool.not_false, if_true, List.append_assoc,
        List.singleton_append]

/-! ## Sample table queries: `stts` beyond the last sample -/

theorem stts_sample_duration_loop_beyond :
    ∀ (entries : List mp4p_stts_entry_t) (n sample : Nat),
      n + (entries.map (·.sample_count)).sum < 2 ^ 32 →
      n + (entries.map (·.sample_count)).sum < sample →
      stts_sample_duration_loop entries n sample = 0 := by
  intro entries
  induction entries with
  | nil => intro n sample _ _; rfl
  | cons e es ih =>
    intro n sample h32 hlt
    simp only [List.map_cons, List.sum_cons] at h32 hlt
    have hmod : (n + e.sample_count) % 2 ^ 32 = n + e.sample_count :=
      Nat.mod_eq_of_lt (by omega)
    simp only [stts_sample_duration_loop, hmod]
    rw [if_neg (by omega)]
    exact ih _ _ (by omega) (by omega)

/-- C36: for every stts table whose total sample count is below 2^32 and
every `sample` greater than that total, `mp4p_stts_sample_duration` returns
0; and each of the three stts queries returns 0 for an atom whose `data` is
`NULL`. -/
theorem C36_stts_sample_beyond_total (stts_atom : Atom) (stts : mp4p_stts_t) (sample : Nat)
    (hd : stts_atom.data = .stts stts)
    (htotal : (stts.entries.map (·.sample_count)).sum < 2 ^ 32)
    (hn : (stts.entries.map (·.sample_count)).sum < sample) :
    mp4p_stts_sample_duration stts_atom sample = some 0
      ∧ ∀ a : Atom, a.data = .none →
          mp4p_stts_total_num_samples a = some 0
            ∧ mp4p_stts_sample_duration a sample = some 0
            ∧ mp4p_stts_total_sample_duration a = some 0 := by
  constructor
  · unfold mp4p_stts_sample_duration
    rw [hd]
    simp only
    rw [stts_sample_duration_loop_beyond _ _ _ (by omega) (by omega)]
  · intro a ha
    unfold mp4p_stts_total_num_samples mp4p_stts_sample_duration
      mp4p_stts_total_sample_duration
    rw [ha]
    exact ⟨rfl, rfl, rfl⟩

theorem C36_stts_sample_beyond_total_witness :
    mp4p_stts_sample_duration
        (Atom.mk 0 32 (chars "stts") (.stts ⟨[⟨3, 1024⟩, ⟨2, 512⟩]⟩) none []) 6 = some 0 :=
  (C36_stts_sample_beyond_total
    (Atom.mk 0 32 (chars "stts") (.stts ⟨[⟨3, 1024⟩, ⟨2, 512⟩]⟩) none [])
    ⟨[⟨3, 1024⟩, ⟨2, 512⟩]⟩ 6 rfl (by decide) (by decide)).1

/-! ## Reading tags: an item that is handled again and again -/

theorem load_tags_loop_again (meta_atom : Atom) (cs : List HostCall)
    (h : load_tags_item meta_atom = .again cs) :
    ∀ (fuel : Nat) (next : List Atom) (calls : List HostCall),
      load_tags_loop fuel (meta_atom :: next) calls = .out_of_fuel := by
  intro fuel
  induction fuel with
  | zero => intro next calls; rfl
  | succ n ih =>
    intro next calls
    rw [load_tags_loop, h]
    exact ih next _

/-- C31 (evaluation at the failing input): a file whose `ilst` holds the
custom item `replaygain_track_gain` = "-3.50 dB", the name stored in its
`name` box with the terminating NUL, and after it the title "T". The pass
through the loop body for the custom item makes the call
`pl_set_item_replaygain` and ends in `continue`, with `meta_atom` still at
the same item; so the loop of `mp4_load_tags` comes to no end: whatever the
fuel, the run uses it up, and the title is never reached. (When the `name`
box holds the 21 letters without the NUL, the comparison with
"replaygain_track_gain" reads past the block of the name: the last
equation.) -/
theorem C31_load_tags_does_not_return (fuel : Nat) :
    (mp4p_open 8
        ⟨[0, 0, 0, 155, 109, 111, 111, 118, 0, 0, 0, 147, 117, 100, 116, 97, 0, 0, 0, 139, 109,
          101, 116, 97, 0, 0, 0, 0, 0, 0, 0, 127, 105, 108, 115, 116, 0, 0, 0, 94, 45, 45, 45,
          45, 0, 0, 0, 28, 109, 101, 97, 110, 0, 0, 0, 0, 99, 111, 109, 46, 97, 112, 112, 108,
          101, 46, 105, 84, 117, 110, 101, 115, 0, 0, 0, 34, 110, 97, 109, 101, 0, 0, 0, 0,
          114, 101, 112, 108, 97, 121, 103, 97, 105, 110, 95, 116, 114, 97, 99, 107, 95, 103,
          97, 105, 110, 0, 0, 0, 0, 24, 100, 97, 116, 97, 0, 0, 0, 1, 0, 0, 0, 0, 45, 51, 46, 53,
          48, 32, 100, 66, 0, 0, 0, 25, 169, 110, 97, 109, 0, 0, 0, 17, 100, 97, 116, 97, 0, 0,
          0, 1, 0, 0, 0, 0, 84, 0, 0, 0, 8, 102, 114, 101, 101], 0⟩).map (·.1)
      = some [Atom.mk 0 155 (chars "moov") .none none
          [Atom.mk 8 147 (chars "udta") .none none
            [Atom.mk 16 139 (chars "meta") .none none
              [Atom.mk 28 127 (chars "ilst") .none none
                [Atom.mk 36 94 (chars "----")
                  (.meta ⟨some (chars "replaygain_track_gain" ++ [0]), none,
                    some (chars "-3.50 dB" ++ [0, 0, 0, 25]), 12, 0, 0⟩) none [],
                 Atom.mk 130 25 (COPYRIGHT_SYM ++ chars "nam")
                  (.meta ⟨none, none, some (chars "T" ++ [0, 0, 0, 8]), 5, 154, 1⟩)
                  (some Writer._meta_write) []]]]],
         Atom.mk 155 8 (chars "free") .none none []]
      ∧ load_tags_item
          (Atom.mk 36 94 (chars "----")
            (.meta ⟨some (chars "replaygain_track_gain" ++ [0]), none,
              some (chars "-3.50 dB" ++ [0, 0, 0, 25]), 12, 0, 0⟩) none [])
        = .again [.pl_set_item_replaygain .TRACKGAIN (chars "-3.50 dB")]
      ∧ mp4_load_tags fuel
          [Atom.mk 0 155 (chars "moov") .none none
            [Atom.mk 8 147 (chars "udta") .none none
              [Atom.mk 16 139 (chars "meta") .none none
                [Atom.mk 28 127 (chars "ilst") .none none
                  [Atom.mk 36 94 (chars "----")
                    (.meta ⟨some (chars "replaygain_track_gain" ++ [0]), none,
                      some (chars "-3.50 dB" ++ [0, 0, 0, 25]), 12, 0, 0⟩) none [],
                   Atom.mk 130 25 (COPYRIGHT_SYM ++ chars "nam")
                    (.meta ⟨none, none, some (chars "T" ++ [0, 0, 0, 8]), 5, 154, 1⟩)
                    (some Writer._meta_write) []]]]],
           Atom.mk 155 8 (chars "free") .none none []]
        = .out_of_fuel
      ∧ load_tags_item
          (Atom.mk 36 93 (chars "----")
            (.meta ⟨some (chars "replaygain_track_gain"), none,
              some (chars "-3.50 dB" ++ [0, 0, 0, 25]), 12, 0, 0⟩) none [])
        = .fault := by
  refine ⟨rfl, rfl, ?_, rfl⟩
  have hfind : mp4p_atom_find
      [Atom.mk 0 155 (chars "moov") .none none
        [Atom.mk 8 147 (chars "udta") .none none
          [Atom.mk 16 139 (chars "meta") .none none
            [Atom.mk 28 127 (chars "ilst") .none none
              [Atom.mk 36 94 (chars "----")
                (.meta ⟨some (chars "replaygain_track_gain" ++ [0]), none,
                  some (chars "-3.50 dB" ++ [0, 0, 0, 25]), 12, 0, 0⟩) none [],
               Atom.mk 130 25 (COPYRIGHT_SYM ++ chars "nam")
                (.meta ⟨none, none, some (chars "T" ++ [0, 0, 0, 8]), 5, 154, 1⟩)
                (some Writer._meta_write) []]]]],
       Atom.mk 155 8 (chars "free") .none none []] (chars "moov/udta/meta/ilst")
      = [Atom.mk 28 127 (chars "ilst") .none none
          [Atom.mk 36 94 (chars "----")
            (.meta ⟨some (chars "replaygain_track_gain" ++ [0]), none,
              some (chars "-3.50 dB" ++ [0, 0, 0, 25]), 12, 0, 0⟩) none [],
           Atom.mk 130 25 (COPYRIGHT_SYM ++ chars "nam")
            (.meta ⟨none, none, some (chars "T" ++ [0, 0, 0, 8]), 5, 154, 1⟩)
            (some Writer._meta_write) []]] := rfl
  unfold mp4_load_tags
  rw [hfind]
  simp only [Atom.subatoms]
  have hitem : load_tags_item
      (Atom.mk 36 94 (chars "----")
        (.meta ⟨some (chars "replaygain_track_gain" ++ [0]), none,
          some (chars "-3.50 dB" ++ [0, 0, 0, 25]), 12, 0, 0⟩) none [])
      = .again [.pl_set_item_replaygain .TRACKGAIN (chars "-3.50 dB")] := rfl
  rw [load_tags_loop_again _ _ hitem]

/-! ## Genre table: the two lookups together -/

set_option maxRecDepth 100000 in
set_option maxHeartbeats 4000000 in
theorem genre_index_of_entries :
    (List.range 192).all (fun k =>
      mp4p_genre_index_for_name (((_genretbl[k]?).map chars).getD []) == k + 1) = true := by
  decide

theorem genre_index_of_entry (k : Nat) (g : String) (h : _genretbl[k]? = some g) :
    mp4p_genre_index_for_name (chars g) = k + 1 := by
  have hk : k < 192 := by
    have := (List.getElem?_eq_some.mp h).1
    rw [genretbl_length] at this
    exact this
  have hall := List.all_eq_true.mp genre_index_of_entries k (List.mem_range.mpr hk)
  rw [h] at hall
  simpa using hall

theorem genre_name_for_index_some (genreid : Nat) (name : List Nat)
    (h : mp4p_genre_name_for_index genreid = some name) :
    1 ≤ genreid ∧ ∃ g, _genretbl[genreid - 1]? = some g ∧ name = chars g := by
  unfold mp4p_genre_name_for_index at h
  by_cases hc : (genreid + 2 ^ 64 - 1) % 2 ^ 64 < _GENRE_COUNT
  · rw [if_pos hc] at h
    cases hg : _genretbl[genreid - 1]? with
    | none => rw [hg] at h; cases h
    | some g =>
      rw [hg] at h
      have hlt := (List.getElem?_eq_some.mp hg).1
      rw [genretbl_length] at hlt
      refine ⟨?_, g, rfl, (Option.some.inj h).symm⟩
      unfold _GENRE_COUNT at hc
      rw [genretbl_length] at hc
      omega
  · rw [if_neg hc] at h; cases h

theorem genre_name_for_index_succ (k : Nat) (g : String) (h : _genretbl[k]? = some g) :
    mp4p_genre_name_for_index (k + 1) = some (chars g) := by
  have hk : k < 192 := by
    have := (List.getElem?_eq_some.mp h).1
    rw [genretbl_length] at this
    exact this
  have hc : (k + 1 + 2 ^ 64 - 1) % 2 ^ 64 < _GENRE_COUNT := by
    unfold _GENRE_COUNT
    rw [genretbl_length]
    omega
  unfold mp4p_genre_name_for_index
  rw [if_pos hc, Nat.add_sub_cancel, h]
  rfl

theorem genre_index_loop_cases (name : List Nat) :
    ∀ (tbl : List String) (i : Nat), i + tbl.length < 2 ^ 16 →
      (genre_index_loop tbl i name = 0 ∧ ∀ g ∈ tbl, strcasecmp name (chars g) = true)
        ∨ ∃ (k : Nat) (g : String), tbl[k]? = some g ∧ strcasecmp name (chars g) = false
            ∧ genre_index_loop tbl i name = i + k + 1 := by
  intro tbl
  induction tbl with
  | nil => intro i _; exact Or.inl ⟨rfl, fun g hg => by cases hg⟩
  | cons x xs ih =>
    intro i hlen
    simp only [List.length_cons] at hlen
    cases hx : strcasecmp name (chars x) with
    | false =>
      refine Or.inr ⟨0, x, by simp, hx, ?_⟩
      simp only [genre_index_loop, hx, Bool.not_false, if_true]
      omega
    | true =>
      simp only [genre_index_loop, hx, Bool.not_true, Bool.false_eq_true, if_false]
      rw [show (i + 1) % 2 ^ 16 = i + 1 by omega]
      rcases ih (i + 1) (by omega) with ⟨h0, hall⟩ | ⟨k, g, hk, hg, hr⟩
      · refine Or.inl ⟨h0, ?_⟩
        intro g hg
        rcases List.mem_cons.mp hg with h | h
        · rw [h]; exact hx
        · exact hall g h
      · exact Or.inr ⟨k + 1, g, by simpa using hk, hg, by rw [hr]; omega⟩

/-- C38: for every id for which `mp4p_genre_name_for_index` returns a name,
`mp4p_genre_index_for_name` of that name returns the id; and an entry of the
table differs, letter case ignored, from every entry before it. -/
theorem C38_genre_lookups_inverse (genreid : Nat) (name : List Nat)
    (h : mp4p_genre_name_for_index genreid = some name) :
    mp4p_genre_index_for_name name = genreid
      ∧ ∀ (j k : Nat) (g e : String), j < k → _genretbl[j]? = some g → _genretbl[k]? = some e →
          strcasecmp (chars e) (chars g) = true := by
  constructor
  · obtain ⟨h1, g, hg, hname⟩ := genre_name_for_index_some genreid name h
    rw [hname, genre_index_of_entry _ g hg]
    omega
  · intro j k g e hjk hj hk
    cases hcmp : strcasecmp (chars e) (chars g) with
    | true => rfl
    | false =>
      exfalso
      have hidx := genre_index_of_entry k e hk
      have hfirst : ∀ (tbl : List String) (i j : Nat) (g : String), i + tbl.length < 2 ^ 16 →
          tbl[j]? = some g → strcasecmp (chars e) (chars g) = false →
          genre_index_loop tbl i (chars e) ≤ i + j + 1 := by
        intro tbl
        induction tbl with
        | nil => intro i j g _ hj; simp at hj
        | cons x xs ih =>
          intro i j g hlen hj hg
          simp only [List.length_cons] at hlen
          cases hx : strcasecmp (chars e) (chars x) with
          | false =>
            simp only [genre_index_loop, hx, Bool.not_false, if_true]
            omega
          | true =>
            cases j with
            | zero =>
              simp only [List.getElem?_cons_zero, Option.some.injEq] at hj
              rw [hj, hg] at hx
              cases hx
            | succ j =>
              simp only [genre_index_loop, hx, Bool.not_true, Bool.false_eq_true, if_false]
              rw [show (i + 1) % 2 ^ 16 = i + 1 by omega]
              have := ih (i + 1) j g (by omega) (by simpa using hj) hg
              omega
      have hle := hfirst _genretbl 0 j g (by rw [genretbl_length]; norm_num) hj hcmp
      unfold mp4p_genre_index_for_name at hidx
      omega

set_option maxRecDepth 8000 in
theorem C38_genre_lookups_inverse_witness :
    mp4p_genre_index_for_name (chars "Jazz") = 9 :=
  (C38_genre_lookups_inverse 9 (chars "Jazz") rfl).1

theorem strlen_no_nul (g : List Nat) (hg : ∀ c ∈ g, c ≠ 0) : strlen g = g.length := by
  unfold strlen
  induction g with
  | nil => rfl
  | cons x xs ih =>
    have hx : x ≠ 0 := hg x (List.mem_cons_self _ _)
    simp only [List.takeWhile_cons, bne_iff_ne, ne_eq, hx, not_false_eq_true, if_true,
      List.length_cons, Nat.add_right_cancel_iff]
    exact ih (fun c hc => hg c (List.mem_cons_of_mem _ hc))

theorem strdup_no_nul (g : List Nat) (hg : ∀ c ∈ g, c ≠ 0) : strdup g = g := by
  unfold strdup
  induction g with
  | nil => rfl
  | cons x xs ih =>
    have hx : x ≠ 0 := hg x (List.mem_cons_self _ _)
    simp only [List.takeWhile_cons, bne_iff_ne, ne_eq, hx, not_false_eq_true, if_true,
      List.cons.injEq, true_and]
    exact ih (fun c hc => hg c (List.mem_cons_of_mem _ hc))

/-- C37: for every genre text `g` (a C string whose length leaves
`24 + length` within 32 bits) `mp4p_ilst_append_genre` appends exactly one
item behind the children of the atom. When `g` equals an entry of the genre
table, letter case ignored, the item has the type `gnre`, type flag 0, the
single value `mp4p_genre_index_for_name (g)`, `data_size` 2 and declared size
26, and `mp4p_genre_name_for_index` of that value is a name equal to `g`,
letter case ignored. Otherwise the item has the type 0xA9 'g' 'e' 'n', type
flag 1, the text `g` and declared size `24 + length (g)`. -/
theorem C37_append_genre (ilst_atom : Atom) (g : List Nat) (hg : ∀ c ∈ g, c ≠ 0)
    (hlen : g.length < 2 ^ 32 - 24) :
    (mp4p_ilst_append_genre ilst_atom g).subatoms = ilst_atom.subatoms ++ [ilst_genre_item g]
      ∧ ((∃ e ∈ _genretbl, strcasecmp g (chars e) = false) →
          mp4p_genre_index_for_name g ≠ 0
            ∧ ilst_genre_item g
              = Atom.mk 0 26 (chars "gnre")
                  (.meta ⟨none, some [mp4p_genre_index_for_name g], none, 2, 0, 0⟩)
                  (some Writer._meta_write) []
            ∧ ∃ name, mp4p_genre_name_for_index (mp4p_genre_index_for_name g) = some name
                ∧ strcasecmp g name = false)
      ∧ ((∀ e ∈ _genretbl, strcasecmp g (chars e) = true) →
          ilst_genre_item g
            = Atom.mk 0 (24 + g.length) (COPYRIGHT_SYM ++ chars "gen")
                (.meta ⟨none, none, some g, g.length, 0, 1⟩) (some Writer._meta_write) []) := by
  have hcases := genre_index_loop_cases g _genretbl 0 (by rw [genretbl_length]; norm_num)
  refine ⟨?_, ?_, ?_⟩
  · rw [mp4p_ilst_append_genre, mp4p_atom_append, subatoms_setSubatoms]
  · rintro ⟨e, he, hcmp⟩
    rcases hcases with ⟨_, hall⟩ | ⟨k, x, hk, hx, hr⟩
    · rw [hall e he] at hcmp; cases hcmp
    · have hidx : mp4p_genre_index_for_name g = k + 1 := by
        unfold mp4p_genre_index_for_name
        rw [hr]; omega
      have hne : mp4p_genre_index_for_name g ≠ 0 := by rw [hidx]; omega
      refine ⟨hne, ?_, chars x, ?_, hx⟩
      · unfold ilst_genre_item
        rw [if_pos hne]
      · rw [hidx]
        exact genre_name_for_index_succ k x hk
  · intro hall
    have hidx : mp4p_genre_index_for_name g = 0 := genre_index_loop_none g _genretbl 0 hall
    unfold ilst_genre_item
    rw [if_neg (by rw [hidx]; exact fun h => h rfl), strlen_no_nul g hg, strdup_no_nul g hg,
      Nat.mod_eq_of_lt (show 24 + g.length < 2 ^ 32 by omega),
      Nat.mod_eq_of_lt (show g.length < 2 ^ 32 by omega)]

set_option maxRecDepth 8000 in
theorem C37_append_genre_witness :
    ilst_genre_item (chars "My Genre")
      = Atom.mk 0 32 (COPYRIGHT_SYM ++ chars "gen")
          (.meta ⟨none, none, some (chars "My Genre"), 8, 0, 1⟩) (some Writer._meta_write) [] :=
  (C37_append_genre (mp4p_atom_new (chars "ilst")) (chars "My Genre") (by decide)
    (by decide)).2.2
    (fun e he => by
      have h := genre_index_loop_cases (chars "My Genre") _genretbl 0
        (by rw [genretbl_length]; norm_num)
      rcases h with ⟨_, hall⟩ | ⟨k, x, hk, hx, hr⟩
      · exact hall e he
      · exfalso
        have h0 : genre_index_loop _genretbl 0 (chars "My Genre") = 0 := by decide
        omega)

/-! ## Serializer: a container with two children -/

/-- C33 (evaluation at the failing input): an `ilst` with the two children
0xA9 'n' 'a' 'm' = "T" and 0xA9 'A' 'R' 'T' = "A", each of 25 bytes, and a
buffer of the computed size 58. `mp4p_atom_to_buffer` returns 58, but after
the 8 bytes of the header the buffer holds the second child only, followed
by 25 bytes that were never written: `buffer` is not moved on in the loop
over the children, so the second child is written over the first. -/
theorem C33_children_written_over_each_other :
    mp4p_atom_to_buffer
        (Atom.mk 0 0 (chars "ilst") .none none
          [Atom.mk 0 25 (COPYRIGHT_SYM ++ chars "nam")
            (.meta ⟨none, none, some (chars "T"), 1, 0, 1⟩) (some Writer._meta_write) [],
           Atom.mk 0 25 (COPYRIGHT_SYM ++ chars "ART")
            (.meta ⟨none, none, some (chars "A"), 1, 0, 1⟩) (some Writer._meta_write) []])
        (List.replicate 58 0) (some 0) 58
      = some (58, [0, 0, 0, 58, 105, 108, 115, 116]
          ++ [0, 0, 0, 25, 169, 65, 82, 84, 0, 0, 0, 17, 100, 97, 116, 97, 0, 0, 0, 1,
              0, 0, 0, 0, 65]
          ++ List.replicate 25 0)
      ∧ mp4p_atom_to_buffer
          (Atom.mk 0 25 (COPYRIGHT_SYM ++ chars "nam")
            (.meta ⟨none, none, some (chars "T"), 1, 0, 1⟩) (some Writer._meta_write) [])
          (List.replicate 25 0) (some 0) 25
        = some (25, [0, 0, 0, 25, 169, 110, 97, 109, 0, 0, 0, 17, 100, 97, 116, 97, 0, 0, 0, 1,
            0, 0, 0, 0, 84])
      ∧ mp4p_atom_to_buffer
          (Atom.mk 0 25 (COPYRIGHT_SYM ++ chars "ART")
            (.meta ⟨none, none, some (chars "A"), 1, 0, 1⟩) (some Writer._meta_write) [])
          (List.replicate 25 0) (some 0) 25
        = some (25, [0, 0, 0, 25, 169, 65, 82, 84, 0, 0, 0, 17, 100, 97, 116, 97, 0, 0, 0, 1,
            0, 0, 0, 0, 65]) := by
  refine ⟨?_, ?_, ?_⟩ <;>
    simp only [mp4p_atom_to_buffer, atom_to_buffer_write, subatoms_write, subatoms_size,
      atom_to_buffer_size] <;> rfl

/-! ## The text branch of `_load_metadata_atom` -/

theorem READ_BUF_eval {σ : Type} (store : List Nat → σ → σ) (s : σ) (fp : File)
    (pre rest : List Nat) (h : fp.bytes.drop fp.pos = pre ++ rest) :
    READ_BUF pre.length store s fp = (some pre, store pre s, ⟨fp.bytes, fp.pos + pre.length⟩) := by
  unfold READ_BUF
  simp only [fread_eq fp pre rest h, Nat.sub_self, List.replicate_zero, List.append_nil,
    if_true]

theorem READ_BUF_short {σ : Type} (store : List Nat → σ → σ) (s : σ) (fp : File) (size : Nat)
    (h : (fp.bytes.drop fp.pos).length < size) : (READ_BUF size store s fp).1 = none := by
  unfold READ_BUF File.fread
  have hlen : ((fp.bytes.drop fp.pos).take size).length ≠ size := by
    rw [List.length_take]
    omega
  simp only [hlen, if_false]

theorem READ_UINT32_eval {σ : Type} (s : σ) (fp : File) (v : Nat) (rest : List Nat)
    (hv : v < 2 ^ 32) (h : fp.bytes.drop fp.pos = uint32_bytes v ++ rest) :
    (READ_UINT32 : Rd σ Nat) s fp = (some v, s, ⟨fp.bytes, fp.pos + 4⟩) := by
  unfold READ_UINT32
  rw [read_uint32_of_bytes fp v rest hv h]

theorem ftell_eval {σ : Type} (s : σ) (fp : File) :
    (Rd.ftell : Rd σ Nat) s fp = (some fp.pos, s, fp) := rfl

theorem bind_eval_none {σ α β : Type} (m : Rd σ α) (f : α → Rd σ β) (s : σ) (fp : File)
    (h : (m s fp).1 = none) : ((m >>= f) s fp).1 = none := by
  show (Rd.bind m f s fp).1 = none
  unfold Rd.bind
  rcases hm : m s fp with ⟨_ | a, s1, fp1⟩
  · rfl
  · rw [hm] at h; cases h

/-- The run of `_load_metadata_atom` through the header of a `data` box whose
type flag is 1, up to the test of `data_size`. -/
theorem load_text_item_header (type : List Nat) (fp : File) (size vf r : Nat) (rest : List Nat)
    (htype : ¬ (type.take 4 == chars "----") = true)
    (hsize : size < 2 ^ 32) (hvf : vf < 2 ^ 32) (hr : r < 2 ^ 32) (hflag : vf &&& 0xff = 1)
    (h : fp.bytes.drop fp.pos
      = uint32_bytes size ++ (chars "data" ++ (uint32_bytes vf ++ (uint32_bytes r ++ rest)))) :
    _load_metadata_atom type ({}, none) fp
      = (if (size + 2 ^ 32 - 12) % 2 ^ 32 > 255 ∧ type.take 4 ≠ COPYRIGHT_SYM ++ chars "lyr" then
            (Rd.fail : Rd (mp4p_meta_t × Option Writer) Unit)
          else do
            let _ ← READ_BUF ((size + 2 ^ 32 - 12) % 2 ^ 32)
              (fun b s => ({ s.1 with text := some b }, s.2))
            Rd.pure ())
          (⟨none, none, none, (size + 2 ^ 32 - 12) % 2 ^ 32, fp.pos + 16, vf⟩,
            some Writer._meta_write)
          ⟨fp.bytes, fp.pos + 16⟩ := by
  have d1 : (⟨fp.bytes, fp.pos + 4⟩ : File).bytes.drop (⟨fp.bytes, fp.pos + 4⟩ : File).pos
      = chars "data" ++ (uint32_bytes vf ++ (uint32_bytes r ++ rest)) :=
    drop_after fp (uint32_bytes size) _ h
  have d2 : (⟨fp.bytes, fp.pos + 4 + 4⟩ : File).bytes.drop
        (⟨fp.bytes, fp.pos + 4 + 4⟩ : File).pos
      = uint32_bytes vf ++ (uint32_bytes r ++ rest) :=
    drop_after ⟨fp.bytes, fp.pos + 4⟩ (chars "data") _ d1
  have d3 : (⟨fp.bytes, fp.pos + 4 + 4 + 4⟩ : File).bytes.drop
        (⟨fp.bytes, fp.pos + 4 + 4 + 4⟩ : File).pos
      = uint32_bytes r ++ rest :=
    drop_after ⟨fp.bytes, fp.pos + 4 + 4⟩ (uint32_bytes vf) _ d2
  have hdata : ∀ s : mp4p_meta_t × Option Writer,
      READ_BUF_local 4 s ⟨fp.bytes, fp.pos + 4⟩
        = (some (chars "data"), s, ⟨fp.bytes, fp.pos + 4 + 4⟩) :=
    fun s => READ_BUF_eval (fun _ s => s) s ⟨fp.bytes, fp.pos + 4⟩ (chars "data") _ d1
  unfold _load_metadata_atom
  rw [if_neg htype, bind_eval _ _ _ _ _ _ _ (READ_UINT32_eval _ fp size _ hsize h),
    bind_eval _ _ _ _ _ _ _ (hdata _)]
  dsimp only
  rw [if_neg (by decide), bind_eval (Rd.set _) _ _ _ _ _ () rfl,
    bind_eval _ _ _ _ _ _ _ (READ_UINT32_eval _ _ vf _ hvf d2),
    bind_eval (Rd.set _) _ _ _ _ _ () rfl,
    bind_eval _ _ _ _ _ _ _ (READ_UINT32_eval _ _ r _ hr d3)]
  dsimp only
  rw [bind_eval (Rd.set _) _ _ _ _ _ () rfl,
    bind_eval Rd.ftell _ _ _ _ _ _ (ftell_eval _ _),
    bind_eval (Rd.set _) _ _ _ _ _ () rfl]
  dsimp only
  rw [hflag, if_neg (by decide), if_pos rfl]

theorem run_of_none {σ : Type} (m : Rd σ Unit) (s : σ) (fp : File) (h : (m s fp).1 = none) :
    (m.run s fp).1 = -1 := by
  unfold Rd.run
  rcases hm : m s fp with ⟨_ | a, s1, fp1⟩
  · rfl
  · rw [hm] at h; cases h

/-- C39 (counterexample): the source ends three bytes after the header of a
`data` box that declares the size 22. The computed `data_size` is 10, the
type 0xA9 'n' 'a' 'm' is a text item that is not lyrics, and the parser
returns -1: the read of the text falls short. -/
theorem C39_short_text_item_rejected :
    (_load_metadata_atom (COPYRIGHT_SYM ++ chars "nam")).run ({}, none)
        ⟨[0, 0, 0, 22, 100, 97, 116, 97, 0, 0, 0, 1, 0, 0, 0, 0, 65, 66, 67], 0⟩
      = (-1,
          (⟨none, none, some [65, 66, 67, 0, 0, 0, 0, 0, 0, 0], 10, 16, 1⟩,
            some Writer._meta_write),
          ⟨[0, 0, 0, 22, 100, 97, 116, 97, 0, 0, 0, 1, 0, 0, 0, 0, 65, 66, 67], 19⟩) :=
  rfl

/-- C39 (amended): when the parser reads a metadata item whose `data` box
has the type flag 1, with `data_size` computed as the declared size of the
box minus 12: if `data_size` exceeds 255 and the type is not 0xA9 'l' 'y' 'r'
it returns -1 and stores no text; otherwise, when the block allocated for
the text (`data_size + 1` bytes, a 32-bit sum) has room for `data_size`
bytes: if the source holds `data_size` more bytes, it returns 0 and stores
exactly these `data_size` bytes as text; if the source ends before, it
returns -1. -/
theorem C39_text_item (type : List Nat) (fp : File) (size vf r : Nat) (rest : List Nat)
    (htype : ¬ (type.take 4 == chars "----") = true)
    (hsize : size < 2 ^ 32) (hvf : vf < 2 ^ 32) (hr : r < 2 ^ 32) (hflag : vf &&& 0xff = 1)
    (h : fp.bytes.drop fp.pos
      = uint32_bytes size ++ (chars "data" ++ (uint32_bytes vf ++ (uint32_bytes r ++ rest)))) :
    ((size + 2 ^ 32 - 12) % 2 ^ 32 > 255 ∧ type.take 4 ≠ COPYRIGHT_SYM ++ chars "lyr" →
        (_load_metadata_atom type).run ({}, none) fp
          = (-1,
              (⟨none, none, none, (size + 2 ^ 32 - 12) % 2 ^ 32, fp.pos + 16, vf⟩,
                some Writer._meta_write),
              ⟨fp.bytes, fp.pos + 16⟩))
      ∧ (¬ ((size + 2 ^ 32 - 12) % 2 ^ 32 > 255
            ∧ type.take 4 ≠ COPYRIGHT_SYM ++ chars "lyr") →
          (size + 2 ^ 32 - 12) % 2 ^ 32 < meta_text_block ((size + 2 ^ 32 - 12) % 2 ^ 32) →
          (size + 2 ^ 32 - 12) % 2 ^ 32 ≤ rest.length →
          (_load_metadata_atom type).run ({}, none) fp
            = (0,
                (⟨none, none, some (rest.take ((size + 2 ^ 32 - 12) % 2 ^ 32)),
                    (size + 2 ^ 32 - 12) % 2 ^ 32, fp.pos + 16, vf⟩,
                  some Writer._meta_write),
                ⟨fp.bytes, fp.pos + 16 + (size + 2 ^ 32 - 12) % 2 ^ 32⟩))
      ∧ (¬ ((size + 2 ^ 32 - 12) % 2 ^ 32 > 255
            ∧ type.take 4 ≠ COPYRIGHT_SYM ++ chars "lyr") →
          (size + 2 ^ 32 - 12) % 2 ^ 32 < meta_text_block ((size + 2 ^ 32 - 12) % 2 ^ 32) →
          rest.length < (size + 2 ^ 32 - 12) % 2 ^ 32 →
          ((_load_metadata_atom type).run ({}, none) fp).1 = -1) := by
  have hhdr := load_text_item_header type fp size vf r rest htype hsize hvf hr hflag h
  have d4 : (⟨fp.bytes, fp.pos + 16⟩ : File).bytes.drop (⟨fp.bytes, fp.pos + 16⟩ : File).pos
      = rest := by
    have e : uint32_bytes size ++ (chars "data" ++ (uint32_bytes vf ++ (uint32_bytes r ++ rest)))
        = (uint32_bytes size ++ (chars "data" ++ (uint32_bytes vf ++ uint32_bytes r))) ++ rest := by
      simp only [List.append_assoc]
    rw [e] at h
    exact drop_after fp _ rest h
  refine ⟨?_, ?_, ?_⟩
  · intro hc
    unfold Rd.run
    rw [hhdr, if_pos hc]
    rfl
  · intro hc _ hlen
    have hsplit : (⟨fp.bytes, fp.pos + 16⟩ : File).bytes.drop (⟨fp.bytes, fp.pos + 16⟩ : File).pos
        = rest.take ((size + 2 ^ 32 - 12) % 2 ^ 32)
          ++ rest.drop ((size + 2 ^ 32 - 12) % 2 ^ 32) := by
      rw [d4, List.take_append_drop]
    have hl : (rest.take ((size + 2 ^ 32 - 12) % 2 ^ 32)).length
        = (size + 2 ^ 32 - 12) % 2 ^ 32 := by
      rw [List.length_take]
      omega
    have hread := READ_BUF_eval
      (fun b (s : mp4p_meta_t × Option Writer) => ({ s.1 with text := some b }, s.2))
      (⟨none, none, none, (size + 2 ^ 32 - 12) % 2 ^ 32, fp.pos + 16, vf⟩,
        some Writer._meta_write)
      ⟨fp.bytes, fp.pos + 16⟩ _ _ hsplit
    rw [hl] at hread
    unfold Rd.run
    rw [hhdr, if_neg hc, bind_eval _ _ _ _ _ _ _ hread]
    rfl
  · intro hc _ hlen
    have hshort := READ_BUF_short
      (fun b (s : mp4p_meta_t × Option Writer) => ({ s.1 with text := some b }, s.2))
      (⟨none, none, none, (size + 2 ^ 32 - 12) % 2 ^ 32, fp.pos + 16, vf⟩,
        some Writer._meta_write)
      ⟨fp.bytes, fp.pos + 16⟩ ((size + 2 ^ 32 - 12) % 2 ^ 32) (by rw [d4]; exact hlen)
    have hnone := bind_eval_none _
      (fun _ => (Rd.pure () : Rd (mp4p_meta_t × Option Writer) Unit)) _ _ hshort
    refine run_of_none _ _ _ ?_
    rw [hhdr, if_neg hc]
    exact hnone

theorem C39_text_item_witness :
    (_load_metadata_atom (COPYRIGHT_SYM ++ chars "nam")).run ({}, none)
        ⟨[0, 0, 0, 15, 100, 97, 116, 97, 0, 0, 0, 1, 0, 0, 0, 0, 65, 66, 67, 68], 0⟩
      = (0, (⟨none, none, some [65, 66, 67], 3, 16, 1⟩, some Writer._meta_write),
          ⟨[0, 0, 0, 15, 100, 97, 116, 97, 0, 0, 0, 1, 0, 0, 0, 0, 65, 66, 67, 68], 19⟩) :=
  (C39_text_item (COPYRIGHT_SYM ++ chars "nam")
    ⟨[0, 0, 0, 15, 100, 97, 116, 97, 0, 0, 0, 1, 0, 0, 0, 0, 65, 66, 67, 68], 0⟩ 15 1 0
    [65, 66, 67, 68] (by decide) (by decide) (by decide) (by decide) (by decide) rfl).2.1
    (by decide) (by decide) (by decide)

/-- The case left out above: a `data` box that declares the size 11 gives
`data_size` 2^32 - 1, which passes the test on the length when the type is
0xA9 'l' 'y' 'r', and the block allocated for the text has no byte. -/
theorem text_block_of_declared_size_11 :
    (11 + 2 ^ 32 - 12) % 2 ^ 32 = 2 ^ 32 - 1
      ∧ meta_text_block ((11 + 2 ^ 32 - 12) % 2 ^ 32) = 0
      ∧ ∀ size, size < 2 ^ 32 → size ≠ 11 →
          (size + 2 ^ 32 - 12) % 2 ^ 32 < meta_text_block ((size + 2 ^ 32 - 12) % 2 ^ 32) := by
  refine ⟨by norm_num, by norm_num [meta_text_block], ?_⟩
  intro size h1 h2
  unfold meta_text_block
  omega

/-! ## Metadata items: written, then parsed -/

/-- C35 (evaluation at the failing input): the item 0xA9 'n' 'a' 'm' = "T"
built by `mp4p_ilst_append_text` is serialized in 25 bytes and the item
`trkn` = (5, 12) built by `mp4p_ilst_append_track_disc` in 30 bytes. Parsed
as the children of an `ilst` that is followed by a `free` box, the first comes
back with `data_size` 5 and a text of 5 bytes, "T" and the first four bytes
of the next item, the second with `data_size` 10 and the five values
0, 5, 12, 0, 8: `_load_metadata_atom` takes `data_size` as the size of the
`data` box minus 12, although the header of the box, as `_meta_write` writes
it, has 16 bytes, and reads four bytes past the item. Parsed from its own
25 bytes alone, the text item gives the return value -1. -/
theorem C35_item_parsed_with_four_more_bytes :
    mp4p_atom_to_buffer (ilst_text_item (COPYRIGHT_SYM ++ chars "nam") (chars "T"))
        (List.replicate 25 0) (some 0) 25
      = some (25, [0, 0, 0, 25, 169, 110, 97, 109, 0, 0, 0, 17, 100, 97, 116, 97, 0, 0, 0, 1,
          0, 0, 0, 0, 84])
      ∧ mp4p_atom_to_buffer (ilst_track_disc_item (chars "trkn") 5 12)
          (List.replicate 30 0) (some 0) 30
        = some (30, [0, 0, 0, 30, 116, 114, 107, 110, 0, 0, 0, 22, 100, 97, 116, 97, 0, 0, 0, 0,
            0, 0, 0, 0, 0, 0, 0, 5, 0, 12])
      ∧ (mp4p_open 4
          ⟨[0, 0, 0, 63, 105, 108, 115, 116]
            ++ [0, 0, 0, 25, 169, 110, 97, 109, 0, 0, 0, 17, 100, 97, 116, 97, 0, 0, 0, 1,
                0, 0, 0, 0, 84]
            ++ [0, 0, 0, 30, 116, 114, 107, 110, 0, 0, 0, 22, 100, 97, 116, 97, 0, 0, 0, 0,
                0, 0, 0, 0, 0, 0, 0, 5, 0, 12]
            ++ [0, 0, 0, 8, 102, 114, 101, 101], 0⟩).map (·.1)
        = some [Atom.mk 0 63 (chars "ilst") .none none
            [Atom.mk 8 25 (COPYRIGHT_SYM ++ chars "nam")
              (.meta ⟨none, none, some [84, 0, 0, 0, 30], 5, 32, 1⟩)
              (some Writer._meta_write) [],
             Atom.mk 33 30 (chars "trkn")
              (.meta ⟨none, some [0, 5, 12, 0, 8], none, 10, 57, 0⟩)
              (some Writer._meta_write) []],
           Atom.mk 63 8 (chars "free") .none none []]
      ∧ ((_load_metadata_atom (COPYRIGHT_SYM ++ chars "nam")).run ({}, none)
          ⟨[0, 0, 0, 25, 169, 110, 97, 109, 0, 0, 0, 17, 100, 97, 116, 97, 0, 0, 0, 1,
            0, 0, 0, 0, 84], 8⟩).1 = -1 := by
  refine ⟨?_, ?_, rfl, rfl⟩ <;>
    simp only [mp4p_atom_to_buffer, atom_to_buffer_write, ilst_text_item,
      ilst_track_disc_item] <;> rfl

/-! ## Serializing a tree made by the builders -/

theorem write_chunks_enough :
    ∀ (chunks : List (List Nat)) (st : WState),
      (chunks.map List.length).sum ≤ st.buffer_size →
      ∃ st1, write_chunks chunks st = (true, st1)
        ∧ st1.buffer_size = st.buffer_size - (chunks.map List.length).sum
        ∧ st1.buffer = st.buffer + (chunks.map List.length).sum := by
  intro chunks
  induction chunks with
  | nil => intro st _; exact ⟨st, rfl, by simp, by simp⟩
  | cons c cs ih =>
    intro st h
    simp only [List.map_cons, List.sum_cons] at h
    rw [write_chunks, if_neg (by omega)]
    obtain ⟨st1, h1, h2, h3⟩ := ih
      { mem := poke st.mem st.buffer c, buffer := st.buffer + c.length,
        buffer_size := st.buffer_size - c.length } (by simp only; omega)
    refine ⟨st1, h1, ?_, ?_⟩
    · rw [h2]; simp only [List.map_cons, List.sum_cons]; omega
    · rw [h3]; simp only [List.map_cons, List.sum_cons]; omega

theorem run_writer_enough (chunks : List (List Nat)) (mem : List Nat) (buffer buffer_size : Nat)
    (h : (chunks.map List.length).sum ≤ buffer_size) :
    ∃ mem1, run_writer chunks mem buffer buffer_size
      = ((chunks.map List.length).sum, mem1) := by
  obtain ⟨st1, h1, h2, _⟩ := write_chunks_enough chunks ⟨mem, buffer, buffer_size⟩ h
  refine ⟨st1.mem, ?_⟩
  unfold run_writer
  rw [h1]
  simp only [h2]
  congr 1
  omega

theorem foldl_atom_append (cs : List Atom) :
    ∀ (a : Atom), cs.foldl mp4p_atom_append a = a.setSubatoms (a.subatoms ++ cs) := by
  induction cs with
  | nil => intro a; cases a; simp [Atom.setSubatoms, Atom.subatoms]
  | cons c cs ih =>
    intro a
    rw [List.foldl_cons, ih]
    cases a
    simp [mp4p_atom_append, Atom.setSubatoms, Atom.subatoms]

theorem leaf_write_enough (pos size : Nat) (type : List Nat) (data : Payload) (w : Writer)
    (chunks : List (List Nat)) (htype : 4 ≤ type.length)
    (hsize : size = 8 + (chunks.map List.length).sum)
    (hcall : ∀ mem b bs, call_to_buffer w data mem b bs = some (run_writer chunks mem b bs))
    (mem : List Nat) (buffer buffer_size : Nat) (hbs : size ≤ buffer_size)
    (hlt : buffer_size < 2 ^ 32) :
    ∃ mem1, atom_to_buffer_write (Atom.mk pos size type data (some w) []) mem buffer buffer_size
      = some (size, mem1) := by
  have hlen : (uint32_bytes size).length = 4 := rfl
  have hhdr : ([uint32_bytes size, type.take 4].map List.length).sum = 8 := by
    simp only [List.map_cons, List.map_nil, List.sum_cons, List.sum_nil, hlen, List.length_take]
    omega
  obtain ⟨st, h1, h2, h3⟩ := write_chunks_enough [uint32_bytes size, type.take 4]
    ⟨mem, buffer, buffer_size⟩ (by rw [hhdr]; simp only; omega)
  rw [hhdr] at h2 h3
  simp only at h2 h3
  obtain ⟨mem1, hw⟩ := run_writer_enough chunks st.mem st.buffer st.buffer_size (by omega)
  refine ⟨mem1, ?_⟩
  rw [atom_to_buffer_write, if_neg (by omega), h1]
  simp only
  rw [hcall, hw]
  simp only
  have e : (buffer_size + 2 ^ 32
      - (st.buffer_size + 2 ^ 32 - (chunks.map List.length).sum) % 2 ^ 32) % 2 ^ 32 = size := by
    omega
  rw [e, if_pos rfl]
theorem strlen_le (s : List Nat) : strlen s ≤ s.length := by
  unfold strlen
  exact (List.takeWhile_prefix _).length_le

theorem strlen_strdup (s : List Nat) : strlen (strdup s) = strlen s := by
  unfold strlen strdup
  induction s with
  | nil => rfl
  | cons x xs ih =>
    by_cases hx : x = 0
    · subst hx; rfl
    · have hb : (x != 0) = true := by simpa using hx
      simp only [List.takeWhile_cons, hb, if_true, List.length_cons, ih]

theorem take_pad_length (text : List Nat) (n : Nat) :
    ((text ++ List.replicate n 0).take n).length = n := by
  simp

theorem uint16_chunks_length (values : List Nat) (n : Nat) :
    (((List.range n).map (fun i => uint16_bytes (values.getD i 0))).map List.length).sum
      = 2 * n := by
  induction n with
  | zero => rfl
  | succ k ih =>
    rw [List.range_succ, List.map_append, List.map_append, List.sum_append, ih]
    simp [uint16_bytes]
    omega

theorem text_item_writer_length (type text : List Nat) (h : 24 + strlen text < 2 ^ 32) :
    (ilst_text_item type text).size = 24 + strlen text
      ∧ (ilst_text_item type text).size = 8 + writer_length (ilst_text_item type text) := by
  have e : strlen text % 2 ^ 32 = strlen text := Nat.mod_eq_of_lt (by omega)
  have e2 : (24 + strlen text) % 2 ^ 32 = 24 + strlen text := Nat.mod_eq_of_lt h
  simp only [ilst_text_item, writer_length, Atom.size, Atom.to_buffer, Atom.data,
    _meta_write_chunks, e, e2]
  simp [uint32_bytes, chars]
  omega

theorem custom_item_writer_length (name text : List Nat)
    (h : 8 + 28 + (12 + strlen name) + (16 + strlen text) < 2 ^ 32) :
    (ilst_custom_item name text).size = 8 + 28 + (12 + strlen name) + (16 + strlen text)
      ∧ (ilst_custom_item name text).size = 8 + writer_length (ilst_custom_item name text) := by
  have e : strlen text % 2 ^ 32 = strlen text := Nat.mod_eq_of_lt (by omega)
  have e2 : (8 + 28 + (12 + strlen name) + (16 + strlen text)) % 2 ^ 32
      = 8 + 28 + (12 + strlen name) + (16 + strlen text) := Nat.mod_eq_of_lt h
  have e3 := strlen_le (strdup name)
  have e4 := strlen_strdup name
  simp only [ilst_custom_item, writer_length, Atom.size, Atom.to_buffer, Atom.data,
    _meta_write_chunks, e, e2]
  simp [uint32_bytes, chars]
  omega

theorem track_disc_item_writer_length (type : List Nat) (index total : Nat) :
    (ilst_track_disc_item type index total).size = 30
      ∧ (ilst_track_disc_item type index total).size
        = 8 + writer_length (ilst_track_disc_item type index total) := by
  simp only [ilst_track_disc_item, writer_length, Atom.size, Atom.to_buffer, Atom.data,
    _meta_write_chunks]
  simp [uint32_bytes, uint16_bytes, chars, List.range, List.range.loop]

theorem genre_item_writer_length (text : List Nat) (h : 24 + strlen text < 2 ^ 32) :
    (ilst_genre_item text).size < 2 ^ 32
      ∧ (ilst_genre_item text).size = 8 + writer_length (ilst_genre_item text) := by
  have e : strlen text % 2 ^ 32 = strlen text := Nat.mod_eq_of_lt (by omega)
  have e2 : (24 + strlen text) % 2 ^ 32 = 24 + strlen text := Nat.mod_eq_of_lt h
  unfold ilst_genre_item
  by_cases hc : mp4p_genre_index_for_name text ≠ 0
  · rw [if_pos hc]
    simp only [writer_length, Atom.size, Atom.to_buffer, Atom.data, _meta_write_chunks]
    simp [uint32_bytes, uint16_bytes, chars, List.range, List.range.loop]
  · rw [if_neg hc]
    simp only [writer_length, Atom.size, Atom.to_buffer, Atom.data, _meta_write_chunks, e, e2]
    simp [uint32_bytes, chars]
    omega

theorem hdlr_writer_length (a : Atom) (type subtype manufacturer : List Nat)
    (htype : 4 ≤ type.length) (hsubtype : 4 ≤ subtype.length)
    (hmanufacturer : 4 ≤ manufacturer.length) :
    (mp4p_hdlr_init a type subtype manufacturer).size = 33
      ∧ (mp4p_hdlr_init a type subtype manufacturer).size
        = 8 + writer_length (mp4p_hdlr_init a type subtype manufacturer) := by
  simp only [mp4p_hdlr_init, writer_length, Atom.size, Atom.to_buffer, Atom.data,
    _hdlr_write_chunks]
  simp [uint32_bytes]
  omega
theorem meta_leaf_write_enough (pos size : Nat) (type : List Nat) (m : mp4p_meta_t)
    (htype : 4 ≤ type.length)
    (hsize : size
      = 8 + writer_length (Atom.mk pos size type (.meta m) (some Writer._meta_write) []))
    (mem : List Nat) (buffer buffer_size : Nat) (hbs : size ≤ buffer_size)
    (hlt : buffer_size < 2 ^ 32) :
    ∃ mem1, atom_to_buffer_write (Atom.mk pos size type (.meta m) (some Writer._meta_write) [])
        mem buffer buffer_size = some (size, mem1) :=
  leaf_write_enough pos size type (.meta m) Writer._meta_write (_meta_write_chunks m) htype
    hsize (fun _ _ _ => rfl) mem buffer buffer_size hbs hlt

theorem hdlr_leaf_write_enough (pos size : Nat) (type : List Nat) (hdlr : mp4p_hdlr_t)
    (htype : 4 ≤ type.length)
    (hsize : size
      = 8 + writer_length (Atom.mk pos size type (.hdlr hdlr) (some Writer._hdlr_write) []))
    (mem : List Nat) (buffer buffer_size : Nat) (hbs : size ≤ buffer_size)
    (hlt : buffer_size < 2 ^ 32) :
    ∃ mem1, atom_to_buffer_write (Atom.mk pos size type (.hdlr hdlr) (some Writer._hdlr_write) [])
        mem buffer buffer_size = some (size, mem1) :=
  leaf_write_enough pos size type (.hdlr hdlr) Writer._hdlr_write (_hdlr_write_chunks hdlr) htype
    hsize (fun _ _ _ => rfl) mem buffer buffer_size hbs hlt

theorem subatoms_write_enough (buffer : Nat) :
    ∀ (cs : List Atom), (∀ c ∈ cs, WritesItsSize c) →
      ∀ (mem : List Nat) (buffer_size : Nat),
        (cs.map atom_to_buffer_size).sum ≤ buffer_size → buffer_size < 2 ^ 32 →
        ∃ mem1, subatoms_write cs mem buffer buffer_size
          = some (buffer_size - (cs.map atom_to_buffer_size).sum, mem1) := by
  intro cs
  induction cs with
  | nil => intro _ mem buffer_size _ _; exact ⟨mem, by simp [subatoms_write]⟩
  | cons c cs ih =>
    intro hcs mem buffer_size hbs hlt
    simp only [List.map_cons, List.sum_cons] at hbs ⊢
    obtain ⟨_, hc⟩ := hcs c (List.mem_cons_self _ _)
    obtain ⟨mem1, h1⟩ := hc mem buffer buffer_size (by omega) hlt
    rw [subatoms_write, h1]
    simp only
    have e : (buffer_size + 2 ^ 32 - atom_to_buffer_size c) % 2 ^ 32
        = buffer_size - atom_to_buffer_size c := by omega
    rw [e]
    obtain ⟨mem2, h2⟩ := ih (fun x hx => hcs x (List.mem_cons_of_mem _ hx)) mem1
      (buffer_size - atom_to_buffer_size c) (by omega) (by omega)
    refine ⟨mem2, ?_⟩
    rw [h2]
    congr 2
    omega

theorem container_write_enough (pos size : Nat) (type : List Nat) (data : Payload)
    (to_buffer : Option Writer) (c : Atom) (cs : List Atom) (htype : 4 ≤ type.length)
    (hcs : ∀ x ∈ c :: cs, WritesItsSize x)
    (hsize : 8 + ((c :: cs).map atom_to_buffer_size).sum < 2 ^ 32) :
    WritesItsSize (Atom.mk pos size type data to_buffer (c :: cs)) := by
  have h1 := subatoms_size_mod (c :: cs) 8
  have h2 := subatoms_size_lt (c :: cs) 8 (by norm_num)
  rw [Nat.mod_eq_of_lt h2, Nat.mod_eq_of_lt hsize] at h1
  have hsz : atom_to_buffer_size (Atom.mk pos size type data to_buffer (c :: cs))
      = 8 + ((c :: cs).map atom_to_buffer_size).sum := by
    rw [atom_to_buffer_size, h1]
  refine ⟨by rw [hsz]; exact hsize, ?_⟩
  intro mem buffer buffer_size hbs hlt
  rw [hsz] at hbs ⊢
  have hlen : (uint32_bytes (subatoms_size (c :: cs) 8)).length = 4 := rfl
  have hhdr : ([uint32_bytes (subatoms_size (c :: cs) 8), type.take 4].map List.length).sum
      = 8 := by
    simp only [List.map_cons, List.map_nil, List.sum_cons, List.sum_nil, hlen,
      List.length_take]
    omega
  obtain ⟨st, e1, e2, _⟩ := write_chunks_enough
    [uint32_bytes (subatoms_size (c :: cs) 8), type.take 4]
    ⟨mem, buffer, buffer_size⟩ (by rw [hhdr]; simp only; omega)
  rw [hhdr] at e2
  simp only at e2
  obtain ⟨mem1, e3⟩ := subatoms_write_enough st.buffer (c :: cs) hcs st.mem st.buffer_size
    (by omega) (by omega)
  refine ⟨mem1, ?_⟩
  rw [atom_to_buffer_write, e1]
  simp only
  rw [e3]
  simp only
  have e : (buffer_size + 2 ^ 32
      - (st.buffer_size - ((c :: cs).map atom_to_buffer_size).sum)) % 2 ^ 32
      = subatoms_size (c :: cs) 8 := by
    rw [h1]; omega
  rw [e, if_pos rfl, h1]

theorem built_writes_its_size (atom : Atom) (h : Built atom) : WritesItsSize atom := by
  induction h with
  | container type cs htype _ hsize ih =>
    rw [foldl_atom_append]
    simp only [mp4p_atom_new, Atom.setSubatoms, Atom.subatoms, List.nil_append]
    cases cs with
    | nil =>
      refine ⟨by rw [atom_to_buffer_size]; norm_num, ?_⟩
      intro mem buffer buffer_size _ _
      exact ⟨mem, by rw [atom_to_buffer_write, if_pos rfl, atom_to_buffer_size]⟩
    | cons c cs =>
      exact container_write_enough 0 0 (type.take 4) .none none c cs
        (by rw [List.length_take]; omega) ih hsize
  | hdlr atype type subtype manufacturer hatype htype hsubtype hmanufacturer =>
    have hw := (hdlr_writer_length (mp4p_atom_new atype) type subtype manufacturer
      htype hsubtype hmanufacturer).2
    simp only [mp4p_hdlr_init, mp4p_atom_new, Atom.pos, Atom.type, Atom.subatoms, Atom.size]
      at hw ⊢
    refine ⟨by rw [atom_to_buffer_size]; norm_num, ?_⟩
    intro mem buffer buffer_size hbs hlt
    rw [atom_to_buffer_size] at hbs ⊢
    exact hdlr_leaf_write_enough 0 33 (atype.take 4) _
      (by rw [List.length_take]; omega) hw mem buffer buffer_size hbs hlt
  | text type text htype hsize =>
    obtain ⟨hs, hw⟩ := text_item_writer_length type text hsize
    simp only [ilst_text_item, Atom.size] at hs hw ⊢
    refine ⟨by rw [atom_to_buffer_size, hs]; exact hsize, ?_⟩
    intro mem buffer buffer_size hbs hlt
    rw [atom_to_buffer_size] at hbs ⊢
    exact meta_leaf_write_enough 0 _ (type.take 4) _
      (by rw [List.length_take]; omega) hw mem buffer buffer_size hbs hlt
  | custom name text hsize =>
    obtain ⟨hs, hw⟩ := custom_item_writer_length name text hsize
    simp only [ilst_custom_item, Atom.size] at hs hw ⊢
    refine ⟨by rw [atom_to_buffer_size, hs]; exact hsize, ?_⟩
    intro mem buffer buffer_size hbs hlt
    rw [atom_to_buffer_size] at hbs ⊢
    exact meta_leaf_write_enough 0 _ (chars "----") _
      (by decide) hw mem buffer buffer_size hbs hlt
  | genre text hsize =>
    obtain ⟨hs, hw⟩ := genre_item_writer_length text hsize
    unfold ilst_genre_item at hs hw ⊢
    by_cases hc : mp4p_genre_index_for_name text ≠ 0
    · rw [if_pos hc] at hs hw ⊢
      simp only [Atom.size] at hs hw
      refine ⟨by rw [atom_to_buffer_size]; norm_num, ?_⟩
      intro mem buffer buffer_size hbs hlt
      rw [atom_to_buffer_size] at hbs ⊢
      exact meta_leaf_write_enough 0 _ (chars "gnre") _
        (by decide) hw mem buffer buffer_size hbs hlt
    · rw [if_neg hc] at hs hw ⊢
      simp only [Atom.size] at hs hw
      refine ⟨by rw [atom_to_buffer_size]; exact hs, ?_⟩
      intro mem buffer buffer_size hbs hlt
      rw [atom_to_buffer_size] at hbs ⊢
      exact meta_leaf_write_enough 0 _ (COPYRIGHT_SYM ++ chars "gen") _
        (by decide) hw mem buffer buffer_size hbs hlt
  | track_disc type index total htype =>
    obtain ⟨hs, hw⟩ := track_disc_item_writer_length type index total
    simp only [ilst_track_disc_item, Atom.size] at hs hw ⊢
    refine ⟨by rw [atom_to_buffer_size]; norm_num, ?_⟩
    intro mem buffer buffer_size hbs hlt
    rw [atom_to_buffer_size] at hbs ⊢
    exact meta_leaf_write_enough 0 _ (type.take 4) _
      (by rw [List.length_take]; omega) hw mem buffer buffer_size hbs hlt
/-- C34: for a tree made of `mp4p_atom_new` containers, an `hdlr` set up by
`mp4p_hdlr_init` and items made by `mp4p_ilst_append_text`, `_custom`,
`_genre` and `_track_disc`, with sizes that fit the 32-bit size field and
types of four bytes, and for a `buffer_size` at least the size-only result,
the call with a buffer returns exactly the size-only result, so that neither
assertion fails; and the declared size of an atom with a writer is 8 plus the
number of bytes its writer emits. -/
theorem C34_built_tree_returns_its_size (atom : Atom) (h : Built atom) (mem : List Nat)
    (buffer buffer_size : Nat) (hlt : buffer_size < 2 ^ 32)
    (hbs : atom_to_buffer_size atom ≤ buffer_size) :
    mp4p_atom_to_buffer atom mem none 0 = some (atom_to_buffer_size atom, mem)
      ∧ (∃ mem1, mp4p_atom_to_buffer atom mem (some buffer) buffer_size
          = some (atom_to_buffer_size atom, mem1))
      ∧ (atom.to_buffer.isSome → atom.size = 8 + writer_length atom) := by
  refine ⟨rfl, (built_writes_its_size atom h).2 mem buffer buffer_size hbs hlt, ?_⟩
  cases h with
  | container type cs htype _ hsize =>
    rw [foldl_atom_append]
    intro hw
    simp [mp4p_atom_new, Atom.setSubatoms, Atom.to_buffer] at hw
  | hdlr atype type subtype manufacturer hatype htype hsubtype hmanufacturer =>
    intro _
    exact (hdlr_writer_length _ type subtype manufacturer htype hsubtype hmanufacturer).2
  | text type text htype hsize => intro _; exact (text_item_writer_length type text hsize).2
  | custom name text hsize => intro _; exact (custom_item_writer_length name text hsize).2
  | genre text hsize => intro _; exact (genre_item_writer_length text hsize).2
  | track_disc type index total htype =>
    intro _; exact (track_disc_item_writer_length type index total).2

theorem C34_built_tree_returns_its_size_witness :
    atom_to_buffer_size
        ([mp4p_hdlr_init (mp4p_atom_new (chars "hdlr")) (chars "mdir") (chars "appl") [0, 0, 0, 0],
          [ilst_text_item (COPYRIGHT_SYM ++ chars "nam") (chars "T"),
           ilst_track_disc_item (chars "trkn") 5 12].foldl mp4p_atom_append
            (mp4p_atom_new (chars "ilst"))].foldl mp4p_atom_append
          (mp4p_atom_new (chars "meta"))) = 104
      ∧ ∃ mem1, mp4p_atom_to_buffer
        ([mp4p_hdlr_init (mp4p_atom_new (chars "hdlr")) (chars "mdir") (chars "appl") [0, 0, 0, 0],
          [ilst_text_item (COPYRIGHT_SYM ++ chars "nam") (chars "T"),
           ilst_track_disc_item (chars "trkn") 5 12].foldl mp4p_atom_append
            (mp4p_atom_new (chars "ilst"))].foldl mp4p_atom_append
          (mp4p_atom_new (chars "meta"))) (List.replicate 104 0) (some 0) 104
        = some (104, mem1) := by
  have hsz : atom_to_buffer_size
        ([mp4p_hdlr_init (mp4p_atom_new (chars "hdlr")) (chars "mdir") (chars "appl") [0, 0, 0, 0],
          [ilst_text_item (COPYRIGHT_SYM ++ chars "nam") (chars "T"),
           ilst_track_disc_item (chars "trkn") 5 12].foldl mp4p_atom_append
            (mp4p_atom_new (chars "ilst"))].foldl mp4p_atom_append
          (mp4p_atom_new (chars "meta"))) = 104 := by
    simp only [List.foldl, mp4p_atom_append, mp4p_atom_new, mp4p_hdlr_init, ilst_text_item,
      ilst_track_disc_item, Atom.setSubatoms, Atom.subatoms, List.nil_append, List.cons_append,
      atom_to_buffer_size, subatoms_size]
    rfl
  have hilst : atom_to_buffer_size
        ([ilst_text_item (COPYRIGHT_SYM ++ chars "nam") (chars "T"),
           ilst_track_disc_item (chars "trkn") 5 12].foldl mp4p_atom_append
            (mp4p_atom_new (chars "ilst"))) = 63 := by
    simp only [List.foldl, mp4p_atom_append, mp4p_atom_new, ilst_text_item,
      ilst_track_disc_item, Atom.setSubatoms, Atom.subatoms, List.nil_append, List.cons_append,
      atom_to_buffer_size, subatoms_size]
    rfl
  have htext : atom_to_buffer_size (ilst_text_item (COPYRIGHT_SYM ++ chars "nam") (chars "T"))
      = 25 := by
    simp only [ilst_text_item, atom_to_buffer_size]; rfl
  have htrkn : atom_to_buffer_size (ilst_track_disc_item (chars "trkn") 5 12) = 30 := by
    simp only [ilst_track_disc_item, atom_to_buffer_size]
  have hhdlr : atom_to_buffer_size
      (mp4p_hdlr_init (mp4p_atom_new (chars "hdlr")) (chars "mdir") (chars "appl") [0, 0, 0, 0])
      = 33 := by
    simp only [mp4p_hdlr_init, mp4p_atom_new, Atom.subatoms, atom_to_buffer_size]
  refine ⟨hsz, ?_⟩
  have h := (C34_built_tree_returns_its_size _
    (Built.container (chars "meta")
      [mp4p_hdlr_init (mp4p_atom_new (chars "hdlr")) (chars "mdir") (chars "appl") [0, 0, 0, 0],
       [ilst_text_item (COPYRIGHT_SYM ++ chars "nam") (chars "T"),
        ilst_track_disc_item (chars "trkn") 5 12].foldl mp4p_atom_append
         (mp4p_atom_new (chars "ilst"))] (by decide)
      (fun c hc => by
        simp only [List.mem_cons, List.mem_singleton, List.not_mem_nil, or_false] at hc
        rcases hc with rfl | rfl
        · exact Built.hdlr (chars "hdlr") (chars "mdir") (chars "appl") [0, 0, 0, 0]
            (by decide) (by decide) (by decide) (by decide)
        · exact Built.container (chars "ilst")
            [ilst_text_item (COPYRIGHT_SYM ++ chars "nam") (chars "T"),
             ilst_track_disc_item (chars "trkn") 5 12] (by decide)
            (fun c hc => by
              simp only [List.mem_cons, List.mem_singleton, List.not_mem_nil, or_false] at hc
              rcases hc with rfl | rfl
              · exact Built.text _ _ (by decide) (by decide)
              · exact Built.track_disc _ 5 12 (by decide))
            (by
              simp only [List.map_cons, List.map_nil, List.sum_cons, List.sum_nil, htext, htrkn]
              norm_num))
      (by
        simp only [List.map_cons, List.map_nil, List.sum_cons, List.sum_nil, hhdlr, hilst]
        norm_num))
    (List.replicate 104 0) 0 104 (by norm_num) (by rw [hsz])).2.1
  rw [hsz] at h
  exact h

/-! ## Placement of the rewritten metadata -/

theorem poke_length (mem : List Nat) (off : Nat) (bytes : List Nat)
    (h : off + bytes.length ≤ mem.length) : (poke mem off bytes).length = mem.length := by
  unfold poke
  simp only [List.length_append, List.length_take, List.length_drop]
  omega

theorem poke_getElem? (mem : List Nat) (off : Nat) (bytes : List Nat)
    (h : off + bytes.length ≤ mem.length) (i : Nat) :
    (poke mem off bytes)[i]?
      = if i < off then mem[i]? else if i < off + bytes.length then bytes[i - off]? else mem[i]? := by
  have h1 : (mem.take off).length = off := by rw [List.length_take]; omega
  unfold poke
  by_cases c1 : i < off
  · rw [if_pos c1, List.getElem?_append_left (by omega), List.getElem?_take_of_lt c1]
  · rw [if_neg c1, List.getElem?_append_right (by omega), h1]
    by_cases c2 : i < off + bytes.length
    · rw [if_pos c2, List.getElem?_append_left (by omega)]
    · rw [if_neg c2, List.getElem?_append_right (by omega), List.getElem?_drop]
      congr 1
      omega

theorem slice_eq_of_getElem? (a b : List Nat) (p n : Nat)
    (h : ∀ i, p ≤ i → i < p + n → a[i]? = b[i]?) :
    (a.drop p).take n = (b.drop p).take n := by
  apply List.ext_getElem?
  intro i
  by_cases c : i < n
  · rw [List.getElem?_take_of_lt c, List.getElem?_take_of_lt c, List.getElem?_drop,
      List.getElem?_drop]
    exact h _ (by omega) (by omega)
  · rw [List.getElem?_eq_none (by rw [List.length_take]; omega),
      List.getElem?_eq_none (by rw [List.length_take]; omega)]

theorem poke_slice (mem : List Nat) (off : Nat) (bytes : List Nat)
    (h : off + bytes.length ≤ mem.length) :
    ((poke mem off bytes).drop off).take bytes.length = bytes := by
  apply List.ext_getElem?
  intro i
  by_cases c : i < bytes.length
  · rw [List.getElem?_take_of_lt c, List.getElem?_drop, poke_getElem? mem off bytes h,
      if_neg (by omega), if_pos (by omega)]
    congr 1
    omega
  · rw [List.getElem?_eq_none (by rw [List.length_take]; omega),
      List.getElem?_eq_none (by omega)]
theorem take_eq_of_getElem? (a b : List Nat) (n : Nat)
    (h : ∀ i, i < n → a[i]? = b[i]?) : a.take n = b.take n := by
  have := slice_eq_of_getElem? a b 0 n (fun i _ hi => h i (by omega))
  simpa using this

theorem drop_eq_of_getElem? (a b : List Nat) (p : Nat)
    (h : ∀ i, p ≤ i → a[i]? = b[i]?) : a.drop p = b.drop p := by
  apply List.ext_getElem?
  intro i
  rw [List.getElem?_drop, List.getElem?_drop]
  exact h _ (by omega)

theorem slice_eq_list (a : List Nat) (p : Nat) (l : List Nat)
    (h : ∀ i, i < l.length → a[p + i]? = l[i]?) : (a.drop p).take l.length = l := by
  apply List.ext_getElem?
  intro i
  by_cases c : i < l.length
  · rw [List.getElem?_take_of_lt c, List.getElem?_drop]
    exact h i c
  · rw [List.getElem?_eq_none (by rw [List.length_take]; omega),
      List.getElem?_eq_none (by omega)]

/-- C32: the placement decision. When the new block is no larger than the old
extent minus 8 bytes, the file keeps its length, the new block stands at the
offset of the old one, the 8 bytes after it are the header of a `free` atom
whose size is what is left of the old extent, and the bytes before and after
the old extent are unchanged. Otherwise the four type bytes of the movie atom
on disk are `free`, the new movie atom stands after the last top-level atom,
and every other byte before it is unchanged. In both cases the bytes of a
media-data atom that lies outside the movie atom stand where they stood. -/
theorem C32_placement_decision (file new_block new_moov : List Nat)
    (moov_pos moov_size old_pos old_size end_pos mdat_pos mdat_size : Nat)
    (hmoov : 8 ≤ moov_size) (hmoov_end : moov_pos + moov_size ≤ end_pos)
    (hend : end_pos ≤ file.length)
    (hold : moov_pos + 8 ≤ old_pos) (hold_end : old_pos + old_size ≤ moov_pos + moov_size)
    (hmdat_end : mdat_pos + mdat_size ≤ end_pos)
    (hmdat : mdat_pos + mdat_size ≤ moov_pos ∨ moov_pos + moov_size ≤ mdat_pos) :
    (new_block.length + 8 ≤ old_size →
      (mp4p_update_metadata_placement file moov_pos old_pos old_size end_pos new_block
          new_moov).length = file.length
        ∧ ((mp4p_update_metadata_placement file moov_pos old_pos old_size end_pos new_block
            new_moov).drop old_pos).take new_block.length = new_block
        ∧ ((mp4p_update_metadata_placement file moov_pos old_pos old_size end_pos new_block
            new_moov).drop (old_pos + new_block.length)).take 8
            = uint32_bytes (old_size - new_block.length) ++ chars "free"
        ∧ new_block.length + (old_size - new_block.length) = old_size
        ∧ (mp4p_update_metadata_placement file moov_pos old_pos old_size end_pos new_block
            new_moov).take old_pos = file.take old_pos
        ∧ (mp4p_update_metadata_placement file moov_pos old_pos old_size end_pos new_block
            new_moov).drop (old_pos + new_block.length + 8)
            = file.drop (old_pos + new_block.length + 8))
      ∧ (¬ new_block.length + 8 ≤ old_size →
        mp4p_update_metadata_placement file moov_pos old_pos old_size end_pos new_block new_moov
          = file.take (moov_pos + 4) ++ (chars "free"
              ++ ((file.drop (moov_pos + 8)).take (end_pos - (moov_pos + 8)) ++ new_moov)))
      ∧ ((mp4p_update_metadata_placement file moov_pos old_pos old_size end_pos new_block
            new_moov).drop mdat_pos).take mdat_size = (file.drop mdat_pos).take mdat_size := by
  have hfree : (chars "free").length = 4 := rfl
  have hfit : moov_pos + 4 + (chars "free").length ≤ file.length := by rw [hfree]; omega
  refine ⟨?_, ?_, ?_⟩
  · intro hc
    have hB : (new_block ++ (uint32_bytes (old_size - new_block.length) ++ chars "free")).length
        = new_block.length + 8 := by
      simp only [List.length_append, hfree]
      rfl
    have hin : old_pos
        + (new_block ++ (uint32_bytes (old_size - new_block.length) ++ chars "free")).length
        ≤ file.length := by rw [hB]; omega
    unfold mp4p_update_metadata_placement
    rw [if_pos hc]
    refine ⟨poke_length _ _ _ hin, ?_, ?_, by omega, ?_, ?_⟩
    · apply slice_eq_list
      intro i hi
      rw [poke_getElem? _ _ _ hin, if_neg (by omega), if_pos (by rw [hB]; omega),
        List.getElem?_append_left (by omega)]
      congr 1
      omega
    · have h8 : (uint32_bytes (old_size - new_block.length) ++ chars "free").length = 8 := rfl
      rw [← h8]
      apply slice_eq_list
      intro i hi
      rw [h8] at hi
      rw [poke_getElem? _ _ _ hin, if_neg (by omega), if_pos (by rw [hB]; omega),
        List.getElem?_append_right (by omega)]
      congr 1
      omega
    · apply take_eq_of_getElem?
      intro i hi
      rw [poke_getElem? _ _ _ hin, if_pos hi]
    · apply drop_eq_of_getElem?
      intro i hi
      rw [poke_getElem? _ _ _ hin, if_neg (by omega), if_neg (by rw [hB]; omega)]
  · intro hc
    unfold mp4p_update_metadata_placement
    rw [if_neg hc]
    unfold poke
    have h1 : (file.take (moov_pos + 4)).length = moov_pos + 4 := by
      rw [List.length_take]; omega
    rw [List.take_append_eq_append_take, h1,
      List.take_of_length_le (l := file.take (moov_pos + 4)) (by rw [h1]; omega),
      List.take_append_eq_append_take,
      List.take_of_length_le (l := chars "free") (by rw [hfree]; omega), hfree,
      List.append_assoc, List.append_assoc]
    have e1 : end_pos - (moov_pos + 4) - 4 = end_pos - (moov_pos + 8) := by omega
    have e2 : moov_pos + 4 + 4 = moov_pos + 8 := by omega
    rw [e1, e2]
  · apply slice_eq_of_getElem?
    intro i h1 h2
    unfold mp4p_update_metadata_placement
    by_cases hc : new_block.length + 8 ≤ old_size
    · have hB : (new_block ++ (uint32_bytes (old_size - new_block.length) ++ chars "free")).length
          = new_block.length + 8 := by
        simp only [List.length_append, hfree]
        rfl
      have hin : old_pos
          + (new_block ++ (uint32_bytes (old_size - new_block.length) ++ chars "free")).length
          ≤ file.length := by rw [hB]; omega
      rw [if_pos hc, poke_getElem? _ _ _ hin]
      by_cases c1 : i < old_pos
      · rw [if_pos c1]
      · rw [if_neg c1, if_neg (by rw [hB]; omega)]
    · rw [if_neg hc, List.getElem?_append_left
        (by rw [List.length_take, poke_length _ _ _ hfit]; omega),
        List.getElem?_take_of_lt (by omega), poke_getElem? _ _ _ hfit]
      by_cases c1 : i < moov_pos + 4
      · rw [if_pos c1]
      · rw [if_neg c1, if_neg (by rw [hfree]; omega)]
theorem C32_placement_decision_witness :
    ((mp4p_update_metadata_placement
        ([0, 0, 0, 8] ++ chars "ftyp" ++ [0, 0, 0, 12] ++ chars "mdat" ++ [1, 2, 3, 4]
          ++ [0, 0, 0, 28] ++ chars "moov" ++ [0, 0, 0, 20] ++ chars "udta"
          ++ [0, 0, 0, 12, 7, 7, 7, 7, 7, 7, 7, 7])
        20 28 20 48 ([0, 0, 0, 10] ++ chars "udta" ++ [9, 9])
        ([0, 0, 0, 18] ++ chars "moov" ++ [0, 0, 0, 10] ++ chars "udta" ++ [9, 9])).drop 8).take 12
      = [0, 0, 0, 12] ++ chars "mdat" ++ [1, 2, 3, 4] :=
  (C32_placement_decision
    ([0, 0, 0, 8] ++ chars "ftyp" ++ [0, 0, 0, 12] ++ chars "mdat" ++ [1, 2, 3, 4]
      ++ [0, 0, 0, 28] ++ chars "moov" ++ [0, 0, 0, 20] ++ chars "udta"
      ++ [0, 0, 0, 12, 7, 7, 7, 7, 7, 7, 7, 7])
    ([0, 0, 0, 10] ++ chars "udta" ++ [9, 9])
    ([0, 0, 0, 18] ++ chars "moov" ++ [0, 0, 0, 10] ++ chars "udta" ++ [9, 9])
    20 28 28 20 48 8 12 (by decide) (by decide) (by decide) (by decide) (by decide)
    (by decide) (by decide)).2.2

end Mp4
